import Mathlib

/-!
Verification of ndn-cpp: Interest change tracking, wire-format wrappers and the TLV codec

A shallow embedding of parts of the ndn-cpp client library:

* `include/ndn-cpp/interest.hpp`: the `Interest` packet model with its change counter
  and cached nonce;
* `src/encoding/tlv-0_1-wire-format.cpp`: the C++ wrappers around the C TLV codec;
* the TLV codec itself (variable-length numbers, nested blocks, Data packets), which
  lives in the C library `src/c/encoding/tlv/` and is modelled from the specification.

Bytes are natural numbers below 256 and a byte buffer is a `List Nat`.
Unsigned 64-bit counters are natural numbers reduced modulo `2 ^ 64` on every increment.
-/

namespace NdnCpp

set_option autoImplicit false
set_option maxRecDepth 100000

/-! ## Basic types -/

/-- The number of values of a `uint64_t`. -/
def UINT64_SIZE : Nat := 2 ^ 64

/-- Modelled from the spec: `Blob` (`blob.hpp`, not among the sources), an immutable byte
array; `Blob()` is the empty blob `[]`. -/
abbrev Blob := List Nat

/-- Modelled from the spec: `Name::Component` (`name.hpp`, not among the sources), an opaque
byte string. -/
abbrev NameComponent := List Nat

/-- Modelled from the spec: `Name` (`name.hpp`, not among the sources), an ordered sequence
of components. -/
abbrev Name := List NameComponent

/-- Modelled from the spec: the deprecated `PublisherPublicKeyDigest`
(`publisher-public-key-digest.hpp`, not among the sources), which holds a digest blob. -/
abbrev PublisherPublicKeyDigest := Blob

/-- The fields of a `KeyLocator` as `KeyLocator::get` in `key-locator.cpp` lists them. -/
structure KeyLocator where
  type_ : Int
  keyData_ : Blob
  keyName_ : Name
  keyNameType_ : Int
deriving DecidableEq, Repr

/-- Modelled from the spec: `Exclude` (`exclude.hpp`, not among the sources), a list of
entries, `none` standing for the ANY entry. -/
abbrev Exclude := List (Option NameComponent)

/-- Modelled from the spec: a child object (`Name`, `KeyLocator`, `Exclude`,
`PublisherPublicKeyDigest`, whose classes are not among the sources) together with the value
its own `getChangeCount()` returns. Every mutating method of a child (`append`, `clear`,
`setType`, ...) advances `changeCount` by one in `uint64_t` arithmetic. -/
structure Counted (α : Type) where
  value : α
  changeCount : Nat
deriving DecidableEq, Repr

/-- Modelled from the spec: a mutating call on a child object: the value becomes `v` and the
child's change count is incremented. -/
def Counted.mutate {α : Type} (c : Counted α) (v : α) : Counted α :=
  { value := v, changeCount := (c.changeCount + 1) % UINT64_SIZE }

/-- Modelled from the spec: `ChangeCounter<T>` of `util/change-counter.hpp`, which is not
among the sources. It wraps a target object and remembers the target's change count as
last observed; `checkChanged` reports whether the target's count has advanced since then
and records the new count. -/
structure ChangeCounter (α : Type) where
  target_ : Counted α
  changeCount_ : Nat
deriving DecidableEq, Repr

/-- Modelled from the spec: the constructor `ChangeCounter(const T& target)` and
`set(target)` of `util/change-counter.hpp`: store the target and
observe its change count. -/
def ChangeCounter.set {α : Type} (target : Counted α) : ChangeCounter α :=
  { target_ := target, changeCount_ := target.changeCount }

/-- Modelled from the spec: the method `checkChanged()` of `util/change-counter.hpp`: `true`
exactly when the target's change count differs from
the one last observed, in which case the new count is recorded. -/
def ChangeCounter.checkChanged {α : Type} (c : ChangeCounter α) : Bool × ChangeCounter α :=
  if c.changeCount_ != c.target_.changeCount then
    (true, { c with changeCount_ := c.target_.changeCount })
  else
    (false, c)

/-- Modelled from the spec: a mutation of the wrapped object through the reference that
`get()` of `util/change-counter.hpp` returns. -/
def ChangeCounter.mutateTarget {α : Type} (c : ChangeCounter α) (v : α) : ChangeCounter α :=
  { c with target_ := c.target_.mutate v }

/-- The target's change count is the one last observed, or that count advanced by between
one and `k` increments. -/
def ChangeCounter.AdvancedBy {α : Type} (c : ChangeCounter α) (k : Nat) : Prop :=
  c.target_.changeCount = c.changeCount_ ∨
    ∃ p : Nat, 0 < p ∧ p ≤ k ∧ c.target_.changeCount = (c.changeCount_ + p) % UINT64_SIZE

/-- Modelled from the spec: the constant `ndn_Interest_ANSWER_STALE` of `c/interest-types.h`
(not among the sources), the stale bit of `answerOriginKind_`; its value in ndn-cpp is 4. -/
def ndn_Interest_ANSWER_STALE : Int := 4

/-! ## The Interest class of `interest.hpp` -/

/-- The private members of `class Interest`. `Milliseconds` values are kept as integers. -/
structure Interest where
  name_ : ChangeCounter Name
  minSuffixComponents_ : Int
  maxSuffixComponents_ : Int
  publisherPublicKeyDigest_ : ChangeCounter PublisherPublicKeyDigest
  keyLocator_ : ChangeCounter KeyLocator
  exclude_ : ChangeCounter Exclude
  childSelector_ : Int
  answerOriginKind_ : Int
  scope_ : Int
  interestLifetimeMilliseconds_ : Int
  nonce_ : Blob
  getNonceChangeCount_ : Nat
  changeCount_ : Nat
deriving DecidableEq, Repr

namespace Interest

/-- Modelled from the spec: a default constructed `Name`, `KeyLocator`, `Exclude` or digest
(classes not among the sources) has change count 0. -/
def freshChild {α : Type} (v : α) : ChangeCounter α :=
  ChangeCounter.set { value := v, changeCount := 0 }

/-- Modelled from the spec: the default constructed `KeyLocator` (`key-locator.hpp`, not
among the sources): type and key name type are -1 for none. -/
def emptyKeyLocator : KeyLocator :=
  { type_ := -1, keyData_ := [], keyName_ := [], keyNameType_ := -1 }

/-- The constructor `Interest(const Name& name, Milliseconds interestLifetimeMilliseconds)`:
`construct()` sets the other values to -1 and then the lifetime is stored. -/
def ofNameLifetime (name : Counted Name) (interestLifetimeMilliseconds : Int) : Interest :=
  { name_ := ChangeCounter.set name
    minSuffixComponents_ := -1
    maxSuffixComponents_ := -1
    publisherPublicKeyDigest_ := freshChild []
    keyLocator_ := freshChild emptyKeyLocator
    exclude_ := freshChild []
    childSelector_ := -1
    answerOriginKind_ := -1
    scope_ := -1
    interestLifetimeMilliseconds_ := interestLifetimeMilliseconds
    nonce_ := []
    getNonceChangeCount_ := 0
    changeCount_ := 0 }

/-- The constructor `Interest(const Name& name)`. -/
def ofName (name : Counted Name) : Interest :=
  ofNameLifetime name (-1)

/-- The constructor `Interest()`. -/
def new : Interest :=
  ofName { value := [], changeCount := 0 }

/-- The method `getMustBeFresh()`. -/
def getMustBeFresh (s : Interest) : Bool :=
  decide (s.answerOriginKind_ ≥ 0) &&
    (Int.land s.answerOriginKind_ ndn_Interest_ANSWER_STALE == 0)

/-- The method `getChangeCount()`: every `checkChanged` is called, and the counter is
incremented once when any of them reported a change. Returns the count and the state
the call leaves behind. -/
def getChangeCount (s : Interest) : Nat × Interest :=
  let rName := s.name_.checkChanged
  let changed := rName.1
  let rDigest := s.publisherPublicKeyDigest_.checkChanged
  let changed := rDigest.1 || changed
  let rKeyLocator := s.keyLocator_.checkChanged
  let changed := rKeyLocator.1 || changed
  let rExclude := s.exclude_.checkChanged
  let changed := rExclude.1 || changed
  let s1 : Interest :=
    { s with
      name_ := rName.2
      publisherPublicKeyDigest_ := rDigest.2
      keyLocator_ := rKeyLocator.2
      exclude_ := rExclude.2 }
  let s2 : Interest :=
    if changed then { s1 with changeCount_ := (s1.changeCount_ + 1) % UINT64_SIZE } else s1
  (s2.changeCount_, s2)

/-- The method `getNonce()`: when the change count differs from the one recorded by
`setNonce`, the nonce is cleared and the count recorded again. -/
def getNonce (s : Interest) : Blob × Interest :=
  let r := s.getChangeCount
  if s.getNonceChangeCount_ != r.1 then
    let s1 : Interest := { r.2 with nonce_ := [] }
    let r1 := s1.getChangeCount
    let s2 : Interest := { r1.2 with getNonceChangeCount_ := r1.1 }
    (s2.nonce_, s2)
  else
    (r.2.nonce_, r.2)

/-- The method `setName`. -/
def setName (name : Counted Name) (s : Interest) : Interest :=
  { s with name_ := ChangeCounter.set name
           changeCount_ := (s.changeCount_ + 1) % UINT64_SIZE }

/-- The method `setMinSuffixComponents`. -/
def setMinSuffixComponents (minSuffixComponents : Int) (s : Interest) : Interest :=
  { s with minSuffixComponents_ := minSuffixComponents
           changeCount_ := (s.changeCount_ + 1) % UINT64_SIZE }

/-- The method `setMaxSuffixComponents`. -/
def setMaxSuffixComponents (maxSuffixComponents : Int) (s : Interest) : Interest :=
  { s with maxSuffixComponents_ := maxSuffixComponents
           changeCount_ := (s.changeCount_ + 1) % UINT64_SIZE }

/-- The method `setChildSelector`. -/
def setChildSelector (childSelector : Int) (s : Interest) : Interest :=
  { s with childSelector_ := childSelector
           changeCount_ := (s.changeCount_ + 1) % UINT64_SIZE }

/-- The method `setAnswerOriginKind`. -/
def setAnswerOriginKind (answerOriginKind : Int) (s : Interest) : Interest :=
  { s with answerOriginKind_ := answerOriginKind
           changeCount_ := (s.changeCount_ + 1) % UINT64_SIZE }

/-- The method `setMustBeFresh`: nothing happens when the kind is negative and the flag is
cleared; otherwise the stale bit is cleared or set and the counter incremented. -/
def setMustBeFresh (mustBeFresh : Bool) (s : Interest) : Interest :=
  if s.answerOriginKind_ < 0 then
    if mustBeFresh then setAnswerOriginKind 0 s else s
  else
    let kind :=
      if mustBeFresh then
        Int.land s.answerOriginKind_ (Int.lnot ndn_Interest_ANSWER_STALE)
      else
        Int.lor s.answerOriginKind_ ndn_Interest_ANSWER_STALE
    { s with answerOriginKind_ := kind
             changeCount_ := (s.changeCount_ + 1) % UINT64_SIZE }

/-- The method `setScope`. -/
def setScope (scope : Int) (s : Interest) : Interest :=
  { s with scope_ := scope
           changeCount_ := (s.changeCount_ + 1) % UINT64_SIZE }

/-- The method `setInterestLifetimeMilliseconds`. -/
def setInterestLifetimeMilliseconds (interestLifetimeMilliseconds : Int) (s : Interest) :
    Interest :=
  { s with interestLifetimeMilliseconds_ := interestLifetimeMilliseconds
           changeCount_ := (s.changeCount_ + 1) % UINT64_SIZE }

/-- The method `setNonce`: store the nonce, increment the counter and record the change
count so that the next `getNonce()` keeps the nonce. -/
def setNonce (nonce : Blob) (s : Interest) : Interest :=
  let s1 : Interest :=
    { s with nonce_ := nonce
             changeCount_ := (s.changeCount_ + 1) % UINT64_SIZE }
  let r := s1.getChangeCount
  { r.2 with getNonceChangeCount_ := r.1 }

/-- The method `setKeyLocator`: the assignment builds a `ChangeCounter` from the locator. -/
def setKeyLocator (keyLocator : Counted KeyLocator) (s : Interest) : Interest :=
  { s with keyLocator_ := ChangeCounter.set keyLocator
           changeCount_ := (s.changeCount_ + 1) % UINT64_SIZE }

/-- The ten mutators of `Interest`. -/
inductive Setter where
  | setName (name : Counted Name)
  | setMinSuffixComponents (v : Int)
  | setMaxSuffixComponents (v : Int)
  | setChildSelector (v : Int)
  | setAnswerOriginKind (v : Int)
  | setMustBeFresh (b : Bool)
  | setScope (v : Int)
  | setInterestLifetimeMilliseconds (v : Int)
  | setNonce (nonce : Blob)
  | setKeyLocator (keyLocator : Counted KeyLocator)
deriving DecidableEq, Repr

/-- Run one mutator. -/
def applySetter : Setter → Interest → Interest
  | .setName n, s => setName n s
  | .setMinSuffixComponents v, s => setMinSuffixComponents v s
  | .setMaxSuffixComponents v, s => setMaxSuffixComponents v s
  | .setChildSelector v, s => setChildSelector v s
  | .setAnswerOriginKind v, s => setAnswerOriginKind v s
  | .setMustBeFresh b, s => setMustBeFresh b s
  | .setScope v, s => setScope v s
  | .setInterestLifetimeMilliseconds v, s => setInterestLifetimeMilliseconds v s
  | .setNonce n, s => setNonce n s
  | .setKeyLocator k, s => setKeyLocator k s

/-- A mutating method called on a child through `getName()`, `getKeyLocator()`,
`getExclude()` or `getPublisherPublicKeyDigest()`, leaving the child with the given value. -/
inductive ChildMutation where
  | name (v : Name)
  | publisherPublicKeyDigest (v : PublisherPublicKeyDigest)
  | keyLocator (v : KeyLocator)
  | exclude (v : Exclude)
deriving DecidableEq, Repr

/-- Run one child mutation: only the child changes, the Interest's own members do not. -/
def applyChildMutation : ChildMutation → Interest → Interest
  | .name v, s => { s with name_ := s.name_.mutateTarget v }
  | .publisherPublicKeyDigest v, s =>
      { s with publisherPublicKeyDigest_ := s.publisherPublicKeyDigest_.mutateTarget v }
  | .keyLocator v, s => { s with keyLocator_ := s.keyLocator_.mutateTarget v }
  | .exclude v, s => { s with exclude_ := s.exclude_.mutateTarget v }

/-- Everything a caller can do to an Interest that touches the change tracking. -/
inductive Op where
  | setter (m : Setter)
  | child (m : ChildMutation)
  | getChangeCount
  | getNonce
deriving DecidableEq, Repr

/-- The state after one operation. -/
def step : Op → Interest → Interest
  | .setter m, s => applySetter m s
  | .child m, s => applyChildMutation m s
  | .getChangeCount, s => s.getChangeCount.2
  | .getNonce, s => s.getNonce.2

/-- The state after a sequence of operations, first operation first. -/
def run : List Op → Interest → Interest
  | [], s => s
  | op :: ops, s => run ops (step op s)

/-- The sum of the change counts last observed for the four children. -/
def observedChildCounts (s : Interest) : Nat :=
  s.name_.changeCount_ + s.publisherPublicKeyDigest_.changeCount_ +
    s.keyLocator_.changeCount_ + s.exclude_.changeCount_

/-- Every child's last observed change count equals the child's current count. -/
def Clean (s : Interest) : Prop :=
  s.name_.changeCount_ = s.name_.target_.changeCount ∧
  s.publisherPublicKeyDigest_.changeCount_ = s.publisherPublicKeyDigest_.target_.changeCount ∧
  s.keyLocator_.changeCount_ = s.keyLocator_.target_.changeCount ∧
  s.exclude_.changeCount_ = s.exclude_.target_.changeCount

/-- The changes of an Interest that invalidate a nonce: every mutator other than `setNonce`,
where a `setMustBeFresh` call counts when it changes the flag, and every mutation of a
child object. Reading the change count or the nonce is not a change. -/
def IsFieldChange (s : Interest) : Op → Prop
  | .setter (.setNonce _) => False
  | .setter (.setMustBeFresh b) => getMustBeFresh (setMustBeFresh b s) ≠ getMustBeFresh s
  | .setter _ => True
  | .child _ => True
  | .getChangeCount => False
  | .getNonce => False

/-- At least one child's change count differs from the one last observed. -/
def Dirty (s : Interest) : Prop :=
  s.name_.changeCount_ ≠ s.name_.target_.changeCount ∨
  s.publisherPublicKeyDigest_.changeCount_ ≠ s.publisherPublicKeyDigest_.target_.changeCount ∨
  s.keyLocator_.changeCount_ ≠ s.keyLocator_.target_.changeCount ∨
  s.exclude_.changeCount_ ≠ s.exclude_.target_.changeCount

/-- Every child's change count is the one last observed advanced by at most `k` increments. -/
def Tracked (s : Interest) (k : Nat) : Prop :=
  s.name_.AdvancedBy k ∧ s.publisherPublicKeyDigest_.AdvancedBy k ∧
  s.keyLocator_.AdvancedBy k ∧ s.exclude_.AdvancedBy k

instance (s : Interest) : Decidable (Clean s) := by
  unfold Clean
  infer_instance

instance (s : Interest) : Decidable (Dirty s) := by
  unfold Dirty
  infer_instance

instance (s : Interest) (op : Op) : Decidable (IsFieldChange s op) := by
  cases op with
  | setter m => cases m <;> unfold IsFieldChange <;> infer_instance
  | child m => exact isTrue trivial
  | getChangeCount => exact isFalse (fun h => h)
  | getNonce => exact isFalse (fun h => h)

/-- Some operation of the sequence is a field change in the state it is applied to. -/
def ChangedBy : Interest → List Op → Prop
  | _, [] => False
  | s, op :: ops => IsFieldChange s op ∨ ChangedBy (step op s) ops

/-- The operation is not a call of `setNonce`. -/
def NotSetNonce : Op → Prop
  | .setter (.setNonce _) => False
  | _ => True

instance (op : Op) : Decidable (NotSetNonce op) := by
  cases op with
  | setter m => cases m <;> unfold NotSetNonce <;> infer_instance
  | child m => exact isTrue trivial
  | getChangeCount => exact isTrue trivial
  | getNonce => exact isTrue trivial

instance decidableChangedBy : (s : Interest) → (ops : List Op) → Decidable (ChangedBy s ops)
  | _, [] => isFalse (fun h => h)
  | s, op :: ops =>
    match (inferInstance : Decidable (IsFieldChange s op)) with
    | isTrue h => isTrue (Or.inl h)
    | isFalse h =>
      match decidableChangedBy (step op s) ops with
      | isTrue h2 => isTrue (Or.inr h2)
      | isFalse h2 => isFalse (fun hc => hc.elim h h2)

/-- What holds between a `setNonce` and the next one, after at most `k` operations: the
nonce has been cleared already, or the counter stands `d ≤ k` increments after the count
recorded for the nonce, and once a field was changed either `d` is positive or a child's
change is still to be observed. -/
def NonceTracked (s : Interest) (k : Nat) (changed : Prop) : Prop :=
  Tracked s k ∧
    (s.nonce_ = [] ∨
      ∃ d : Nat, d ≤ k ∧
        s.changeCount_ = (s.getNonceChangeCount_ + d) % UINT64_SIZE ∧
        s.getNonceChangeCount_ < UINT64_SIZE ∧
        (changed → 0 < d ∨ Dirty s))

end Interest

/-! ## The TLV codec (C library `ndn-cpp/c/encoding/tlv`, modelled from the specification)

The decoder's cursor is kept as the list of bytes not yet read: the offset of the cursor is
the length of the input minus the length of that list. An error of the decoder
(`DecodingError`) is the result `none`. -/

/-- Modelled from the spec: the TLV type numbers of `c/encoding/tlv/tlv.h` (not among the
sources). Interest, Data, Name, SignatureInfo, SignatureValue and SignatureType are the
numbers the specification lists; the others are those of the test packet `codedData` and of
the NDN packet format. -/
def ndn_Tlv_Interest : Nat := 5

/-- Modelled from the spec: type number of a Data packet (`tlv.h`). -/
def ndn_Tlv_Data : Nat := 6

/-- Modelled from the spec: type number of a Name (`tlv.h`). -/
def ndn_Tlv_Name : Nat := 7

/-- Modelled from the spec: type number of a name component (`tlv.h`). -/
def ndn_Tlv_NameComponent : Nat := 8

/-- Modelled from the spec: type number of the MetaInfo block (`tlv.h`). -/
def ndn_Tlv_MetaInfo : Nat := 20

/-- Modelled from the spec: type number of the Content block (`tlv.h`). -/
def ndn_Tlv_Content : Nat := 21

/-- Modelled from the spec: type number of the SignatureInfo block (`tlv.h`). -/
def ndn_Tlv_SignatureInfo : Nat := 22

/-- Modelled from the spec: type number of the SignatureValue block (`tlv.h`). -/
def ndn_Tlv_SignatureValue : Nat := 23

/-- Modelled from the spec: type number of the ContentType field of MetaInfo (`tlv.h`). -/
def ndn_Tlv_ContentType : Nat := 24

/-- Modelled from the spec: type number of the FreshnessPeriod field of MetaInfo (`tlv.h`). -/
def ndn_Tlv_FreshnessPeriod : Nat := 25

/-- Modelled from the spec: type number of the FinalBlockId field of MetaInfo (`tlv.h`). -/
def ndn_Tlv_FinalBlockId : Nat := 26

/-- Modelled from the spec: type number of the SignatureType field of SignatureInfo (`tlv.h`). -/
def ndn_Tlv_SignatureType : Nat := 27

/-- Modelled from the spec: type number of the KeyLocator block of SignatureInfo (`tlv.h`). -/
def ndn_Tlv_KeyLocator : Nat := 28

/-- Modelled from the spec: type number of the key digest inside a KeyLocator (`tlv.h`). -/
def ndn_Tlv_KeyLocatorDigest : Nat := 29

/-- Modelled from the spec: the `width` low-order bytes of `n`, most significant byte first,
as the TLV encoder writes a number. -/
def bigEndianBytes : Nat → Nat → List Nat
  | 0, _ => []
  | width + 1, n => n / 256 ^ width % 256 :: bigEndianBytes width n

/-- Modelled from the spec: the number a big-endian byte string stands for, as the TLV
decoder reads it. -/
def bigEndianValue : List Nat → Nat
  | [] => 0
  | b :: bs => b * 256 ^ bs.length + bigEndianValue bs

/-- Modelled from the spec: `writeVarNumber(n)` of the TLV encoder (`tlv-encoder.c`, not among
the sources): 1 byte for `n < 253`, marker 0xFD and 2 bytes for `n < 65536`, marker 0xFE and
4 bytes for `n < 2^32`, marker 0xFF and 8 bytes otherwise. -/
def TlvEncoder.writeVarNumber (n : Nat) : List Nat :=
  if n < 253 then [n]
  else if n < 65536 then 253 :: bigEndianBytes 2 n
  else if n < 4294967296 then 254 :: bigEndianBytes 4 n
  else 255 :: bigEndianBytes 8 n

/-- Modelled from the spec: `readVarNumber()` of the TLV decoder (`tlv-decoder.c`, not among
the sources), the inverse of `writeVarNumber`; it fails when too few bytes remain. Returns
the number and the bytes left. -/
def TlvDecoder.readVarNumber : List Nat → Option (Nat × List Nat)
  | [] => none
  | firstOctet :: rest =>
    if firstOctet < 253 then some (firstOctet, rest)
    else
      let width := if firstOctet = 253 then 2 else if firstOctet = 254 then 4 else 8
      if width ≤ rest.length then
        some (bigEndianValue (rest.take width), rest.drop width)
      else none

/-- Modelled from the spec: `writeTypeAndLength(type, length)`: the type as a var-number,
then the length as a var-number. -/
def TlvEncoder.writeTypeAndLength (type length : Nat) : List Nat :=
  TlvEncoder.writeVarNumber type ++ TlvEncoder.writeVarNumber length

/-- Modelled from the spec: `writeBlobTlv(type, bytes)`: type, length and the raw bytes. -/
def TlvEncoder.writeBlobTlv (type : Nat) (bytes : List Nat) : List Nat :=
  TlvEncoder.writeTypeAndLength type bytes.length ++ bytes

/-- Modelled from the spec: `writeNestedTlv(type, innerEncodeFn)`: the inner content is
encoded first, so that its exact length is known, and the header is put in front of it.
`inner` is the encoded inner content. -/
def TlvEncoder.writeNestedTlv (type : Nat) (inner : List Nat) : List Nat :=
  TlvEncoder.writeTypeAndLength type inner.length ++ inner

/-- Modelled from the spec: a non-negative integer field, written in the shortest of 1, 2, 4
or 8 big-endian bytes (the FreshnessPeriod 5000 of `codedData` is `19 02 13 88`). -/
def TlvEncoder.writeNonNegativeIntegerTlv (type value : Nat) : List Nat :=
  TlvEncoder.writeBlobTlv type
    (if value < 256 then bigEndianBytes 1 value
     else if value < 65536 then bigEndianBytes 2 value
     else if value < 4294967296 then bigEndianBytes 4 value
     else bigEndianBytes 8 value)

/-- Modelled from the spec: `readTypeAndLength(expectedType)`: fails when the type read is
not the expected one or when the declared length exceeds the bytes that remain. Returns the
length and the bytes after the header. -/
def TlvDecoder.readTypeAndLength (expectedType : Nat) (input : List Nat) :
    Option (Nat × List Nat) :=
  match TlvDecoder.readVarNumber input with
  | none => none
  | some (type, afterType) =>
    if type = expectedType then
      match TlvDecoder.readVarNumber afterType with
      | none => none
      | some (length, afterLength) =>
        if length ≤ afterLength.length then some (length, afterLength) else none
    else none

/-- Modelled from the spec: read a TLV of the expected type; returns its value bytes and the
bytes after the block. -/
def TlvDecoder.readBlobTlv (expectedType : Nat) (input : List Nat) :
    Option (List Nat × List Nat) :=
  match TlvDecoder.readTypeAndLength expectedType input with
  | none => none
  | some (length, afterLength) => some (afterLength.take length, afterLength.drop length)

/-- Modelled from the spec: `readNestedTlvStart(type)`: enter a nested block, recording where
it ends. Returns the bytes of the block's value, which the inner reads work on, and the
bytes after the block. -/
def TlvDecoder.readNestedTlvStart (expectedType : Nat) (input : List Nat) :
    Option (List Nat × List Nat) :=
  TlvDecoder.readBlobTlv expectedType input

/-- Modelled from the spec: `finishNestedTlv(endOffset)`: the cursor must be exactly at the
end of the block, so no byte of the block's value may be left unread. -/
def TlvDecoder.finishNestedTlv (unread : List Nat) : Option Unit :=
  if unread.isEmpty then some () else none

/-- Modelled from the spec: peek the next type without consuming: `true` when a type can be
read and is the expected one. -/
def TlvDecoder.peekType (expectedType : Nat) (input : List Nat) : Bool :=
  match TlvDecoder.readVarNumber input with
  | none => false
  | some (type, _) => type == expectedType

/-- Modelled from the spec: `readOptionalBlobTlv(type)`: when the next type does not match,
the field is absent and nothing is consumed. -/
def TlvDecoder.readOptionalBlobTlv (expectedType : Nat) (input : List Nat) :
    Option (Option (List Nat) × List Nat) :=
  if TlvDecoder.peekType expectedType input then
    match TlvDecoder.readBlobTlv expectedType input with
    | none => none
    | some (value, rest) => some (some value, rest)
  else some (none, input)

/-- Modelled from the spec: read a non-negative integer field, whose value has 1, 2, 4 or 8
bytes. -/
def TlvDecoder.readNonNegativeIntegerTlv (expectedType : Nat) (input : List Nat) :
    Option (Nat × List Nat) :=
  match TlvDecoder.readBlobTlv expectedType input with
  | none => none
  | some (value, rest) =>
    if value.length = 1 ∨ value.length = 2 ∨ value.length = 4 ∨ value.length = 8 then
      some (bigEndianValue value, rest)
    else none

/-- Modelled from the spec: an optional non-negative integer field. -/
def TlvDecoder.readOptionalNonNegativeIntegerTlv (expectedType : Nat) (input : List Nat) :
    Option (Option Nat × List Nat) :=
  if TlvDecoder.peekType expectedType input then
    match TlvDecoder.readNonNegativeIntegerTlv expectedType input with
    | none => none
    | some (value, rest) => some (some value, rest)
  else some (none, input)

/-! ### Names -/

/-- Modelled from the spec: the value of a Name block (`tlv-name.c`), the name components
one after the other, each as a NameComponent TLV. -/
def encodeTlvNameComponents : Name → List Nat
  | [] => []
  | component :: components =>
    TlvEncoder.writeBlobTlv ndn_Tlv_NameComponent component ++
      encodeTlvNameComponents components

/-- Modelled from the spec: `ndn_encodeTlvName` (`tlv-name.c`, not among the sources): a
Name block holding the components. -/
def ndn_encodeTlvName (name : Name) : List Nat :=
  TlvEncoder.writeNestedTlv ndn_Tlv_Name (encodeTlvNameComponents name)

/-- Modelled from the spec: the length of the NameComponent TLV of the last component, 0 for
the empty name (`tlv-name.c`). -/
def lastNameComponentTlvLength (name : Name) : Nat :=
  match name.getLast? with
  | none => 0
  | some component => (TlvEncoder.writeBlobTlv ndn_Tlv_NameComponent component).length

/-- Modelled from the spec: the loop of `ndn_decodeTlvName` (`tlv-name.c`). Read components
until the Name block is exhausted; `capacity` is the room left in the
caller's component array, and a component beyond it is an error. Returns the components and
the distance from the place where the last component started to the end of the block (0
when there is no component). -/
def decodeTlvNameComponents : Nat → List Nat → Option (Name × Nat)
  | _, [] => some ([], 0)
  | 0, _ :: _ => none
  | capacity + 1, b :: rest =>
    match TlvDecoder.readBlobTlv ndn_Tlv_NameComponent (b :: rest) with
    | none => none
    | some (component, afterComponent) =>
      match decodeTlvNameComponents capacity afterComponent with
      | none => none
      | some (components, lastLength) =>
        some (component :: components,
          if afterComponent.isEmpty then (b :: rest).length else lastLength)

/-- Modelled from the spec: `ndn_decodeTlvName` (`tlv-name.c`, not among the sources).
Returns the name with the distance from the start of its last component to the end of the
Name block, and the bytes after the Name block. -/
def ndn_decodeTlvName (maxComponents : Nat) (input : List Nat) :
    Option ((Name × Nat) × List Nat) :=
  match TlvDecoder.readNestedTlvStart ndn_Tlv_Name input with
  | none => none
  | some (value, rest) =>
    match decodeTlvNameComponents maxComponents value with
    | none => none
    | some decoded => some (decoded, rest)

/-! ### Data packets -/

/-- Modelled from the spec: the KeyLocator of a signature: none, a key name, or a raw key
digest. -/
inductive SignatureKeyLocator where
  | none
  | keyName (name : Name)
  | keyLocatorDigest (digest : Blob)
deriving DecidableEq, Repr

/-- Modelled from the spec: a signature carries its type code (the SignatureType field), a
KeyLocator and the signature bytes. -/
structure Signature where
  type : Nat
  keyLocator : SignatureKeyLocator
  signature : Blob
deriving DecidableEq, Repr

/-- Modelled from the spec: MetaInfo holds the content type (0, a BLOB, is the default and is
not put on the wire), the freshness period in milliseconds (`none` when not given) and the
final block id (the empty component when not given). -/
structure MetaInfo where
  type : Nat
  freshnessPeriod : Option Nat
  finalBlockId : NameComponent
deriving DecidableEq, Repr

/-- Modelled from the spec: a Data packet is a Name, MetaInfo, the content bytes and a
Signature (`struct ndn_Data` of `c/data-types.h`, not among the sources). -/
structure Data where
  name : Name
  metaInfo : MetaInfo
  content : Blob
  signature : Signature
deriving DecidableEq, Repr

/-- Modelled from the spec: the value of the MetaInfo block (`tlv-data.c`): the fields that
are given, in ascending type order. -/
def encodeTlvMetaInfoValue (metaInfo : MetaInfo) : List Nat :=
  (if metaInfo.type = 0 then []
    else TlvEncoder.writeNonNegativeIntegerTlv ndn_Tlv_ContentType metaInfo.type) ++
  (match metaInfo.freshnessPeriod with
    | none => []
    | some milliseconds =>
      TlvEncoder.writeNonNegativeIntegerTlv ndn_Tlv_FreshnessPeriod milliseconds) ++
  (if metaInfo.finalBlockId.isEmpty then []
    else TlvEncoder.writeNestedTlv ndn_Tlv_FinalBlockId
      (TlvEncoder.writeBlobTlv ndn_Tlv_NameComponent metaInfo.finalBlockId))

/-- Modelled from the spec: the MetaInfo block (`tlv-data.c`). -/
def encodeTlvMetaInfo (metaInfo : MetaInfo) : List Nat :=
  TlvEncoder.writeNestedTlv ndn_Tlv_MetaInfo (encodeTlvMetaInfoValue metaInfo)

/-- Modelled from the spec: the value of the KeyLocator block (`tlv-key-locator.c`). -/
def encodeTlvKeyLocatorValue : SignatureKeyLocator → List Nat
  | .none => []
  | .keyName name => ndn_encodeTlvName name
  | .keyLocatorDigest digest => TlvEncoder.writeBlobTlv ndn_Tlv_KeyLocatorDigest digest

/-- Modelled from the spec: the KeyLocator block (`tlv-signature-info.c`); nothing is written
when there is no key locator. -/
def encodeTlvKeyLocator : SignatureKeyLocator → List Nat
  | .none => []
  | .keyName name =>
    TlvEncoder.writeNestedTlv ndn_Tlv_KeyLocator (encodeTlvKeyLocatorValue (.keyName name))
  | .keyLocatorDigest digest =>
    TlvEncoder.writeNestedTlv ndn_Tlv_KeyLocator
      (encodeTlvKeyLocatorValue (.keyLocatorDigest digest))

/-- Modelled from the spec: `ndn_encodeTlvSignatureInfo` (`tlv-signature-info.c`, not among
the sources): the SignatureInfo block holds the SignatureType and, when there is a key
locator, the KeyLocator block. -/
def ndn_encodeTlvSignatureInfo (signature : Signature) : List Nat :=
  TlvEncoder.writeNestedTlv ndn_Tlv_SignatureInfo
    (TlvEncoder.writeNonNegativeIntegerTlv ndn_Tlv_SignatureType signature.type ++
      encodeTlvKeyLocator signature.keyLocator)

/-- Modelled from the spec: the part of a Data packet that is signed (`tlv-data.c`): Name,
MetaInfo, Content and SignatureInfo. -/
def encodeTlvDataSignedPortion (data : Data) : List Nat :=
  ndn_encodeTlvName data.name ++ encodeTlvMetaInfo data.metaInfo ++
    TlvEncoder.writeBlobTlv ndn_Tlv_Content data.content ++
    ndn_encodeTlvSignatureInfo data.signature

/-- Modelled from the spec: the output of an encoding function of the C library: the bytes
and the two signed-portion offsets. -/
structure TlvEncoding where
  bytes : List Nat
  signedPortionBeginOffset : Nat
  signedPortionEndOffset : Nat
deriving DecidableEq, Repr

/-- Modelled from the spec: `ndn_encodeTlvData` (`tlv-data.c`, not among the sources).
Name, MetaInfo, Content and SignatureInfo are encoded, then the SignatureValue, and the outer
Data header is put in front once the length of the value is known. The begin offset is the
offset right after the outer header, where the Name block starts; the end offset is the end
of the SignatureInfo block, where the SignatureValue block starts. -/
def ndn_encodeTlvData (data : Data) : TlvEncoding :=
  let signedPortion := encodeTlvDataSignedPortion data
  let signatureValue := TlvEncoder.writeBlobTlv ndn_Tlv_SignatureValue data.signature.signature
  let value := signedPortion ++ signatureValue
  let header := TlvEncoder.writeTypeAndLength ndn_Tlv_Data value.length
  { bytes := header ++ value
    signedPortionBeginOffset := header.length
    signedPortionEndOffset := header.length + signedPortion.length }

/-- Modelled from the spec: read the MetaInfo block (`tlv-data.c`). Returns the MetaInfo and
the bytes after the block. -/
def decodeTlvMetaInfo (input : List Nat) : Option (MetaInfo × List Nat) :=
  match TlvDecoder.readNestedTlvStart ndn_Tlv_MetaInfo input with
  | none => none
  | some (value, rest) =>
    match TlvDecoder.readOptionalNonNegativeIntegerTlv ndn_Tlv_ContentType value with
    | none => none
    | some (type, afterType) =>
      match TlvDecoder.readOptionalNonNegativeIntegerTlv ndn_Tlv_FreshnessPeriod afterType with
      | none => none
      | some (freshnessPeriod, afterFreshness) =>
        if TlvDecoder.peekType ndn_Tlv_FinalBlockId afterFreshness then
          match TlvDecoder.readNestedTlvStart ndn_Tlv_FinalBlockId afterFreshness with
          | none => none
          | some (finalBlockIdValue, afterFinalBlockId) =>
            match TlvDecoder.readBlobTlv ndn_Tlv_NameComponent finalBlockIdValue with
            | none => none
            | some (component, unreadFinalBlockId) =>
              match TlvDecoder.finishNestedTlv unreadFinalBlockId,
                  TlvDecoder.finishNestedTlv afterFinalBlockId with
              | some _, some _ =>
                some ({ type := type.getD 0, freshnessPeriod := freshnessPeriod,
                        finalBlockId := component }, rest)
              | _, _ => none
        else
          match TlvDecoder.finishNestedTlv afterFreshness with
          | none => none
          | some _ =>
            some ({ type := type.getD 0, freshnessPeriod := freshnessPeriod,
                    finalBlockId := [] }, rest)

/-- Modelled from the spec: read the value of a KeyLocator block (`tlv-key-locator.c`): a
Name, a key digest, or nothing. -/
def decodeTlvKeyLocatorValue (maxKeyNameComponents : Nat) (value : List Nat) :
    Option SignatureKeyLocator :=
  if TlvDecoder.peekType ndn_Tlv_Name value then
    match ndn_decodeTlvName maxKeyNameComponents value with
    | none => none
    | some ((name, _), unread) =>
      match TlvDecoder.finishNestedTlv unread with
      | none => none
      | some _ => some (.keyName name)
  else if TlvDecoder.peekType ndn_Tlv_KeyLocatorDigest value then
    match TlvDecoder.readBlobTlv ndn_Tlv_KeyLocatorDigest value with
    | none => none
    | some (digest, unread) =>
      match TlvDecoder.finishNestedTlv unread with
      | none => none
      | some _ => some (.keyLocatorDigest digest)
  else
    match TlvDecoder.finishNestedTlv value with
    | none => none
    | some _ => some .none

/-- Modelled from the spec: `ndn_decodeTlvSignatureInfo` (`tlv-signature-info.c`, not among
the sources). Returns the type code, the key locator and the bytes after the block. -/
def ndn_decodeTlvSignatureInfo (maxKeyNameComponents : Nat) (input : List Nat) :
    Option ((Nat × SignatureKeyLocator) × List Nat) :=
  match TlvDecoder.readNestedTlvStart ndn_Tlv_SignatureInfo input with
  | none => none
  | some (value, rest) =>
    match TlvDecoder.readNonNegativeIntegerTlv ndn_Tlv_SignatureType value with
    | none => none
    | some (type, afterType) =>
      if TlvDecoder.peekType ndn_Tlv_KeyLocator afterType then
        match TlvDecoder.readNestedTlvStart ndn_Tlv_KeyLocator afterType with
        | none => none
        | some (keyLocatorValue, afterKeyLocator) =>
          match decodeTlvKeyLocatorValue maxKeyNameComponents keyLocatorValue,
              TlvDecoder.finishNestedTlv afterKeyLocator with
          | some keyLocator, some _ => some ((type, keyLocator), rest)
          | _, _ => none
      else
        match TlvDecoder.finishNestedTlv afterType with
        | none => none
        | some _ => some ((type, .none), rest)

/-- Modelled from the spec: the output of a decoding function of the C library: the object
and the two signed-portion offsets. -/
structure TlvDecoding (α : Type) where
  value : α
  signedPortionBeginOffset : Nat
  signedPortionEndOffset : Nat
deriving DecidableEq, Repr

/-- Modelled from the spec: `ndn_decodeTlvData` (`tlv-data.c`, not among the sources), the
mirror image of `ndn_encodeTlvData`. The two offsets are recomputed from the position of the
cursor: the begin offset when the outer header has been read, the end offset when the
SignatureInfo block has been read. Bytes after the Data block are not looked at. -/
def ndn_decodeTlvData (maxNameComponents maxKeyNameComponents : Nat) (input : List Nat) :
    Option (TlvDecoding Data) :=
  match TlvDecoder.readNestedTlvStart ndn_Tlv_Data input with
  | none => none
  | some (value, afterData) =>
    match ndn_decodeTlvName maxNameComponents value with
    | none => none
    | some ((name, _), afterName) =>
      match decodeTlvMetaInfo afterName with
      | none => none
      | some (metaInfo, afterMetaInfo) =>
        match TlvDecoder.readBlobTlv ndn_Tlv_Content afterMetaInfo with
        | none => none
        | some (content, afterContent) =>
          match ndn_decodeTlvSignatureInfo maxKeyNameComponents afterContent with
          | none => none
          | some ((type, keyLocator), afterSignatureInfo) =>
            match TlvDecoder.readBlobTlv ndn_Tlv_SignatureValue afterSignatureInfo with
            | none => none
            | some (signatureBytes, unread) =>
              match TlvDecoder.finishNestedTlv unread with
              | none => none
              | some _ =>
                some
                  { value :=
                      { name := name, metaInfo := metaInfo, content := content,
                        signature :=
                          { type := type, keyLocator := keyLocator,
                            signature := signatureBytes } }
                    signedPortionBeginOffset :=
                      input.length - (value.length + afterData.length)
                    signedPortionEndOffset :=
                      input.length - (afterSignatureInfo.length + afterData.length) }

/-! ### Interest packets -/

/-- Modelled from the spec: the codec of the fields of an Interest that follow its Name
(selectors, nonce, scope, lifetime). The specification does not fix their TLV layout, so the
codec is a parameter: `encode` gives the bytes of the fields and `decode` reads them back
from the bytes that follow the Name block inside the Interest. -/
structure InterestFieldsCodec (φ : Type) where
  encode : φ → List Nat
  decode : List Nat → Option φ

/-- Modelled from the spec: an Interest as the wire codec sees it, a Name and the fields
that follow it. -/
structure TlvInterest (φ : Type) where
  name : Name
  fields : φ
deriving DecidableEq, Repr

/-- Modelled from the spec: `ndn_encodeTlvInterest` (`tlv-interest.c`, not among the
sources). The Name is encoded, then the other fields, and the outer Interest header is put
in front. The begin offset is the offset right after the outer header, where the Name block
starts. The end offset is the start of the last name component, which in a signed Interest
holds the signature value (as in `test-publish-async-nfd-lite.cpp`); for an empty name it is
the end of the Name block. -/
def ndn_encodeTlvInterest {φ : Type} (codec : InterestFieldsCodec φ)
    (interest : TlvInterest φ) : TlvEncoding :=
  let nameBlock := ndn_encodeTlvName interest.name
  let value := nameBlock ++ codec.encode interest.fields
  let header := TlvEncoder.writeTypeAndLength ndn_Tlv_Interest value.length
  { bytes := header ++ value
    signedPortionBeginOffset := header.length
    signedPortionEndOffset :=
      header.length + nameBlock.length - lastNameComponentTlvLength interest.name }

/-- Modelled from the spec: `ndn_decodeTlvInterest` (`tlv-interest.c`, not among the
sources), the mirror image of `ndn_encodeTlvInterest`; both offsets are recomputed from the
position of the cursor. -/
def ndn_decodeTlvInterest {φ : Type} (codec : InterestFieldsCodec φ) (maxNameComponents : Nat)
    (input : List Nat) : Option (TlvDecoding (TlvInterest φ)) :=
  match TlvDecoder.readNestedTlvStart ndn_Tlv_Interest input with
  | none => none
  | some (value, afterInterest) =>
    match ndn_decodeTlvName maxNameComponents value with
    | none => none
    | some ((name, lastLength), afterName) =>
      match codec.decode afterName with
      | none => none
      | some fields =>
        some
          { value := { name := name, fields := fields }
            signedPortionBeginOffset := input.length - (value.length + afterInterest.length)
            signedPortionEndOffset :=
              input.length - (afterName.length + afterInterest.length) - lastLength }

/-- Modelled from the spec: a codec for an Interest whose only field after the Name is the
Nonce (type number 10 in the NDN packet format). -/
def nonceOnlyCodec : InterestFieldsCodec Blob where
  encode nonce := TlvEncoder.writeBlobTlv 10 nonce
  decode input :=
    match TlvDecoder.readBlobTlv 10 input with
    | none => none
    | some (nonce, unread) =>
      match TlvDecoder.finishNestedTlv unread with
      | none => none
      | some _ => some nonce

/-! ## The wrappers of `tlv-0_1-wire-format.cpp` -/

/-- What a C decoding function leaves behind: its error code (0 for success), the struct as
it filled it, and the values of the two offsets it was given pointers to. -/
structure TlvDecodeOutput (σ : Type) where
  error : Nat
  struct : σ
  signedPortionBeginOffset : Nat
  signedPortionEndOffset : Nat

/-- The outcome of a call of a decoding wrapper: the message of the `runtime_error` thrown
(`none` for a normal return), the target object and the two offsets after the call. -/
structure DecodeCall (τ : Type) where
  thrown : Option String
  target : τ
  signedPortionBeginOffset : Nat
  signedPortionEndOffset : Nat

/-- The method `Tlv0_1WireFormat::decodeInterest`. The C functions and `Interest::set` are not
among the sources and are parameters: `initialized` is the struct `ndn_Interest_initialize`
sets up, `ndn_decodeTlvInterest` the C decoder, `ndn_getErrorString` the error text and
`set` the method `Interest::set`. -/
def Tlv0_1WireFormat.decodeInterest {σ τ : Type} (initialized : σ)
    (ndn_decodeTlvInterest : σ → Nat → Nat → List Nat → TlvDecodeOutput σ)
    (ndn_getErrorString : Nat → String) (set : τ → σ → τ)
    (interest : τ) (input : List Nat)
    (signedPortionBeginOffset signedPortionEndOffset : Nat) : DecodeCall τ :=
  let out := ndn_decodeTlvInterest initialized signedPortionBeginOffset
    signedPortionEndOffset input
  if out.error != 0 then
    { thrown := some (ndn_getErrorString out.error)
      target := interest
      signedPortionBeginOffset := out.signedPortionBeginOffset
      signedPortionEndOffset := out.signedPortionEndOffset }
  else
    { thrown := none
      target := set interest out.struct
      signedPortionBeginOffset := out.signedPortionBeginOffset
      signedPortionEndOffset := out.signedPortionEndOffset }

/-- The method `Tlv0_1WireFormat::decodeData`, with the C functions and `Data::set` as
parameters in the same way. -/
def Tlv0_1WireFormat.decodeData {σ τ : Type} (initialized : σ)
    (ndn_decodeTlvData : σ → Nat → Nat → List Nat → TlvDecodeOutput σ)
    (ndn_getErrorString : Nat → String) (set : τ → σ → τ)
    (data : τ) (input : List Nat)
    (signedPortionBeginOffset signedPortionEndOffset : Nat) : DecodeCall τ :=
  let out := ndn_decodeTlvData initialized signedPortionBeginOffset
    signedPortionEndOffset input
  if out.error != 0 then
    { thrown := some (ndn_getErrorString out.error)
      target := data
      signedPortionBeginOffset := out.signedPortionBeginOffset
      signedPortionEndOffset := out.signedPortionEndOffset }
  else
    { thrown := none
      target := set data out.struct
      signedPortionBeginOffset := out.signedPortionBeginOffset
      signedPortionEndOffset := out.signedPortionEndOffset }

/-- Modelled from the spec: `ndn_decodeTlvData` in the shape of the C function, for structs
with room for 100 name components and 100 key name components as the wrappers allocate them: error
code 0 and the decoded struct on success, a non-zero error code otherwise. -/
def ndn_decodeTlvData_call (dataStruct : Data) (signedPortionBeginOffset
    signedPortionEndOffset : Nat) (input : List Nat) : TlvDecodeOutput Data :=
  match ndn_decodeTlvData 100 100 input with
  | some decoded =>
    { error := 0, struct := decoded.value
      signedPortionBeginOffset := decoded.signedPortionBeginOffset
      signedPortionEndOffset := decoded.signedPortionEndOffset }
  | none =>
    { error := 1, struct := dataStruct
      signedPortionBeginOffset := signedPortionBeginOffset
      signedPortionEndOffset := signedPortionEndOffset }

/-- The test packet `codedData` of `tests/unit-tests/test-data-methods.cpp`: 209 bytes, the
last one standing after the end of the Data block. -/
def codedData : List Nat :=
  [0x06, 0xCE,
    0x07, 0x0A, 0x08, 0x03, 0x6E, 0x64, 0x6E, 0x08, 0x03, 0x61, 0x62, 0x63,
    0x14, 0x0A,
      0x19, 0x02, 0x13, 0x88,
      0x1A, 0x04,
        0x08, 0x02, 0x00, 0x09,
    0x15, 0x08, 0x53, 0x55, 0x43, 0x43, 0x45, 0x53, 0x53, 0x21,
    0x16, 0x28,
      0x1B, 0x01, 0x01,
      0x1C, 0x23,
        0x07, 0x21,
          0x08, 0x08, 0x74, 0x65, 0x73, 0x74, 0x6E, 0x61, 0x6D, 0x65,
          0x08, 0x03, 0x4B, 0x45, 0x59,
          0x08, 0x07, 0x44, 0x53, 0x4B, 0x2D, 0x31, 0x32, 0x33,
          0x08, 0x07, 0x49, 0x44, 0x2D, 0x43, 0x45, 0x52, 0x54,
    0x17, 0x80,
      0x1A, 0x03, 0xC3, 0x9C, 0x4F, 0xC5, 0x5C, 0x36, 0xA2, 0xE7, 0x9C, 0xEE, 0x52, 0xFE, 0x45, 0xA7,
      0xE1, 0x0C, 0xFB, 0x95, 0xAC, 0xB4, 0x9B, 0xCC, 0xB6, 0xA0, 0xC3, 0x4A, 0xAA, 0x45, 0xBF, 0xBF,
      0xDF, 0x0B, 0x51, 0xD5, 0xA4, 0x8B, 0xF2, 0xAB, 0x45, 0x97, 0x1C, 0x24, 0xD8, 0xE2, 0xC2, 0x8A,
      0x4D, 0x40, 0x12, 0xD7, 0x77, 0x01, 0xEB, 0x74, 0x35, 0xF1, 0x4D, 0xDD, 0xD0, 0xF3, 0xA6, 0x9A,
      0xB7, 0xA4, 0xF1, 0x7F, 0xA7, 0x84, 0x34, 0xD7, 0x08, 0x25, 0x52, 0x80, 0x8B, 0x6C, 0x42, 0x93,
      0x04, 0x1E, 0x07, 0x1F, 0x4F, 0x76, 0x43, 0x18, 0xF2, 0xF8, 0x51, 0x1A, 0x56, 0xAF, 0xE6, 0xA9,
      0x31, 0xCB, 0x6C, 0x1C, 0x0A, 0xA4, 0x01, 0x10, 0xFC, 0xC8, 0x66, 0xCE, 0x2E, 0x9C, 0x0B, 0x2D,
      0x7F, 0xB4, 0x64, 0xA0, 0xEE, 0x22, 0x82, 0xC8, 0x34, 0xF7, 0x9A, 0xF5, 0x51, 0x12, 0x2A, 0x84,
    1]

/-- The value `codedData` decodes to, as the test's `initialDumpValues` list it: name
`/ndn/abc`, freshness period 5000, final block id `%00%09`, content `SUCCESS!`, a
Sha256WithRsa signature (type 1) with key name `/testname/KEY/DSK-123/ID-CERT`. -/
def codedDataValue : Data :=
  { name := [[0x6E, 0x64, 0x6E], [0x61, 0x62, 0x63]]
    metaInfo := { type := 0, freshnessPeriod := some 5000, finalBlockId := [0x00, 0x09] }
    content := [0x53, 0x55, 0x43, 0x43, 0x45, 0x53, 0x53, 0x21]
    signature :=
      { type := 1
        keyLocator := .keyName
          [[0x74, 0x65, 0x73, 0x74, 0x6E, 0x61, 0x6D, 0x65], [0x4B, 0x45, 0x59],
            [0x44, 0x53, 0x4B, 0x2D, 0x31, 0x32, 0x33],
            [0x49, 0x44, 0x2D, 0x43, 0x45, 0x52, 0x54]]
        signature := (codedData.drop 80).take 128 } }

/-- The number of components of the key name of a key locator, 0 when it has no key name. -/
def SignatureKeyLocator.keyNameSize : SignatureKeyLocator → Nat
  | .keyName name => name.length
  | _ => 0

/-- Modelled from the spec: a Data object that the wrappers can encode and decode: the name
and the key name fit the component arrays, the numbers fit 64 bits and the encoding is
shorter than `2 ^ 64` bytes. -/
def Data.Valid (maxNameComponents maxKeyNameComponents : Nat) (data : Data) : Prop :=
  data.name.length ≤ maxNameComponents ∧
  data.signature.keyLocator.keyNameSize ≤ maxKeyNameComponents ∧
  data.metaInfo.type < 2 ^ 64 ∧
  data.metaInfo.freshnessPeriod.getD 0 < 2 ^ 64 ∧
  data.signature.type < 2 ^ 64 ∧
  (ndn_encodeTlvData data).bytes.length < 2 ^ 64

instance (maxNameComponents maxKeyNameComponents : Nat) (data : Data) :
    Decidable (data.Valid maxNameComponents maxKeyNameComponents) := by
  unfold Data.Valid
  infer_instance

/-- The Data object with its signature bytes replaced. -/
def Data.withSignatureBytes (data : Data) (bytes : Blob) : Data :=
  { data with signature := { data.signature with signature := bytes } }

/-- Modelled from the spec: the struct that `ndn_Data_initialize` (`c/data.h`, not among the
sources) sets up: no name components, no MetaInfo values, no
content and no signature. -/
def ndn_Data_initialized : Data :=
  { name := []
    metaInfo := { type := 0, freshnessPeriod := none, finalBlockId := [] }
    content := []
    signature := { type := 0, keyLocator := .none, signature := [] } }

/-! ## Reading an Interest and its constructors -/

namespace Interest

/-- A call that only reads the Interest: `getChangeCount()` or `getNonce()`. -/
def IsRead : Op → Prop
  | .getChangeCount => True
  | .getNonce => True
  | _ => False

instance (op : Op) : Decidable (IsRead op) := by
  cases op with
  | setter m => exact isFalse (fun h => h)
  | child m => exact isFalse (fun h => h)
  | getChangeCount => exact isTrue trivial
  | getNonce => exact isTrue trivial

/-- The values a constructor leaves in an Interest: the given name and lifetime, `-1` for
the selectors and the scope, an empty nonce as `getNonce()` reports it, and a false
`getMustBeFresh()`. -/
def ConstructedWith (s : Interest) (name : Name) (interestLifetimeMilliseconds : Int) : Prop :=
  s.name_.target_.value = name ∧
  s.minSuffixComponents_ = -1 ∧
  s.maxSuffixComponents_ = -1 ∧
  s.childSelector_ = -1 ∧
  s.answerOriginKind_ = -1 ∧
  s.scope_ = -1 ∧
  s.interestLifetimeMilliseconds_ = interestLifetimeMilliseconds ∧
  s.getNonce.1 = [] ∧
  s.getMustBeFresh = false

instance (s : Interest) (name : Name) (interestLifetimeMilliseconds : Int) :
    Decidable (ConstructedWith s name interestLifetimeMilliseconds) := by
  unfold ConstructedWith
  infer_instance

end Interest

/-! ## Truncated input and the decoding of a signature -/

/-- Modelled from the spec: `ndn_decodeTlvInterest` in the shape of the C function, for a
struct with room for 100 name components as the wrapper allocates it: error code 0 and the
decoded struct on success, a non-zero error code otherwise. -/
def ndn_decodeTlvInterest_call {φ : Type} (codec : InterestFieldsCodec φ)
    (interestStruct : TlvInterest φ) (signedPortionBeginOffset signedPortionEndOffset : Nat)
    (input : List Nat) : TlvDecodeOutput (TlvInterest φ) :=
  match ndn_decodeTlvInterest codec 100 input with
  | some decoded =>
    { error := 0, struct := decoded.value
      signedPortionBeginOffset := decoded.signedPortionBeginOffset
      signedPortionEndOffset := decoded.signedPortionEndOffset }
  | none =>
    { error := 1, struct := interestStruct
      signedPortionBeginOffset := signedPortionBeginOffset
      signedPortionEndOffset := signedPortionEndOffset }

/-- Modelled from the spec: the classes of signature objects (`sha256-with-rsa-signature.hpp`
and the like, not among the sources), the variants that the specification lists. -/
inductive SignatureVariant where
  | Sha256WithRsaSignature
  | Sha256WithEcdsaSignature
  | HmacWithSha256Signature
  | DigestSha256Signature
  | GenericSignature
deriving DecidableEq, Repr

/-- Modelled from the spec: a signature object as a wire format returns it: its class and the
`ndn_Signature` struct its fields were set from. -/
structure SignatureObject where
  variant : SignatureVariant
  struct : Signature
deriving DecidableEq, Repr

deriving instance DecidableEq for Except

/-- The method `Tlv0_1WireFormat::decodeSignatureInfoAndValue`. The C functions are not among
the sources and are parameters: `initialized` is the struct `ndn_Signature_initialize` sets
up, `ndn_decodeTlvSignatureInfo` returns its error code and the struct as it filled it,
`ndn_TlvDecoder_readBlobTlv` its error code and the blob it read. An error code other than 0
throws a `runtime_error` with the error string; otherwise the result is always a new
`Sha256WithRsaSignature` set from the struct. -/
def Tlv0_1WireFormat.decodeSignatureInfoAndValue (initialized : Signature)
    (ndn_decodeTlvSignatureInfo : Signature → List Nat → Nat × Signature)
    (ndn_TlvDecoder_readBlobTlv : Nat → List Nat → Nat × Blob)
    (ndn_getErrorString : Nat → String)
    (signatureInfo signatureValue : List Nat) : Except String SignatureObject :=
  let info := ndn_decodeTlvSignatureInfo initialized signatureInfo
  if info.1 != 0 then .error (ndn_getErrorString info.1)
  else
    let value := ndn_TlvDecoder_readBlobTlv ndn_Tlv_SignatureValue signatureValue
    if value.1 != 0 then .error (ndn_getErrorString value.1)
    else
      .ok { variant := .Sha256WithRsaSignature
            struct := { info.2 with signature := value.2 } }

/-- Modelled from the spec: `ndn_decodeTlvSignatureInfo` in the shape of the C function, for a
struct with room for 100 key name components: error code 0 and the struct with the type and
the key locator on success, a non-zero error code otherwise. -/
def ndn_decodeTlvSignatureInfo_call (signatureStruct : Signature) (input : List Nat) :
    Nat × Signature :=
  match ndn_decodeTlvSignatureInfo 100 input with
  | some ((type, keyLocator), _) =>
    (0, { signatureStruct with type := type, keyLocator := keyLocator })
  | none => (1, signatureStruct)

/-- Modelled from the spec: `ndn_TlvDecoder_readBlobTlv` in the shape of the C function: error
code 0 and the value bytes on success, a non-zero error code otherwise. -/
def ndn_TlvDecoder_readBlobTlv_call (expectedType : Nat) (input : List Nat) : Nat × Blob :=
  match TlvDecoder.readBlobTlv expectedType input with
  | some (value, _) => (0, value)
  | none => (1, [])

/-- The type code `experimentalSignatureType` of `tests/unit-tests/test-data-methods.cpp`. -/
def experimentalSignatureType : Nat := 100

/-- The SignatureInfo `experimentalSignatureInfo` of the same test: the type code 100 and an
experimental TLV of type 0x81. -/
def experimentalSignatureInfo : List Nat :=
  [0x16, 0x08, 0x1B, 0x01, experimentalSignatureType, 0x81, 0x03, 1, 2, 3]

/-! ## Keys and the verification of signatures -/

/-- Modelled from the spec: the exceptions of `security-exception.hpp` (not among the
sources) that the code throws, with their message. -/
inductive SecurityException where
  | UnrecognizedKeyFormatException (message : String)
  | UnrecognizedDigestAlgorithmException (message : String)
deriving DecidableEq, Repr

/-- Modelled from the spec: the constant `SHA256_DIGEST_LENGTH` of OpenSSL (not among the
sources), the size of the digest buffers: a SHA-256 digest has 32 bytes. -/
def SHA256_DIGEST_LENGTH : Nat := 32

/-- A filled digest buffer `uint8_t digest[SHA256_DIGEST_LENGTH]`. -/
abbrev Sha256Digest := { digest : List Nat // digest.length = SHA256_DIGEST_LENGTH }

/-- The primitives that the security code calls and that are no part of the sources; they
are parameters. `ndn_digestSha256` (`c/util/crypto.c`) fills a digest buffer from the bytes
given; `d2i_RSA_PUBKEY` of OpenSSL decodes a public key DER and returns `none` for the NULL
pointer; `RSA_verify` of OpenSSL is called with `NID_sha256`, a digest, the signature bytes
and the decoded key, and returns an `int`. -/
structure Crypto (RSA : Type) where
  ndn_digestSha256 : List Nat → Sha256Digest
  d2i_RSA_PUBKEY : Blob → Option RSA
  RSA_verify : List Nat → Blob → RSA → Int

/-- Modelled from the spec: a `SignedBlob` (`signed-blob.hpp`, not among the sources) holds
the bytes of an encoding and the two offsets of its signed portion. -/
abbrev SignedBlob := TlvEncoding

/-- Modelled from the spec: the bytes that `signedBuf()` points to, `signedSize()` many: the
signed portion, from the begin offset to the end offset. The offsets are those that encoding
or decoding recorded, so the begin offset is not after the end offset and both lie inside
the bytes. -/
def TlvEncoding.signedPortion (signedBlob : TlvEncoding) : List Nat :=
  (signedBlob.bytes.drop signedBlob.signedPortionBeginOffset).take
    (signedBlob.signedPortionEndOffset - signedBlob.signedPortionBeginOffset)

/-- A call of `verifySha256WithRsaSignature` as the caller sees it afterwards: what the call
returned or threw, and the two objects it was given references to. -/
structure VerifyCall where
  result : Except SecurityException Bool
  signature : Signature
  signedBlob : SignedBlob
deriving DecidableEq

/-- The method `PolicyManager::verifySha256WithRsaSignature`: the digest of the signed
portion is computed, the public key DER decoded, and `RSA_verify` called; the result is
whether `RSA_verify` returned 1. A DER that does not decode throws. Nothing is assigned to
the signature or to the signed blob. -/
def PolicyManager.verifySha256WithRsaSignature {RSA : Type} (crypto : Crypto RSA)
    (signature : Signature) (signedBlob : SignedBlob) (publicKeyDer : Blob) : VerifyCall :=
  let signedPortionDigest := crypto.ndn_digestSha256 signedBlob.signedPortion
  match crypto.d2i_RSA_PUBKEY publicKeyDer with
  | none =>
    { result := .error (.UnrecognizedKeyFormatException
        "Error decoding public key in d2i_RSAPublicKey")
      signature := signature
      signedBlob := signedBlob }
  | some rsaPublicKey =>
    let success := crypto.RSA_verify signedPortionDigest.val signature.signature rsaPublicKey
    { result := .ok (success == 1)
      signature := signature
      signedBlob := signedBlob }

/-- The array `static int RSA_OID[]` of `public-key.cpp`. -/
def RSA_OID : List Int := [1, 2, 840, 113549, 1, 1, 1]

/-- The value of `sizeof(int)`: 4 bytes on the platforms the library is built for. -/
def sizeof_int : Nat := 4

/-- The value of `sizeof(RSA_OID)`: the size of the array in bytes. -/
def sizeof_RSA_OID : Nat := RSA_OID.length * sizeof_int

/-- The class `OID` as far as `public-key.cpp` uses it: the list of integers. -/
structure OID where
  oid_ : List Int
deriving DecidableEq, Repr

/-- The class `PublicKey` of `public-key.hpp`. -/
structure PublicKey where
  algorithm_ : OID
  keyDer_ : Blob
deriving DecidableEq, Repr

/-- The method `PublicKey::getKeyDer`. -/
def PublicKey.getKeyDer (key : PublicKey) : Blob :=
  key.keyDer_

/-- The `int` at `RSA_OID + i`: an element of the array when `i` is inside it, otherwise
whatever the memory after the array holds, given by `adjacentMemory` counted from the end of
the array. -/
def readRSA_OID (adjacentMemory : Nat → Int) (i : Nat) : Int :=
  match RSA_OID.get? i with
  | some value => value
  | none => adjacentMemory (i - RSA_OID.length)

/-- The method `PublicKey::fromDer`: a DER that `d2i_RSA_PUBKEY` does not decode throws;
otherwise the key holds the DER and the `OID` built from
`vector<int>(RSA_OID, RSA_OID + sizeof(RSA_OID))`, the `sizeof(RSA_OID)` ints from the start
of the array on. -/
def PublicKey.fromDer {RSA : Type} (crypto : Crypto RSA) (adjacentMemory : Nat → Int)
    (keyDer : Blob) : Except SecurityException PublicKey :=
  match crypto.d2i_RSA_PUBKEY keyDer with
  | none => .error (.UnrecognizedKeyFormatException "Error decoding public key DER")
  | some _ =>
    .ok { algorithm_ := { oid_ := (List.range sizeof_RSA_OID).map (readRSA_OID adjacentMemory) }
          keyDer_ := keyDer }

/-- The method `PublicKey::getDigest`. The value of the enumerator `DIGEST_ALGORITHM_SHA256`
(`security-common.hpp`, not among the sources) is a parameter. -/
def PublicKey.getDigest {RSA : Type} (crypto : Crypto RSA) (DIGEST_ALGORITHM_SHA256 : Int)
    (key : PublicKey) (digestAlgorithm : Int) : Except SecurityException Blob :=
  if digestAlgorithm = DIGEST_ALGORITHM_SHA256 then
    .ok (crypto.ndn_digestSha256 key.keyDer_).val
  else .error (.UnrecognizedDigestAlgorithmException "Wrong format!")

/-! ### Signing and verifying a Data packet -/

/-- Modelled from the spec: the class `Data` (`data.hpp`, not among the sources): the fields,
the cached wire encoding with its signed-portion offsets, and the cached full name. Both
caches are empty after a mutation. -/
structure DataPacket where
  fields : Data
  defaultWireEncoding_ : Option SignedBlob
  defaultFullName_ : Option Name
deriving DecidableEq, Repr

namespace DataPacket

/-- Modelled from the spec: `Data::wireDecode(input)`: the fields are decoded, and the input
with the offsets the decoder computed is kept as the wire encoding; `none` stands for the
decoding error. -/
def wireDecode (input : List Nat) : Option DataPacket :=
  match ndn_decodeTlvData 100 100 input with
  | none => none
  | some decoded =>
    some { fields := decoded.value
           defaultWireEncoding_ := some
             { bytes := input
               signedPortionBeginOffset := decoded.signedPortionBeginOffset
               signedPortionEndOffset := decoded.signedPortionEndOffset }
           defaultFullName_ := none }

/-- Modelled from the spec: `Data::wireEncode()`: the cached encoding when there is one,
otherwise the fields are encoded and the encoding is cached. -/
def wireEncode (data : DataPacket) : SignedBlob × DataPacket :=
  match data.defaultWireEncoding_ with
  | some encoding => (encoding, data)
  | none =>
    (ndn_encodeTlvData data.fields,
      { data with defaultWireEncoding_ := some (ndn_encodeTlvData data.fields) })

/-- Modelled from the spec: the mutators of a Data object. -/
inductive Mutation where
  | setName (name : Name)
  | setMetaInfo (metaInfo : MetaInfo)
  | setContent (content : Blob)
  | setSignature (signature : Signature)
deriving DecidableEq, Repr

/-- Modelled from the spec: a mutation changes the field and invalidates the cached encoding
and the cached full name. -/
def mutate (data : DataPacket) : Mutation → DataPacket
  | .setName name =>
    { fields := { data.fields with name := name }
      defaultWireEncoding_ := none, defaultFullName_ := none }
  | .setMetaInfo metaInfo =>
    { fields := { data.fields with metaInfo := metaInfo }
      defaultWireEncoding_ := none, defaultFullName_ := none }
  | .setContent content =>
    { fields := { data.fields with content := content }
      defaultWireEncoding_ := none, defaultFullName_ := none }
  | .setSignature signature =>
    { fields := { data.fields with signature := signature }
      defaultWireEncoding_ := none, defaultFullName_ := none }

/-- Modelled from the spec: `Data::getName()`. -/
def getName (data : DataPacket) : Name :=
  data.fields.name

/-- Modelled from the spec: `Data::getFullName()`: the cached full name when the encoding it
was computed from is still cached; otherwise the name with one more component, the SHA-256
digest of the full wire encoding, which is then cached. The digest function is a
parameter. -/
def getFullName (digestSha256 : List Nat → Sha256Digest) (data : DataPacket) :
    Name × DataPacket :=
  match data.defaultWireEncoding_, data.defaultFullName_ with
  | some _, some fullName => (fullName, data)
  | _, _ =>
    let encoded := data.wireEncode
    let fullName := encoded.2.fields.name ++ [(digestSha256 encoded.1.bytes).val]
    (fullName, { encoded.2 with defaultFullName_ := some fullName })

end DataPacket

/-- Modelled from the spec: the key-store collaborator: `getPublicKey(keyName)` gives the
public key bytes, or nothing when the key is unknown, and `sign(bytes, keyName)` the
signature of the bytes with SHA-256 as digest algorithm. -/
structure KeyStore where
  getPublicKey : Name → Option Blob
  sign : List Nat → Name → Blob

/-- Modelled from the spec: the type code of a Sha256WithRsa signature (`tlv.h`, not among
the sources), as in the SignatureInfo of `codedData`. -/
def ndn_Tlv_SignatureType_SignatureSha256WithRsa : Nat := 1

/-- Modelled from the spec: the first signing step: the SignatureInfo is set to Sha256WithRsa
with the key locator naming the certificate without its last component (as in the test's
`initialDump`), and the signature value is an empty placeholder. -/
def KeyChain.signaturePlaceholder (certificateName : Name) (fields : Data) : Data :=
  { fields with
    signature :=
      { type := ndn_Tlv_SignatureType_SignatureSha256WithRsa
        keyLocator := .keyName certificateName.dropLast
        signature := [] } }

/-- Modelled from the spec: `KeyChain::sign(data, certificateName)` (`key-chain.cpp`, not
among the sources), the five signing steps: the SignatureInfo is set with an empty
placeholder for the signature value; the Data is encoded once; the signed portion is signed;
the signature value is put in; the Data is encoded again. -/
def KeyChain.sign (keyStore : KeyStore) (certificateName : Name) (data : DataPacket) :
    DataPacket :=
  let placeholder := KeyChain.signaturePlaceholder certificateName data.fields
  let encoding := ndn_encodeTlvData placeholder
  let signatureBytes := keyStore.sign encoding.signedPortion certificateName
  let signed := placeholder.withSignatureBytes signatureBytes
  { fields := signed
    defaultWireEncoding_ := some (ndn_encodeTlvData signed)
    defaultFullName_ := none }

/-- How often `verifyData` called each callback, and what it threw. -/
structure VerifyOutcome where
  onVerifiedCallCount : Nat
  onVerifyFailedCallCount : Nat
  thrown : Option SecurityException
deriving DecidableEq, Repr

/-- Modelled from the spec: `KeyChain::verifyData(data, onVerified, onVerifyFailed)`
(`key-chain.cpp`, not among the sources) for a Sha256WithRsa signature whose key the key
store knows: the key locator is resolved to the public key, and the signature is checked over
the signed portion of the wire encoding with `verifySha256WithRsaSignature`. A valid
signature calls `onVerified` once; an invalid one, an unknown key, a key locator without a
name or another signature type calls `onVerifyFailed` once; an exception of the verification
passes through and no callback is called. -/
def KeyChain.verifyData {RSA : Type} (crypto : Crypto RSA) (keyStore : KeyStore)
    (data : DataPacket) : VerifyOutcome :=
  let verified : VerifyOutcome :=
    { onVerifiedCallCount := 1, onVerifyFailedCallCount := 0, thrown := none }
  let failed : VerifyOutcome :=
    { onVerifiedCallCount := 0, onVerifyFailedCallCount := 1, thrown := none }
  if data.fields.signature.type = ndn_Tlv_SignatureType_SignatureSha256WithRsa then
    match data.fields.signature.keyLocator with
    | .keyName keyName =>
      match keyStore.getPublicKey keyName with
      | none => failed
      | some publicKeyDer =>
        match (PolicyManager.verifySha256WithRsaSignature crypto data.fields.signature
            data.wireEncode.1 publicKeyDer).result with
        | .ok true => verified
        | .ok false => failed
        | .error exception =>
          { onVerifiedCallCount := 0, onVerifyFailedCallCount := 0, thrown := some exception }
    | _ => failed
  else failed

/-! ### Stand-ins for the external primitives

The theorems about signing and verifying hold for every choice of the primitives. The
definitions below are simple stand-ins with which the definitions above can be evaluated at
concrete inputs; they are not SHA-256 or RSA. -/

/-- The public key `DEFAULT_RSA_PUBLIC_KEY_DER` of `tests/unit-tests/test-data-methods.cpp`,
a SubjectPublicKeyInfo with the algorithm `rsaEncryption`. -/
def DEFAULT_RSA_PUBLIC_KEY_DER : List Nat :=
  [0x30, 0x82, 0x01, 0x22, 0x30, 0x0D, 0x06, 0x09, 0x2A, 0x86, 0x48, 0x86, 0xF7, 0x0D, 0x01, 0x01,
    0x01, 0x05, 0x00, 0x03, 0x82, 0x01, 0x0F, 0x00, 0x30, 0x82, 0x01, 0x0A, 0x02, 0x82, 0x01, 0x01,
    0x00, 0xB8, 0x09, 0xA7, 0x59, 0x82, 0x84, 0xEC, 0x4F, 0x06, 0xFA, 0x1C, 0xB2, 0xE1, 0x38, 0x93,
    0x53, 0xBB, 0x7D, 0xD4, 0xAC, 0x88, 0x1A, 0xF8, 0x25, 0x11, 0xE4, 0xFA, 0x1D, 0x61, 0x24, 0x5B,
    0x82, 0xCA, 0xCD, 0x72, 0xCE, 0xDB, 0x66, 0xB5, 0x8D, 0x54, 0xBD, 0xFB, 0x23, 0xFD, 0xE8, 0x8E,
    0xAF, 0xA7, 0xB3, 0x79, 0xBE, 0x94, 0xB5, 0xB7, 0xBA, 0x17, 0xB6, 0x05, 0xAE, 0xCE, 0x43, 0xBE,
    0x3B, 0xCE, 0x6E, 0xEA, 0x07, 0xDB, 0xBF, 0x0A, 0x7E, 0xEB, 0xBC, 0xC9, 0x7B, 0x62, 0x3C, 0xF5,
    0xE1, 0xCE, 0xE1, 0xD9, 0x8D, 0x9C, 0xFE, 0x1F, 0xC7, 0xF8, 0xFB, 0x59, 0xC0, 0x94, 0x0B, 0x2C,
    0xD9, 0x7D, 0xBC, 0x96, 0xEB, 0xB8, 0x79, 0x22, 0x8A, 0x2E, 0xA0, 0x12, 0x1D, 0x42, 0x07, 0xB6,
    0x5D, 0xDB, 0xE1, 0xF6, 0xB1, 0x5D, 0x7B, 0x1F, 0x54, 0x52, 0x1C, 0xA3, 0x11, 0x9B, 0xF9, 0xEB,
    0xBE, 0xB3, 0x95, 0xCA, 0xA5, 0x87, 0x3F, 0x31, 0x18, 0x1A, 0xC9, 0x99, 0x01, 0xEC, 0xAA, 0x90,
    0xFD, 0x8A, 0x36, 0x35, 0x5E, 0x12, 0x81, 0xBE, 0x84, 0x88, 0xA1, 0x0D, 0x19, 0x2A, 0x4A, 0x66,
    0xC1, 0x59, 0x3C, 0x41, 0x83, 0x3D, 0x3D, 0xB8, 0xD4, 0xAB, 0x34, 0x90, 0x06, 0x3E, 0x1A, 0x61,
    0x74, 0xBE, 0x04, 0xF5, 0x7A, 0x69, 0x1B, 0x9D, 0x56, 0xFC, 0x83, 0xB7, 0x60, 0xC1, 0x5E, 0x9D,
    0x85, 0x34, 0xFD, 0x02, 0x1A, 0xBA, 0x2C, 0x09, 0x72, 0xA7, 0x4A, 0x5E, 0x18, 0xBF, 0xC0, 0x58,
    0xA7, 0x49, 0x34, 0x46, 0x61, 0x59, 0x0E, 0xE2, 0x6E, 0x9E, 0xD2, 0xDB, 0xFD, 0x72, 0x2F, 0x3C,
    0x47, 0xCC, 0x5F, 0x99, 0x62, 0xEE, 0x0D, 0xF3, 0x1F, 0x30, 0x25, 0x20, 0x92, 0x15, 0x4B, 0x04,
    0xFE, 0x15, 0x19, 0x1D, 0xDC, 0x7E, 0x5C, 0x10, 0x21, 0x52, 0x21, 0x91, 0x54, 0x60, 0x8B, 0x92,
    0x41, 0x02, 0x03, 0x01, 0x00, 0x01]

/-- The public key `DEFAULT_EC_PUBLIC_KEY_DER` of the same test, a SubjectPublicKeyInfo with
the algorithm `id-ecPublicKey`. -/
def DEFAULT_EC_PUBLIC_KEY_DER : List Nat :=
  [0x30, 0x59, 0x30, 0x13, 0x06, 0x07, 0x2A, 0x86, 0x48, 0xCE, 0x3D, 0x02, 0x01, 0x06, 0x08, 0x2A,
    0x86, 0x48, 0xCE, 0x3D, 0x03, 0x01, 0x07, 0x03, 0x42, 0x00, 0x04, 0x98, 0x9A, 0xF0, 0x61, 0x70,
    0x43, 0x2E, 0xB6, 0x12, 0x92, 0xF5, 0x57, 0x08, 0x07, 0xE7, 0xAF, 0x23, 0xAB, 0x79, 0x0B, 0x05,
    0xAF, 0xA0, 0x3F, 0x8F, 0x23, 0x04, 0x50, 0xD2, 0x30, 0x47, 0x00, 0x1A, 0xFF, 0x77, 0xBA, 0x08,
    0x5B, 0x9A, 0xB1, 0xE6, 0x1A, 0xC4, 0x6A, 0x38, 0x00, 0x79, 0x15, 0xF8, 0x92, 0x3D, 0x9D, 0x8E,
    0x16, 0x29, 0x57, 0x34, 0x0B, 0xD4, 0x66, 0xB2, 0xE7, 0x54, 0x0B]

/-- The DER of an AlgorithmIdentifier with the algorithm `rsaEncryption`
(1.2.840.113549.1.1.1) and NULL parameters. -/
def rsaEncryptionAlgorithmIdentifier : List Nat :=
  [0x30, 0x0D, 0x06, 0x09, 0x2A, 0x86, 0x48, 0x86, 0xF7, 0x0D, 0x01, 0x01, 0x01, 0x05, 0x00]

/-- A stand-in digest: 32 times the sum of the bytes modulo 256. -/
def exampleDigest (bytes : List Nat) : Sha256Digest :=
  ⟨List.replicate 32 (bytes.sum % 256), List.length_replicate _ _⟩

/-- A stand-in signature: the digest followed by the first bytes of the key. -/
def exampleSignature (digest : List Nat) (key : List Nat) : Blob :=
  digest ++ key.take 32

/-- Stand-ins for the primitives: the digest is `exampleDigest`; a DER decodes as an RSA
public key when a SEQUENCE with a four byte header starts with the AlgorithmIdentifier of
`rsaEncryption`, the decoded key being the DER itself; verification returns 1 for the
`exampleSignature` of the digest and 0 otherwise. -/
def exampleCrypto : Crypto (List Nat) where
  ndn_digestSha256 := exampleDigest
  d2i_RSA_PUBKEY der :=
    if der.take 2 = [0x30, 0x82] ∧
        (der.drop 4).take 15 = rsaEncryptionAlgorithmIdentifier then some der
    else none
  RSA_verify digest signature key :=
    if signature = exampleSignature digest key then 1 else 0

/-- A stand-in key store with the one key of the test: the key of the certificate
`/testname/KEY/DSK-123/ID-CERT/0`, found under the name without the last component. -/
def exampleKeyStore : KeyStore where
  getPublicKey keyName :=
    if keyName =
        [[0x74, 0x65, 0x73, 0x74, 0x6E, 0x61, 0x6D, 0x65], [0x4B, 0x45, 0x59],
          [0x44, 0x53, 0x4B, 0x2D, 0x31, 0x32, 0x33],
          [0x49, 0x44, 0x2D, 0x43, 0x45, 0x52, 0x54]] then
      some DEFAULT_RSA_PUBLIC_KEY_DER
    else none
  sign bytes _ := exampleSignature (exampleDigest bytes).val DEFAULT_RSA_PUBLIC_KEY_DER

/-- The certificate name `/testname/KEY/DSK-123/ID-CERT/0` of the test. -/
def defaultCertName : Name :=
  [[0x74, 0x65, 0x73, 0x74, 0x6E, 0x61, 0x6D, 0x65], [0x4B, 0x45, 0x59],
    [0x44, 0x53, 0x4B, 0x2D, 0x31, 0x32, 0x33],
    [0x49, 0x44, 0x2D, 0x43, 0x45, 0x52, 0x54], [0x30]]

/-- The Data the test signs (`freshData`): name `/ndn/abc`, content `SUCCESS!`, freshness
period 5000 and final block id `%00%09`, not signed and not encoded yet. -/
def freshData : DataPacket :=
  { fields :=
      { name := codedDataValue.name
        metaInfo := codedDataValue.metaInfo
        content := codedDataValue.content
        signature := { type := 0, keyLocator := .none, signature := [] } }
    defaultWireEncoding_ := none
    defaultFullName_ := none }

/-! ## The key locator struct (`key-locator.cpp`) -/

/-- Modelled from the spec: the C struct `ndn_KeyLocator` (`c/key-types.h`, not among the
sources) with the four fields that `KeyLocator::get` and `KeyLocator::set` use. -/
structure ndn_KeyLocator where
  type : Int
  keyData : Blob
  keyName : Name
  keyNameType : Int
deriving DecidableEq, Repr

/-- The method `KeyLocator::get`: the four fields are copied into the struct. -/
def KeyLocator.get (self : KeyLocator) : ndn_KeyLocator :=
  { type := self.type_
    keyData := self.keyData_
    keyName := self.keyName_
    keyNameType := self.keyNameType_ }

/-- The method `KeyLocator::set`. The type and the key data are taken from the struct; the
key name and the key name type are taken from it only when the type is
`ndn_KeyLocatorType_KEYNAME`, otherwise the name is cleared and the key name type set to
`-1`. The value of the enumerator `ndn_KeyLocatorType_KEYNAME` (`c/key-types.h`, not among
the sources) is a parameter. -/
def KeyLocator.set (ndn_KeyLocatorType_KEYNAME : Int) (keyLocatorStruct : ndn_KeyLocator)
    (self : KeyLocator) : KeyLocator :=
  let self1 : KeyLocator := { self with type_ := keyLocatorStruct.type }
  let self2 : KeyLocator := { self1 with keyData_ := keyLocatorStruct.keyData }
  if keyLocatorStruct.type = ndn_KeyLocatorType_KEYNAME then
    { self2 with keyName_ := keyLocatorStruct.keyName
                 keyNameType_ := keyLocatorStruct.keyNameType }
  else
    { self2 with keyName_ := []
                 keyNameType_ := -1 }

/-! ## Hexadecimal dump (`common.cpp`) -/

/-- The function `toHex` of `common.cpp`. The flags of the stream are set to `ios::hex`
alone, so `result << (unsigned int)x` writes the digits of `x` in base 16, with lowercase
letters and without leading zeros, which is `Nat.toDigits 16 x`; for a byte below 16 the
character `0` is written first. The test `!&array` is never true for a reference. -/
def toHex (array : List Nat) : List Char :=
  array.foldl
    (fun result x => (if x < 16 then result ++ ['0'] else result) ++ Nat.toDigits 16 x) []

/-- The lowercase hexadecimal digit of a nibble. -/
def lowercaseHexDigit (nibble : Nat) : Char :=
  "0123456789abcdef".data.getD nibble '?'

/-! ## The echo example (`examples/test-publish-async-nfd-lite.cpp`) -/

namespace Echo

/-- The value of `sizeof(content)` for `char content[200]`. -/
def sizeof_content : Nat := 200

/-- The bytes of the string literal `"Echo /testecho/"`, without the terminating zero. -/
def message : List Nat := "Echo /testecho/".data.map Char.toNat

/-- The state of the part of `Echo::onReceivedElement` that fills the buffer: the buffer
`content`, the two loop indexes, and the indexes of `content` written to so far. -/
structure ContentState where
  content : List Nat
  iFrom : Nat
  iTo : Nat
  written : List Nat
deriving DecidableEq, Repr

/-- The call `::strcpy(content, "Echo /testecho/")`: the bytes of the string and the
terminating zero are written from index 0 on. -/
def strcpy (content : List Nat) (source : List Nat) : List Nat × List Nat :=
  ((source ++ [0]) ++ content.drop (source.length + 1), List.range (source.length + 1))

/-- The call `::strlen(content)`: the number of bytes before the first zero. -/
def strlen (content : List Nat) : Nat :=
  (content.takeWhile (fun byte => byte != 0)).length

/-- The `for` loop that copies the component value behind the message: it runs while
`iFrom` is inside the value and `iTo` inside the buffer. The first argument bounds the number
of iterations; `none` means that the bound was reached. -/
def copyLoop (value : List Nat) : Nat → ContentState → Option ContentState
  | 0, s => if s.iFrom < value.length ∧ s.iTo < sizeof_content then none else some s
  | fuel + 1, s =>
    if s.iFrom < value.length ∧ s.iTo < sizeof_content then
      copyLoop value fuel
        { content := s.content.set s.iTo (value.getD s.iFrom 0)
          iFrom := s.iFrom + 1
          iTo := s.iTo + 1
          written := s.written ++ [s.iTo] }
    else some s

/-- The part of `Echo::onReceivedElement` from the declaration of `content` to
`data.setContent(BlobLite((const uint8_t*)content, iTo))`: `content` holds what the buffer
held before, `value` is the value of the second name component of the Interest. Returns the
content set on the Data and the indexes of the buffer written to. -/
def onReceivedElement_content (content : List Nat) (value : List Nat) :
    Option (List Nat × List Nat) :=
  let copied := strcpy content message
  match copyLoop value sizeof_content
      { content := copied.1, iFrom := 0, iTo := strlen copied.1, written := copied.2 } with
  | none => none
  | some s => some (s.content.take s.iTo, s.written)

end Echo

/-! ### Signing in the example -/

/-- The value of `sizeof(size_t)`, the type of `signatureLength`: 8 bytes on the 64-bit
platforms the example is built for. -/
def sizeof_size_t : Nat := 8

/-- Modelled from the spec: the type code `ndn_SignatureType_Sha256WithRsaSignature`
(`c/data-types.h`, not among the sources), the SignatureType of `codedData`. -/
def ndn_SignatureType_Sha256WithRsaSignature : Nat := 1

/-- What `signAndSendData` leaves behind: the error code it returns, the Data object, the
signature buffer, and the bytes given to `transport.send`, if it got there. -/
structure SignAndSendOutcome where
  error : Nat
  data : Data
  signatureBuffer : List Nat
  sent : Option (List Nat)
deriving DecidableEq, Repr

/-- The function `signAndSendData` of the example. The callees are not among the sources and
are parameters: `setKeyName` gives the error code of `KeyLocatorLite::setKeyName`;
`encodeData` the error code of `Tlv0_2WireFormatLite::encodeData` together with the encoding
and the two offsets; `signWithSha256` the error code of `RsaPrivateKeyLite::signWithSha256`
together with the signature bytes, which it writes to the start of `signatureBuffer` and
whose number it stores in `signatureLength`; `send` the error code of `transport.send`. The
signature set on the Data is `BlobLite(signatureBuffer, sizeof(signatureLength))`, the first
`sizeof(size_t)` bytes of the buffer. When `setKeyName` fails the Data is given back as it
was, although the code has set the type of its key locator by then. -/
def signAndSendData (setKeyName : Name → Nat) (encodeData : Data → Nat × TlvEncoding)
    (signWithSha256 : List Nat → Nat × List Nat) (send : List Nat → Nat)
    (data : Data) (certificateName : Name) (signatureBuffer : List Nat) :
    SignAndSendOutcome :=
  if setKeyName certificateName != 0 then
    { error := setKeyName certificateName, data := data, signatureBuffer := signatureBuffer,
      sent := none }
  else
    let data1 : Data :=
      { data with
        signature :=
          { type := ndn_SignatureType_Sha256WithRsaSignature
            keyLocator := .keyName certificateName
            signature := [] } }
    let encoded := encodeData data1
    if encoded.1 != 0 then
      { error := encoded.1, data := data1, signatureBuffer := signatureBuffer, sent := none }
    else
      let signed := signWithSha256 encoded.2.signedPortion
      if signed.1 != 0 then
        { error := signed.1, data := data1, signatureBuffer := signatureBuffer, sent := none }
      else
        let signatureLength := signed.2.length
        let signatureBuffer1 := signed.2 ++ signatureBuffer.drop signatureLength
        let data2 := data1.withSignatureBytes (signatureBuffer1.take sizeof_size_t)
        let encodedAgain := encodeData data2
        if encodedAgain.1 != 0 then
          { error := encodedAgain.1, data := data2, signatureBuffer := signatureBuffer1,
            sent := none }
        else
          { error := send encodedAgain.2.bytes, data := data2,
            signatureBuffer := signatureBuffer1, sent := some encodedAgain.2.bytes }

/-- A stand-in for `signWithSha256` with a 2048-bit key: 256 signature bytes computed from
the stand-in digest of the signed bytes. -/
def exampleSignWithSha256 (bytes : List Nat) : Nat × List Nat :=
  (0, (List.range 256).map (fun i => ((exampleDigest bytes).val.getD 0 0 + i) % 256))

/-! ## The consumer (`encrypt/consumer.cpp`) -/

/-- Modelled from the spec: `Name::match` (`name.cpp`, not among the sources): this name is a
prefix of the given name, that is, the given name has at least as many components and its
leading components are equal to the components of this name, one by one. -/
def Name.matchName : Name → Name → Bool
  | [], _ => true
  | _ :: _, [] => false
  | component :: components, other :: others =>
    component == other && Name.matchName components others

namespace Consumer

/-- Modelled from the spec: the error codes `EncryptError::ErrorCode` (`encrypt-error.hpp`,
not among the sources) that `consumer.cpp` uses. -/
inductive ErrorCode where
  | Timeout
  | Validation
  | UnsupportedEncryptionScheme
  | InvalidEncryptedFormat
  | NoDecryptKey
  | General
deriving DecidableEq, Repr

/-- What a C++ call can throw: an object of a class derived from `std::exception`, with its
`what()` text, which `catch (const std::exception& ex)` catches, or anything else, which only
`catch (...)` catches. -/
inductive CppException where
  | stdException (what : String)
  | other
deriving DecidableEq, Repr

/-- The method `Consumer::Impl::addDecryptionKey`. The database is a collaborator whose class
is not among the sources: its state has the type `δ`, and `addKey` gives what
`database_->addKey` throws, if anything, and the state it leaves. Returns what the method
throws and the state of the database after the call. -/
def Impl.addDecryptionKey {δ : Type}
    (addKey : δ → Name → Blob → Option CppException × δ)
    (consumerName_ : Name) (database_ : δ) (keyName : Name) (keyBlob : Blob) :
    Option CppException × δ :=
  if !(consumerName_.matchName keyName) then
    (some (.stdException
      "addDecryptionKey: The consumer name must be a prefix of the key name"), database_)
  else addKey database_ keyName keyBlob

/-- A stand-in for a database collaborator: the list of the pairs added, newest first, where
adding a key name that is there already throws. -/
def exampleAddKey (database : List (Name × Blob)) (keyName : Name) (keyBlob : Blob) :
    Option CppException × List (Name × Blob) :=
  if (database.lookup keyName).isSome then
    (some (.stdException "Cannot add the key to database"), database)
  else (none, (keyName, keyBlob) :: database)

/-- Modelled from the spec: the fields of an `EncryptedContent` (`encrypted-content.hpp`, not
among the sources) that `consumer.cpp` reads: the algorithm type, the key name of the key
locator, the initial vector and the payload. -/
structure EncryptedContent where
  algorithmType_ : Int
  keyName_ : Name
  initialVector_ : Blob
  payload_ : Blob
deriving DecidableEq, Repr

/-- A call of one of the two callbacks given to the decrypting methods. -/
inductive Call where
  | onPlainText (plainText : Blob)
  | onError (errorCode : ErrorCode) (message : String)
deriving DecidableEq, Repr

/-- What a decrypting method did: the callbacks it called, in order, and the exception that
left the method, if any. -/
structure Outcome where
  calls : List Call
  escaped : Option CppException
deriving DecidableEq, Repr

/-- The block `try { onError(errorCode, message); } catch (const std::exception& ex) { ... }
catch (...) { ... }`: the callback is called once, and whatever it throws is caught and
logged. -/
def tryOnError (onError : ErrorCode → String → Option CppException) (errorCode : ErrorCode)
    (message : String) : Outcome :=
  match onError errorCode message with
  | none => { calls := [.onError errorCode message], escaped := none }
  | some (.stdException _) => { calls := [.onError errorCode message], escaped := none }
  | some .other => { calls := [.onError errorCode message], escaped := none }

/-- The block `try { onPlainText(content); } catch (const std::exception& ex) { ... }
catch (...) { ... }`. -/
def tryOnPlainText (onPlainText : Blob → Option CppException) (content : Blob) : Outcome :=
  match onPlainText content with
  | none => { calls := [.onPlainText content], escaped := none }
  | some (.stdException _) => { calls := [.onPlainText content], escaped := none }
  | some .other => { calls := [.onPlainText content], escaped := none }

/-- The collaborators of decryption, which are not among the sources: the values of the
enumerators `ndn_EncryptAlgorithmType_AesCbc` and `ndn_EncryptAlgorithmType_RsaOaep`, and the
functions `AesAlgorithm::decrypt`, called with the key bits, the payload and the initial
vector of the parameters, and `RsaAlgorithm::decrypt`, called with the key bits and the
payload; each returns the content or throws. -/
structure Algorithms where
  ndn_EncryptAlgorithmType_AesCbc : Int
  ndn_EncryptAlgorithmType_RsaOaep : Int
  AesAlgorithm_decrypt : Blob → Blob → Blob → Except CppException Blob
  RsaAlgorithm_decrypt : Blob → Blob → Except CppException Blob

/-- The method `Consumer::Impl::decryptEncryptedContent`. An exception of a decrypt function
is caught only when it is derived from `std::exception`; any other leaves the method. The two
callbacks are parameters that tell what the callback throws, if anything. -/
def Impl.decryptEncryptedContent (algorithms : Algorithms)
    (onPlainText : Blob → Option CppException)
    (onError : ErrorCode → String → Option CppException)
    (encryptedContent : EncryptedContent) (keyBits : Blob) : Outcome :=
  let payload := encryptedContent.payload_
  if encryptedContent.algorithmType_ = algorithms.ndn_EncryptAlgorithmType_AesCbc then
    match algorithms.AesAlgorithm_decrypt keyBits payload encryptedContent.initialVector_ with
    | .error (.stdException what) => tryOnError onError .InvalidEncryptedFormat what
    | .error .other => { calls := [], escaped := some .other }
    | .ok content => tryOnPlainText onPlainText content
  else if encryptedContent.algorithmType_ = algorithms.ndn_EncryptAlgorithmType_RsaOaep then
    match algorithms.RsaAlgorithm_decrypt keyBits payload with
    | .error (.stdException what) => tryOnError onError .InvalidEncryptedFormat what
    | .error .other => { calls := [], escaped := some .other }
    | .ok content => tryOnPlainText onPlainText content
  else
    tryOnError onError .UnsupportedEncryptionScheme "UnsupportedEncryptionScheme"

/-- A stand-in for the decrypt functions: the algorithm types 1 and 3; AES decryption gives
the payload with the key bits removed from its front and throws when the payload does not
start with them; RSA decryption gives the payload reversed. -/
def exampleAlgorithms : Algorithms where
  ndn_EncryptAlgorithmType_AesCbc := 1
  ndn_EncryptAlgorithmType_RsaOaep := 3
  AesAlgorithm_decrypt keyBits payload _ :=
    if keyBits.isPrefixOf payload then .ok (payload.drop keyBits.length)
    else .error (.stdException "AesAlgorithm: Error in decrypt")
  RsaAlgorithm_decrypt _ payload := .ok payload.reverse

/-- The members of `Consumer::Impl` that the decrypting methods use, and the Interests given
to `face_->expressInterest` so far, oldest first. The two maps are lists of pairs in which
the first pair with a name is the entry of the name. -/
structure Impl where
  groupName_ : Name
  consumerName_ : Name
  cKeyMap_ : List (Name × Blob)
  dKeyMap_ : List (Name × Blob)
  expressInterestCalls : List Name
deriving DecidableEq, Repr

/-- The method `onCKeyPlainText` of the callbacks of `decryptContent`, called with the content
key bits when a fetched C-KEY has been decrypted: the key is stored in `cKeyMap_` under the
content key name, and the content is decrypted with it. -/
def Impl.onCKeyPlainText (algorithms : Algorithms) (onPlainText : Blob → Option CppException)
    (onError : ErrorCode → String → Option CppException) (cKeyName_ : Name)
    (dataEncryptedContent_ : EncryptedContent) (cKeyBits : Blob) (parent_ : Impl) :
    Impl × Outcome :=
  ({ parent_ with cKeyMap_ := (cKeyName_, cKeyBits) :: parent_.cKeyMap_ },
    Impl.decryptEncryptedContent algorithms onPlainText onError dataEncryptedContent_ cKeyBits)

/-- The method `Consumer::Impl::decryptContent`. Parameters for what is not among the sources:
`wireDecode` gives the `EncryptedContent` decoded from the content of the Data, or what
`wireDecode` throws; `NAME_COMPONENT_FOR` is the component `Encryptor::getNAME_COMPONENT_FOR()`;
`expressInterest` tells what `face_->expressInterest` throws, if anything. The content key is
looked up in `dKeyMap_`; when it is not there, the Interest for the C-KEY is expressed. -/
def Impl.decryptContent (algorithms : Algorithms)
    (wireDecode : Blob → Except CppException EncryptedContent)
    (NAME_COMPONENT_FOR : NameComponent) (expressInterest : Name → Option CppException)
    (onPlainText : Blob → Option CppException)
    (onError : ErrorCode → String → Option CppException)
    (dataContent : Blob) (self : Impl) : Impl × Outcome :=
  match wireDecode dataContent with
  | .error (.stdException what) => (self, tryOnError onError .InvalidEncryptedFormat what)
  | .error .other => (self, { calls := [], escaped := some .other })
  | .ok dataEncryptedContent =>
    let cKeyName := dataEncryptedContent.keyName_
    match self.dKeyMap_.lookup cKeyName with
    | some keyBits =>
      (self,
        Impl.decryptEncryptedContent algorithms onPlainText onError dataEncryptedContent keyBits)
    | none =>
      let interestName := cKeyName ++ [NAME_COMPONENT_FOR] ++ self.groupName_
      let self1 : Impl :=
        { self with expressInterestCalls := self.expressInterestCalls ++ [interestName] }
      match expressInterest interestName with
      | none => (self1, { calls := [], escaped := none })
      | some (.stdException what) =>
        (self1, tryOnError onError .General ("expressInterest error: " ++ what))
      | some .other => (self1, { calls := [], escaped := some .other })

/-! ### Timeouts in `consume` -/

/-- The timeout callback registered with an expressed Interest: `Callbacks::onTimeout` of
`consume`, which expresses the Interest again, or `Impl::onFinalTimeout`. -/
inductive OnTimeout where
  | Callbacks_onTimeout
  | Impl_onFinalTimeout
deriving DecidableEq, Repr

/-- What a call of `consume` and the timeouts that follow have done: the Interests given to
`face_->expressInterest`, oldest first; the Interest of `consume` that is pending in the
Face, with its timeout callback; the calls of `onError`, oldest first; and an exception that
left a method. -/
structure ConsumeState where
  expressInterestCalls : List Name
  pending : Option (Name × OnTimeout)
  onErrorCalls : List (ErrorCode × String)
  escaped : Option CppException
deriving DecidableEq, Repr

/-- The `try` block around `face_->expressInterest` in `consume` and in `onTimeout`: the
Interest is given to the Face; when the Face throws a `std::exception`, `onError` is called
with `General` and nothing is pending; another exception leaves the method.
`expressInterest` tells what the Face throws at its call with the given number, counted
from 0. -/
def tryExpressInterest (expressInterest : Nat → Option CppException) (interestName : Name)
    (onTimeout : OnTimeout) (s : ConsumeState) : ConsumeState :=
  let s1 : ConsumeState :=
    { s with expressInterestCalls := s.expressInterestCalls ++ [interestName] }
  match expressInterest s.expressInterestCalls.length with
  | none => { s1 with pending := some (interestName, onTimeout) }
  | some (.stdException what) =>
    { s1 with
      pending := none
      onErrorCalls := s1.onErrorCalls ++ [(.General, "expressInterest error: " ++ what)] }
  | some .other => { s1 with pending := none, escaped := some .other }

/-- The method `Consumer::Impl::consume` as far as timeouts are concerned: the Interest for
the content name is expressed with `Callbacks::onTimeout` as its timeout callback. -/
def Impl.consume (expressInterest : Nat → Option CppException) (contentName : Name) :
    ConsumeState :=
  tryExpressInterest expressInterest contentName .Callbacks_onTimeout
    { expressInterestCalls := [], pending := none, onErrorCalls := [], escaped := none }

/-- Modelled from the spec: a timeout in the Face (`face.hpp`, not among the sources): the
pending Interest is removed and its timeout callback is called once with the Interest; when
nothing is pending, nothing happens. `Callbacks::onTimeout` expresses `interest_` again with
`Impl::onFinalTimeout` as timeout callback; `Impl::onFinalTimeout` calls `onError` with
`Timeout` and the URI of the name of the Interest. `toUri` is `Name::toUri`. -/
def Impl.timeout (expressInterest : Nat → Option CppException) (toUri : Name → String)
    (contentName : Name) (s : ConsumeState) : ConsumeState :=
  match s.pending with
  | none => s
  | some (_, .Callbacks_onTimeout) =>
    tryExpressInterest expressInterest contentName .Impl_onFinalTimeout
      { s with pending := none }
  | some (interestName, .Impl_onFinalTimeout) =>
    { s with
      pending := none
      onErrorCalls := s.onErrorCalls ++ [(.Timeout, toUri interestName)] }

/-- The state after `k` timeouts in a row. -/
def Impl.timeouts (expressInterest : Nat → Option CppException) (toUri : Name → String)
    (contentName : Name) : Nat → ConsumeState → ConsumeState
  | 0, s => s
  | k + 1, s =>
    Impl.timeouts expressInterest toUri contentName k
      (Impl.timeout expressInterest toUri contentName s)

/-- The three kinds of states that `consume` and timeouts lead to: nothing pending, with at
most two Interests expressed and at most one error reported; the first Interest pending; the
second Interest pending. All Interests expressed have the content name. -/
def ConsumeState.Bounded (contentName : Name) (s : ConsumeState) : Prop :=
  (∀ name ∈ s.expressInterestCalls, name = contentName) ∧
  ((s.pending = none ∧ s.expressInterestCalls.length ≤ 2 ∧ s.onErrorCalls.length ≤ 1) ∨
    (s.pending = some (contentName, .Callbacks_onTimeout) ∧
      s.expressInterestCalls.length = 1 ∧ s.onErrorCalls = []) ∨
    (s.pending = some (contentName, .Impl_onFinalTimeout) ∧
      s.expressInterestCalls.length = 2 ∧ s.onErrorCalls = []))

end Consumer

/-! ## Object identifiers (`encoding/oid.cpp`) -/

/-- The first index at or after `index` at which `c` stands, `index` being the index of the
head of the list; `none` when `c` does not occur. -/
def findFrom (c : Char) : List Char → Nat → Option Nat
  | [], _ => none
  | x :: xs, index => if x = c then some index else findFrom c xs (index + 1)

/-- The method `std::string::find_first_of(c, pos)`: the index of the first `c` at or after
`pos`; `none` stands for `string::npos`. -/
def find_first_of (str : List Char) (c : Char) (pos : Nat) : Option Nat :=
  findFrom c (str.drop pos) pos

/-- The method `std::string::substr(pos, len)`. -/
def substr (str : List Char) (pos len : Nat) : List Char :=
  (str.drop pos).take len

/-- The C function `isspace` in the C locale: space, tab, newline, vertical tab, form feed
and carriage return. -/
def isspace (c : Char) : Bool :=
  c.toNat = 32 ∨ (9 ≤ c.toNat ∧ c.toNat ≤ 13)

/-- The value of the decimal digits at the start of a string, read from the left. -/
def digitsValue (s : List Char) : Nat :=
  (s.takeWhile Char.isDigit).foldl (fun value c => value * 10 + (c.toNat - 48)) 0

/-- The C function `atoi`: white space is skipped, an optional sign is read, and the decimal
digits that follow give the value. The value is not reduced to the range of `int`: a number
outside of it has no defined result in C. -/
def atoi (s : List Char) : Int :=
  match s.dropWhile isspace with
  | [] => 0
  | c :: rest =>
    if c = '-' then -(digitsValue rest : Int)
    else if c = '+' then (digitsValue rest : Int)
    else (digitsValue (c :: rest) : Int)

/-- What `convert << value` writes for an `int` on a stream with the default flags: the
decimal digits, after a minus sign for a negative value. -/
def intToString (value : Int) : List Char :=
  if value < 0 then '-' :: Nat.toDigits 10 value.natAbs else Nat.toDigits 10 value.toNat

/-- The loop of the constructor `OID::OID(const string& oid)` on the string `str`: the next
dot is looked for from `pos` on; when there is none the loop ends, otherwise the characters
from `pos` to the dot are converted by `atoi` and appended, and `pos` moves behind the dot.
The first argument bounds the number of iterations; `none` means that the bound was
reached. -/
def OID.parseLoop (str : List Char) : Nat → Nat → List Int → Option (List Int)
  | 0, _, _ => none
  | fuel + 1, pos, oid_ =>
    match find_first_of str '.' pos with
    | none => some oid_
    | some found =>
      OID.parseLoop str fuel (found + 1) (oid_ ++ [atoi (substr str pos (found - pos))])

/-- The constructor `OID::OID(const string& oid)`: the loop runs on the string with a dot
appended. It passes at most once per character, so the bound is never reached. -/
def OID.ofString (oid : List Char) : Option OID :=
  (OID.parseLoop (oid ++ ['.']) ((oid ++ ['.']).length + 2) 0 []).map OID.mk

/-- The loop of `OID::toString`: a dot is written before every element but the first, then
the element. -/
def OID.toStringLoop : List Int → Bool → List Char → List Char
  | [], _, convert => convert
  | value :: rest, atBegin, convert =>
    OID.toStringLoop rest false
      ((if atBegin then convert else convert ++ ['.']) ++ intToString value)

/-- The method `OID::toString`. -/
def OID.toString (self : OID) : List Char :=
  OID.toStringLoop self.oid_ true []

/-- The loop of `OID::equal` and the test after it: the elements are compared pairwise until
one list ends, and the result is true when both lists end together. -/
def OID.equalLoop : List Int → List Int → Bool
  | i :: is, j :: js => if i ≠ j then false else OID.equalLoop is js
  | [], [] => true
  | _, _ => false

/-- The method `OID::equal`. -/
def OID.equal (self oid : OID) : Bool :=
  OID.equalLoop self.oid_ oid.oid_

/-- The dotted-decimal string of a list of integers: their decimal numbers with a dot
between any two neighbours. -/
def dottedDecimal (xs : List Int) : List Char :=
  ['.'].intercalate (xs.map intToString)
/-! ## Change tracking of the Interest -/

theorem uint64_succ_ne (c : Nat) : (c + 1) % UINT64_SIZE ≠ c := by
  simp only [UINT64_SIZE]
  omega

theorem uint64_succ_lt (c : Nat) : (c + 1) % UINT64_SIZE < UINT64_SIZE := by
  simp only [UINT64_SIZE]
  omega

theorem ChangeCounter.checkChanged_observed {α : Type} (c : ChangeCounter α) :
    c.checkChanged.2.changeCount_ = c.checkChanged.2.target_.changeCount := by
  unfold ChangeCounter.checkChanged
  split
  · rfl
  · rename_i h
    simpa using h

theorem ChangeCounter.checkChanged_target {α : Type} (c : ChangeCounter α) :
    c.checkChanged.2.target_ = c.target_ := by
  unfold ChangeCounter.checkChanged
  split <;> rfl

theorem ChangeCounter.checkChanged_fst {α : Type} (c : ChangeCounter α) :
    c.checkChanged.1 = decide (c.changeCount_ ≠ c.target_.changeCount) := by
  unfold ChangeCounter.checkChanged
  split <;> simp_all

theorem ChangeCounter.checkChanged_of_eq {α : Type} (c : ChangeCounter α)
    (h : c.changeCount_ = c.target_.changeCount) : c.checkChanged = (false, c) := by
  unfold ChangeCounter.checkChanged
  simp [h]

namespace Interest

theorem getChangeCount_clean (s : Interest) : Clean s.getChangeCount.2 := by
  unfold getChangeCount Clean
  dsimp only
  split <;>
    exact ⟨ChangeCounter.checkChanged_observed _, ChangeCounter.checkChanged_observed _,
      ChangeCounter.checkChanged_observed _, ChangeCounter.checkChanged_observed _⟩

theorem getChangeCount_of_clean (s : Interest) (h : Clean s) :
    s.getChangeCount = (s.changeCount_, s) := by
  obtain ⟨h1, h2, h3, h4⟩ := h
  unfold getChangeCount
  simp [ChangeCounter.checkChanged_of_eq _ h1, ChangeCounter.checkChanged_of_eq _ h2,
    ChangeCounter.checkChanged_of_eq _ h3, ChangeCounter.checkChanged_of_eq _ h4]

theorem getChangeCount_fst (s : Interest) : s.getChangeCount.1 = s.getChangeCount.2.changeCount_ := by
  unfold getChangeCount
  rfl

theorem getChangeCount_nonce (s : Interest) : s.getChangeCount.2.nonce_ = s.nonce_ := by
  unfold getChangeCount
  dsimp only
  split <;> rfl

theorem getChangeCount_getNonceChangeCount (s : Interest) :
    s.getChangeCount.2.getNonceChangeCount_ = s.getNonceChangeCount_ := by
  unfold getChangeCount
  dsimp only
  split <;> rfl

end Interest

namespace Interest

theorem getNonce_of_ne (s : Interest) (h : s.getNonceChangeCount_ ≠ s.getChangeCount.1) :
    s.getNonce.1 = [] := by
  unfold getNonce
  have hb : (s.getNonceChangeCount_ != s.getChangeCount.1) = true := by simpa using h
  simp only [hb, if_true]
  rw [getChangeCount_nonce]

theorem setNonce_clean (n : Blob) (s : Interest) : Clean (setNonce n s) := by
  have h := getChangeCount_clean
    { s with nonce_ := n, changeCount_ := (s.changeCount_ + 1) % UINT64_SIZE }
  exact h

theorem setNonce_recorded (n : Blob) (s : Interest) :
    (setNonce n s).getNonceChangeCount_ = (setNonce n s).changeCount_ := by
  unfold setNonce
  dsimp only
  rw [getChangeCount_fst]

theorem setMustBeFresh_cases (b : Bool) (s : Interest) :
    (s.answerOriginKind_ < 0 ∧ b = false ∧ setMustBeFresh b s = s) ∨
    (∃ kind : Int, setMustBeFresh b s =
      { s with answerOriginKind_ := kind
               changeCount_ := (s.changeCount_ + 1) % UINT64_SIZE }) := by
  unfold setMustBeFresh setAnswerOriginKind
  by_cases hneg : s.answerOriginKind_ < 0
  · cases b
    · left
      simp [hneg]
    · right
      exact ⟨0, by simp [hneg]⟩
  · right
    simp only [hneg, if_false]
    exact ⟨_, rfl⟩

end Interest

/-- C2. `getChangeCount()` returns the stored counter plus one (in `uint64_t` arithmetic)
when at least one of the four wrapped children has a change count different from the one
last observed, and the stored counter unchanged otherwise; the call records the current
count of all four children; and a second call right after it returns the same value. -/
theorem Interest.getChangeCount_spec (s : Interest) :
    s.getChangeCount.1 =
        (if s.name_.changeCount_ ≠ s.name_.target_.changeCount ∨
            s.publisherPublicKeyDigest_.changeCount_ ≠
              s.publisherPublicKeyDigest_.target_.changeCount ∨
            s.keyLocator_.changeCount_ ≠ s.keyLocator_.target_.changeCount ∨
            s.exclude_.changeCount_ ≠ s.exclude_.target_.changeCount
          then (s.changeCount_ + 1) % UINT64_SIZE else s.changeCount_) ∧
      (s.getChangeCount.2.name_.changeCount_ = s.name_.target_.changeCount ∧
        s.getChangeCount.2.publisherPublicKeyDigest_.changeCount_ =
          s.publisherPublicKeyDigest_.target_.changeCount ∧
        s.getChangeCount.2.keyLocator_.changeCount_ = s.keyLocator_.target_.changeCount ∧
        s.getChangeCount.2.exclude_.changeCount_ = s.exclude_.target_.changeCount) ∧
      s.getChangeCount.2.getChangeCount.1 = s.getChangeCount.1 := by
  refine ⟨?_, ?_, ?_⟩
  · unfold Interest.getChangeCount
    simp only [ChangeCounter.checkChanged_fst]
    by_cases h1 : s.name_.changeCount_ = s.name_.target_.changeCount <;>
    by_cases h2 : s.publisherPublicKeyDigest_.changeCount_ =
        s.publisherPublicKeyDigest_.target_.changeCount <;>
    by_cases h3 : s.keyLocator_.changeCount_ = s.keyLocator_.target_.changeCount <;>
    by_cases h4 : s.exclude_.changeCount_ = s.exclude_.target_.changeCount <;>
    simp [h1, h2, h3, h4]
  · have hobs : ∀ {α : Type} (c : ChangeCounter α),
        c.checkChanged.2.changeCount_ = c.target_.changeCount := by
      intro α c
      rw [ChangeCounter.checkChanged_observed, ChangeCounter.checkChanged_target]
    unfold Interest.getChangeCount
    dsimp only
    split <;> exact ⟨hobs _, hobs _, hobs _, hobs _⟩
  · rw [Interest.getChangeCount_of_clean _ (Interest.getChangeCount_clean s)]
    exact (Interest.getChangeCount_fst s).symm

theorem ChangeCounter.advancedBy_mono {α : Type} {c : ChangeCounter α} {k k' : Nat}
    (h : c.AdvancedBy k) (hk : k ≤ k') : c.AdvancedBy k' := by
  rcases h with h | ⟨p, hp, hpk, h⟩
  · exact Or.inl h
  · exact Or.inr ⟨p, hp, le_trans hpk hk, h⟩

theorem ChangeCounter.advancedBy_set {α : Type} (t : Counted α) (k : Nat) :
    (ChangeCounter.set t).AdvancedBy k := Or.inl rfl

theorem ChangeCounter.AdvancedBy.mutateTarget {α : Type} {c : ChangeCounter α} {k : Nat}
    (h : c.AdvancedBy k) (v : α) : (c.mutateTarget v).AdvancedBy (k + 1) := by
  rcases h with h | ⟨p, hp, hpk, h⟩
  · refine Or.inr ⟨1, by omega, by omega, ?_⟩
    simp only [ChangeCounter.mutateTarget, Counted.mutate, h]
  · refine Or.inr ⟨p + 1, by omega, by omega, ?_⟩
    simp only [ChangeCounter.mutateTarget, Counted.mutate, h, UINT64_SIZE]
    omega

theorem ChangeCounter.AdvancedBy.mutateTarget_ne {α : Type} {c : ChangeCounter α} {k : Nat}
    (h : c.AdvancedBy k) (hk : k + 1 < UINT64_SIZE) (v : α) :
    (c.mutateTarget v).changeCount_ ≠ (c.mutateTarget v).target_.changeCount := by
  simp only [UINT64_SIZE] at hk
  rcases h with h | ⟨p, hp, hpk, h⟩
  · simp only [ChangeCounter.mutateTarget, Counted.mutate, h, UINT64_SIZE]
    omega
  · simp only [ChangeCounter.mutateTarget, Counted.mutate, h, UINT64_SIZE]
    omega

namespace Interest

theorem Clean.tracked {s : Interest} (h : Clean s) (k : Nat) : Tracked s k :=
  ⟨Or.inl h.1.symm, Or.inl h.2.1.symm, Or.inl h.2.2.1.symm, Or.inl h.2.2.2.symm⟩

theorem tracked_mono {s : Interest} {k k' : Nat} (h : Tracked s k) (hk : k ≤ k') :
    Tracked s k' :=
  ⟨ChangeCounter.advancedBy_mono h.1 hk, ChangeCounter.advancedBy_mono h.2.1 hk,
    ChangeCounter.advancedBy_mono h.2.2.1 hk, ChangeCounter.advancedBy_mono h.2.2.2 hk⟩

theorem getChangeCount_value (s : Interest) [Decidable (Dirty s)] :
    s.getChangeCount.1 =
      if Dirty s then (s.changeCount_ + 1) % UINT64_SIZE else s.changeCount_ := by
  unfold getChangeCount Dirty
  simp only [ChangeCounter.checkChanged_fst]
  by_cases h1 : s.name_.changeCount_ = s.name_.target_.changeCount <;>
  by_cases h2 : s.publisherPublicKeyDigest_.changeCount_ =
      s.publisherPublicKeyDigest_.target_.changeCount <;>
  by_cases h3 : s.keyLocator_.changeCount_ = s.keyLocator_.target_.changeCount <;>
  by_cases h4 : s.exclude_.changeCount_ = s.exclude_.target_.changeCount <;>
  simp [h1, h2, h3, h4]

theorem getChangeCount_le (s : Interest) : s.getChangeCount.1 ≤ s.changeCount_ + 1 := by
  classical
  rw [getChangeCount_value]
  split
  · exact Nat.mod_le _ _
  · omega

theorem getChangeCount_ge (s : Interest) (h : s.changeCount_ + 1 < UINT64_SIZE) :
    s.changeCount_ ≤ s.getChangeCount.1 := by
  classical
  rw [getChangeCount_value]
  split
  · rw [Nat.mod_eq_of_lt h]
    omega
  · omega

theorem getChangeCount_of_dirty (s : Interest) (h : Dirty s) :
    s.getChangeCount.1 = (s.changeCount_ + 1) % UINT64_SIZE := by
  classical
  rw [getChangeCount_value, if_pos h]

theorem getChangeCount_twice (s : Interest) :
    s.getChangeCount.2.getChangeCount.1 = s.getChangeCount.1 := by
  rw [getChangeCount_of_clean _ (getChangeCount_clean s)]
  exact (getChangeCount_fst s).symm

theorem getNonce_clean (s : Interest) : Clean s.getNonce.2 := by
  unfold getNonce
  dsimp only
  split
  · exact getChangeCount_clean _
  · exact getChangeCount_clean _

theorem getNonce_changeCount (s : Interest) :
    s.getNonce.2.changeCount_ = s.getChangeCount.1 := by
  unfold getNonce
  dsimp only
  split
  · have hc : Clean { s.getChangeCount.2 with nonce_ := [] } := getChangeCount_clean s
    rw [getChangeCount_of_clean _ hc]
    exact (getChangeCount_fst s).symm
  · exact (getChangeCount_fst s).symm

end Interest

namespace Interest

/-- What a mutator does to the change tracking: nothing at all (the `setMustBeFresh(false)`
call on a negative kind), or one increment with each child kept or replaced by an observed
one, or (for `setNonce`) one increment followed by `getChangeCount()`. -/
theorem applySetter_shape (m : Setter) (s : Interest) :
    (m = .setMustBeFresh false ∧ s.answerOriginKind_ < 0 ∧ applySetter m s = s) ∨
    ((applySetter m s).changeCount_ = (s.changeCount_ + 1) % UINT64_SIZE ∧
      (∀ k, Tracked s k → Tracked (applySetter m s) k) ∧
      (Clean s → Clean (applySetter m s))) ∨
    (Clean (applySetter m s) ∧ (applySetter m s).changeCount_ ≤ s.changeCount_ + 2 ∧
      (s.changeCount_ + 2 < UINT64_SIZE → s.changeCount_ + 1 ≤ (applySetter m s).changeCount_) ∧
      (Clean s → (applySetter m s).changeCount_ = (s.changeCount_ + 1) % UINT64_SIZE)) := by
  cases m with
  | setNonce n =>
      right; right
      have hmod : (s.changeCount_ + 1) % UINT64_SIZE ≤ s.changeCount_ + 1 := Nat.mod_le _ _
      have hcc : (applySetter (.setNonce n) s).changeCount_ =
          (Interest.getChangeCount { s with nonce_ := n
                                            changeCount_ := (s.changeCount_ + 1) % UINT64_SIZE }).1 := by
        simp only [applySetter, setNonce]
        rw [getChangeCount_fst]
      refine ⟨setNonce_clean n s, ?_, ?_, ?_⟩
      · rw [hcc]
        have := getChangeCount_le { s with nonce_ := n
                                           changeCount_ := (s.changeCount_ + 1) % UINT64_SIZE }
        simp only at this
        omega
      · intro hw
        rw [hcc]
        have hm : (s.changeCount_ + 1) % UINT64_SIZE = s.changeCount_ + 1 :=
          Nat.mod_eq_of_lt (by omega)
        have := getChangeCount_ge { s with nonce_ := n
                                           changeCount_ := (s.changeCount_ + 1) % UINT64_SIZE }
          (by simp only [hm]; omega)
        simp only [hm] at this ⊢
        exact this
      · intro hc
        rw [hcc]
        have hc1 : Clean { s with nonce_ := n
                                  changeCount_ := (s.changeCount_ + 1) % UINT64_SIZE } := hc
        rw [getChangeCount_of_clean _ hc1]
  | setMustBeFresh b =>
      rcases setMustBeFresh_cases b s with ⟨hneg, hb, h⟩ | ⟨kind, h⟩
      · left
        exact ⟨by rw [hb], hneg, by simpa [applySetter] using h⟩
      · right; left
        have e : applySetter (.setMustBeFresh b) s = setMustBeFresh b s := rfl
        rw [e, h]
        exact ⟨rfl, fun k hk => hk, fun hc => hc⟩
  | setName n =>
      right; left
      exact ⟨rfl, fun k hk => ⟨ChangeCounter.advancedBy_set _ _, hk.2.1, hk.2.2.1, hk.2.2.2⟩,
        fun hc => ⟨rfl, hc.2.1, hc.2.2.1, hc.2.2.2⟩⟩
  | setKeyLocator kl =>
      right; left
      exact ⟨rfl, fun k hk => ⟨hk.1, hk.2.1, ChangeCounter.advancedBy_set _ _, hk.2.2.2⟩,
        fun hc => ⟨hc.1, hc.2.1, rfl, hc.2.2.2⟩⟩
  | setMinSuffixComponents v => right; left; exact ⟨rfl, fun k hk => hk, fun hc => hc⟩
  | setMaxSuffixComponents v => right; left; exact ⟨rfl, fun k hk => hk, fun hc => hc⟩
  | setChildSelector v => right; left; exact ⟨rfl, fun k hk => hk, fun hc => hc⟩
  | setAnswerOriginKind v => right; left; exact ⟨rfl, fun k hk => hk, fun hc => hc⟩
  | setScope v => right; left; exact ⟨rfl, fun k hk => hk, fun hc => hc⟩
  | setInterestLifetimeMilliseconds v =>
      right; left; exact ⟨rfl, fun k hk => hk, fun hc => hc⟩

theorem applyChildMutation_tracked (m : ChildMutation) (s : Interest) (k : Nat)
    (h : Tracked s k) : Tracked (applyChildMutation m s) (k + 1) := by
  have h' := tracked_mono h (Nat.le_succ k)
  cases m with
  | name v => exact ⟨h.1.mutateTarget v, h'.2.1, h'.2.2.1, h'.2.2.2⟩
  | publisherPublicKeyDigest v => exact ⟨h'.1, h.2.1.mutateTarget v, h'.2.2.1, h'.2.2.2⟩
  | keyLocator v => exact ⟨h'.1, h'.2.1, h.2.2.1.mutateTarget v, h'.2.2.2⟩
  | exclude v => exact ⟨h'.1, h'.2.1, h'.2.2.1, h.2.2.2.mutateTarget v⟩

theorem applyChildMutation_dirty (m : ChildMutation) (s : Interest) (k : Nat)
    (h : Tracked s k) (hk : k + 1 < UINT64_SIZE) : Dirty (applyChildMutation m s) := by
  cases m with
  | name v => exact Or.inl (h.1.mutateTarget_ne hk v)
  | publisherPublicKeyDigest v => exact Or.inr (Or.inl (h.2.1.mutateTarget_ne hk v))
  | keyLocator v => exact Or.inr (Or.inr (Or.inl (h.2.2.1.mutateTarget_ne hk v)))
  | exclude v => exact Or.inr (Or.inr (Or.inr (h.2.2.2.mutateTarget_ne hk v)))

theorem applyChildMutation_changeCount_eq (m : ChildMutation) (s : Interest) :
    (applyChildMutation m s).changeCount_ = s.changeCount_ := by
  cases m <;> rfl

theorem step_tracked (op : Op) (s : Interest) (k : Nat) (h : Tracked s k) :
    Tracked (step op s) (k + 1) := by
  cases op with
  | setter m =>
      simp only [step]
      rcases applySetter_shape m s with ⟨_, _, h1⟩ | ⟨_, h1, _⟩ | ⟨h1, _⟩
      · rw [h1]
        exact tracked_mono h (Nat.le_succ k)
      · exact tracked_mono (h1 k h) (Nat.le_succ k)
      · exact h1.tracked _
  | child m => exact applyChildMutation_tracked m s k h
  | getChangeCount => exact (getChangeCount_clean s).tracked _
  | getNonce => exact (getNonce_clean s).tracked _

theorem step_changeCount_le (op : Op) (s : Interest) :
    (step op s).changeCount_ ≤ s.changeCount_ + 2 := by
  have hmod : (s.changeCount_ + 1) % UINT64_SIZE ≤ s.changeCount_ + 1 := Nat.mod_le _ _
  cases op with
  | setter m =>
      simp only [step]
      rcases applySetter_shape m s with ⟨_, _, h1⟩ | ⟨h1, _, _⟩ | ⟨_, h1⟩
      · rw [h1]
        omega
      · rw [h1]
        omega
      · exact h1.1
  | child m =>
      simp only [step, applyChildMutation_changeCount_eq]
      omega
  | getChangeCount =>
      simp only [step, ← getChangeCount_fst]
      have := getChangeCount_le s
      omega
  | getNonce =>
      simp only [step, getNonce_changeCount]
      have := getChangeCount_le s
      omega

theorem step_getChangeCount_mono (op : Op) (s : Interest) (k : Nat) (h : Tracked s k)
    (hk : k + 1 < UINT64_SIZE) (hc : s.changeCount_ + 2 < UINT64_SIZE) :
    s.getChangeCount.1 ≤ (step op s).getChangeCount.1 := by
  have hle := getChangeCount_le s
  have hmod : (s.changeCount_ + 1) % UINT64_SIZE = s.changeCount_ + 1 :=
    Nat.mod_eq_of_lt (by omega)
  cases op with
  | setter m =>
      simp only [step]
      rcases applySetter_shape m s with ⟨_, _, h1⟩ | ⟨h1, _, _⟩ | ⟨h1, h2⟩
      · rw [h1]
      · have := getChangeCount_ge (applySetter m s) (by rw [h1, hmod]; omega)
        rw [h1, hmod] at this
        omega
      · rw [getChangeCount_of_clean _ h1]
        have := h2.2.1 hc
        omega
  | child m =>
      simp only [step]
      rw [getChangeCount_of_dirty _ (applyChildMutation_dirty m s k h hk),
        applyChildMutation_changeCount_eq, hmod]
      exact hle
  | getChangeCount =>
      simp only [step]
      rw [getChangeCount_twice]
  | getNonce =>
      simp only [step]
      rw [getChangeCount_of_clean _ (getNonce_clean s), getNonce_changeCount]

theorem run_getChangeCount_mono (ops : List Op) :
    ∀ (s : Interest) (k : Nat), Tracked s k → k + ops.length < UINT64_SIZE →
      s.changeCount_ + 2 * ops.length + 1 < UINT64_SIZE →
      s.getChangeCount.1 ≤ (run ops s).getChangeCount.1 := by
  induction ops with
  | nil => intro s k _ _ _; exact le_refl _
  | cons op ops ih =>
      intro s k ht hk hc
      simp only [List.length_cons] at hk hc
      have h1 := step_getChangeCount_mono op s k ht (by omega) (by omega)
      have h2 := ih (step op s) (k + 1) (step_tracked op s k ht) (by omega)
        (by have := step_changeCount_le op s; omega)
      exact le_trans h1 h2

theorem run_append (ops1 ops2 : List Op) (s : Interest) :
    run (ops1 ++ ops2) s = run ops2 (run ops1 s) := by
  induction ops1 generalizing s with
  | nil => rfl
  | cons op ops ih => exact ih (step op s)

theorem run_tracked (ops : List Op) :
    ∀ (s : Interest) (k : Nat), Tracked s k → Tracked (run ops s) (k + ops.length) := by
  induction ops with
  | nil => intro s k h; exact h
  | cons op ops ih =>
      intro s k h
      have := ih (step op s) (k + 1) (step_tracked op s k h)
      simp only [List.length_cons]
      rw [show k + (ops.length + 1) = k + 1 + ops.length by omega]
      exact this

theorem run_changeCount_le (ops : List Op) :
    ∀ s : Interest, (run ops s).changeCount_ ≤ s.changeCount_ + 2 * ops.length := by
  induction ops with
  | nil => intro s; exact le_refl _
  | cons op ops ih =>
      intro s
      have h1 := ih (step op s)
      have h2 := step_changeCount_le op s
      simp only [List.length_cons, run]
      omega

end Interest

theorem Interest.getChangeCount_answerOriginKind (s : Interest) :
    s.getChangeCount.2.answerOriginKind_ = s.answerOriginKind_ := by
  unfold Interest.getChangeCount
  dsimp only
  split <;> rfl

/-- C3, counterexample. On a new Interest, `getChangeCount()` returns 0 before and 0 after
`setMustBeFresh(false)`: the call finds `answerOriginKind_` negative and changes nothing. -/
theorem Interest.setMustBeFresh_false_not_greater :
    ¬ (Interest.new.getChangeCount.1 <
        (Interest.applySetter (.setMustBeFresh false)
          Interest.new.getChangeCount.2).getChangeCount.1) := by
  decide

/-- C3, amended. While the 64-bit counter does not wrap around, `getChangeCount()` called
after a mutator is strictly greater than `getChangeCount()` called before it, for every
mutator call except `setMustBeFresh(false)` on an Interest whose `answerOriginKind_` is
negative; that call leaves the count as it was. -/
theorem Interest.getChangeCount_lt_after_setter (s : Interest) (m : Interest.Setter)
    (hw : s.getChangeCount.1 + 1 < UINT64_SIZE) :
    (¬ (m = .setMustBeFresh false ∧ s.answerOriginKind_ < 0) →
      s.getChangeCount.1 < (Interest.applySetter m s.getChangeCount.2).getChangeCount.1) ∧
    ((m = .setMustBeFresh false ∧ s.answerOriginKind_ < 0) →
      (Interest.applySetter m s.getChangeCount.2).getChangeCount.1 = s.getChangeCount.1) := by
  have hclean := Interest.getChangeCount_clean s
  have hfst := Interest.getChangeCount_fst s
  have hmod : (s.getChangeCount.2.changeCount_ + 1) % UINT64_SIZE =
      s.getChangeCount.2.changeCount_ + 1 := Nat.mod_eq_of_lt (by omega)
  constructor
  · intro hm
    rcases Interest.applySetter_shape m s.getChangeCount.2 with
      ⟨h1, h2, _⟩ | ⟨h1, _, h3⟩ | ⟨h1, _, _, h4⟩
    · rw [Interest.getChangeCount_answerOriginKind] at h2
      exact absurd ⟨h1, h2⟩ hm
    · rw [Interest.getChangeCount_of_clean _ (h3 hclean), h1, hmod]
      omega
    · rw [Interest.getChangeCount_of_clean _ h1, h4 hclean, hmod]
      omega
  · rintro ⟨hm, hneg⟩
    subst hm
    have e : Interest.applySetter (.setMustBeFresh false) s.getChangeCount.2 =
        s.getChangeCount.2 := by
      simp [Interest.applySetter, Interest.setMustBeFresh,
        Interest.getChangeCount_answerOriginKind, hneg]
    rw [e, Interest.getChangeCount_twice]

/-- Witness for C3: `setScope(2)` on a new Interest, whose count goes from 0 to 1. -/
theorem Interest.getChangeCount_lt_after_setter_witness :
    Interest.new.getChangeCount.1 + 1 < UINT64_SIZE ∧
      Interest.new.getChangeCount.1 <
        (Interest.applySetter (.setScope 2) Interest.new.getChangeCount.2).getChangeCount.1 :=
  ⟨by decide,
    (Interest.getChangeCount_lt_after_setter Interest.new (.setScope 2) (by decide)).1
      (by decide)⟩

/-- C4, counterexample. A new Interest whose name is changed twice through `getName()` and
whose change count is then read is a reachable state in which `getChangeCount()` returns 1
while the change count last observed for the name is 2, before and after the call. -/
theorem Interest.getChangeCount_below_observed_sum :
    ¬ (Interest.observedChildCounts
          (Interest.run [.child (.name [[97]]), .child (.name [[97], [98]]), .getChangeCount]
            Interest.new) ≤
        (Interest.run [.child (.name [[97]]), .child (.name [[97], [98]]), .getChangeCount]
          Interest.new).getChangeCount.1) ∧
    ¬ (Interest.observedChildCounts
          (Interest.run [.child (.name [[97]]), .child (.name [[97], [98]]), .getChangeCount]
            Interest.new).getChangeCount.2 ≤
        (Interest.run [.child (.name [[97]]), .child (.name [[97], [98]]), .getChangeCount]
          Interest.new).getChangeCount.1) := by
  decide

/-- C4, amended. Along every sequence of operations (mutators, child mutations,
`getChangeCount()`, `getNonce()`) run from a state whose children are all observed, such as
a freshly constructed Interest, and short enough for the 64-bit counter not to wrap, the
value `getChangeCount()` returns never decreases: the value in the state after `ops1` is at
most the value in the state after `ops1` followed by `ops2`. -/
theorem Interest.getChangeCount_mono_along_run (s0 : Interest) (ops1 ops2 : List Interest.Op)
    (h0 : Interest.Clean s0)
    (hw : s0.changeCount_ + 2 * (ops1.length + ops2.length) + 1 < UINT64_SIZE) :
    (Interest.run ops1 s0).getChangeCount.1 ≤
      (Interest.run (ops1 ++ ops2) s0).getChangeCount.1 := by
  rw [Interest.run_append]
  have ht := Interest.run_tracked ops1 s0 0 (h0.tracked 0)
  have hc := Interest.run_changeCount_le ops1 s0
  exact Interest.run_getChangeCount_mono ops2 _ _ ht (by omega) (by omega)

/-- Witness for C4: a new Interest, one name change, then a `setScope` and a read. -/
theorem Interest.getChangeCount_mono_along_run_witness :
    Interest.Clean Interest.new ∧
      (Interest.run [.child (.name [[97]])] Interest.new).getChangeCount.1 ≤
        (Interest.run ([.child (.name [[97]])] ++ [.setter (.setScope 2), .getChangeCount])
          Interest.new).getChangeCount.1 :=
  ⟨by decide,
    Interest.getChangeCount_mono_along_run Interest.new [.child (.name [[97]])]
      [.setter (.setScope 2), .getChangeCount] (by decide) (by decide)⟩

namespace Interest

theorem not_dirty_iff_clean (s : Interest) : ¬ Dirty s ↔ Clean s := by
  unfold Dirty Clean
  constructor
  · intro h
    simp only [not_or, not_not] at h
    exact h
  · rintro ⟨h1, h2, h3, h4⟩ h
    rcases h with h | h | h | h
    · exact h h1
    · exact h h2
    · exact h h3
    · exact h h4

theorem getChangeCount_changeCount_of_dirty (s : Interest) (h : Dirty s) :
    s.getChangeCount.2.changeCount_ = (s.changeCount_ + 1) % UINT64_SIZE := by
  rw [← getChangeCount_fst, getChangeCount_of_dirty s h]

theorem getNonce_of_nonce_nil (s : Interest) (h : s.nonce_ = []) : s.getNonce.1 = [] := by
  unfold getNonce
  dsimp only
  split
  · rw [getChangeCount_nonce]
  · rw [getChangeCount_nonce, h]

theorem getNonce_nonce (s : Interest) : s.getNonce.2.nonce_ = s.getNonce.1 := by
  unfold getNonce
  dsimp only
  split <;> rfl

theorem getNonce_eq_of_eq (s : Interest) (h : s.getNonceChangeCount_ = s.getChangeCount.1) :
    s.getNonce.2 = s.getChangeCount.2 := by
  unfold getNonce
  simp [h]

theorem applySetter_nonce (m : Setter) (s : Interest) (hm : NotSetNonce (.setter m)) :
    (applySetter m s).nonce_ = s.nonce_ ∧
      (applySetter m s).getNonceChangeCount_ = s.getNonceChangeCount_ := by
  cases m with
  | setNonce n => exact absurd hm (by simp [NotSetNonce])
  | setMustBeFresh b =>
      rcases setMustBeFresh_cases b s with ⟨_, _, h⟩ | ⟨kind, h⟩
      · have e : applySetter (.setMustBeFresh b) s = setMustBeFresh b s := rfl
        rw [e, h]
        exact ⟨rfl, rfl⟩
      · have e : applySetter (.setMustBeFresh b) s = setMustBeFresh b s := rfl
        rw [e, h]
        exact ⟨rfl, rfl⟩
  | _ => exact ⟨rfl, rfl⟩

theorem applySetter_shape_notSetNonce (m : Setter) (s : Interest)
    (hm : NotSetNonce (.setter m)) :
    (m = .setMustBeFresh false ∧ applySetter m s = s) ∨
    (applySetter m s).changeCount_ = (s.changeCount_ + 1) % UINT64_SIZE := by
  cases m with
  | setNonce n => exact absurd hm (by simp [NotSetNonce])
  | setMustBeFresh b =>
      have e : applySetter (.setMustBeFresh b) s = setMustBeFresh b s := rfl
      rcases setMustBeFresh_cases b s with ⟨_, hb, h⟩ | ⟨kind, h⟩
      · left
        exact ⟨by rw [hb], by rw [e, h]⟩
      · right
        rw [e, h]
  | _ => right; rfl

theorem applySetter_noop_not_change (s : Interest)
    (h : applySetter (.setMustBeFresh false) s = s) :
    ¬ IsFieldChange s (.setter (.setMustBeFresh false)) := by
  simp only [IsFieldChange]
  have e : applySetter (.setMustBeFresh false) s = setMustBeFresh false s := rfl
  rw [← e, h]
  exact fun hne => hne rfl

theorem uint64_add_ne (g d : Nat) (hd : 0 < d) (hdM : d < UINT64_SIZE) :
    (g + d) % UINT64_SIZE ≠ g := by
  simp only [UINT64_SIZE] at *
  omega

theorem uint64_add_succ (g d : Nat) :
    ((g + d) % UINT64_SIZE + 1) % UINT64_SIZE = (g + (d + 1)) % UINT64_SIZE := by
  simp only [UINT64_SIZE]
  omega

theorem step_nonceTracked (op : Op) (s : Interest) (k : Nat) (changed : Prop)
    (hop : NotSetNonce op) (hk : k + 1 < UINT64_SIZE) (h : NonceTracked s k changed) :
    NonceTracked (step op s) (k + 1) (changed ∨ IsFieldChange s op) := by
  obtain ⟨ht, hn⟩ := h
  refine ⟨step_tracked op s k ht, ?_⟩
  rcases hn with hnil | ⟨d, hd, hc, hg, hch⟩
  · left
    cases op with
    | setter m => simp only [step, (applySetter_nonce m s hop).1, hnil]
    | child m => cases m <;> exact hnil
    | getChangeCount => simp only [step, getChangeCount_nonce, hnil]
    | getNonce => simp only [step, getNonce_nonce, getNonce_of_nonce_nil s hnil]
  · cases op with
    | setter m =>
        simp only [step]
        have hn := applySetter_nonce m s hop
        rcases applySetter_shape_notSetNonce m s hop with ⟨hm, h1⟩ | h1
        · right
          refine ⟨d, by omega, ?_, ?_, ?_⟩
          · rw [h1]
            exact hc
          · rw [h1]
            exact hg
          · rw [h1]
            intro hcc
            rcases hcc with hcc | hcc
            · exact hch hcc
            · subst hm
              exact absurd hcc (applySetter_noop_not_change s h1)
        · right
          refine ⟨d + 1, by omega, ?_, ?_, fun _ => Or.inl (by omega)⟩
          · rw [h1, hn.2, hc]
            exact uint64_add_succ _ _
          · rw [hn.2]
            exact hg
    | child m =>
        right
        refine ⟨d, by omega, ?_, ?_, fun _ => Or.inr (applyChildMutation_dirty m s k ht hk)⟩
        · cases m <;> exact hc
        · cases m <;> exact hg
    | getChangeCount =>
        right
        simp only [step]
        by_cases hdirty : Dirty s
        · refine ⟨d + 1, by omega, ?_, ?_, fun _ => Or.inl (by omega)⟩
          · rw [getChangeCount_changeCount_of_dirty s hdirty,
              getChangeCount_getNonceChangeCount, hc]
            exact uint64_add_succ _ _
          · rw [getChangeCount_getNonceChangeCount]
            exact hg
        · have hclean := (not_dirty_iff_clean s).mp hdirty
          rw [getChangeCount_of_clean s hclean]
          refine ⟨d, by omega, hc, hg, ?_⟩
          intro hcc
          rcases hcc with hcc | hcc
          · rcases hch hcc with h0 | h0
            · exact Or.inl h0
            · exact absurd h0 hdirty
          · exact absurd hcc (by simp [IsFieldChange])
    | getNonce =>
        simp only [step]
        by_cases heq : s.getNonceChangeCount_ = s.getChangeCount.1
        · right
          rw [getNonce_eq_of_eq s heq]
          by_cases hdirty : Dirty s
          · refine ⟨d + 1, by omega, ?_, ?_, fun _ => Or.inl (by omega)⟩
            · rw [getChangeCount_changeCount_of_dirty s hdirty,
                getChangeCount_getNonceChangeCount, hc]
              exact uint64_add_succ _ _
            · rw [getChangeCount_getNonceChangeCount]
              exact hg
          · have hclean := (not_dirty_iff_clean s).mp hdirty
            rw [getChangeCount_of_clean s hclean]
            refine ⟨d, by omega, hc, hg, ?_⟩
            intro hcc
            rcases hcc with hcc | hcc
            · rcases hch hcc with h0 | h0
              · exact Or.inl h0
              · exact absurd h0 hdirty
            · exact absurd hcc (by simp [IsFieldChange])
        · left
          rw [getNonce_nonce, getNonce_of_ne s heq]

end Interest

namespace Interest

theorem run_nonceTracked (ops : List Op) :
    ∀ (s : Interest) (k : Nat) (changed : Prop), (∀ op ∈ ops, NotSetNonce op) →
      k + ops.length < UINT64_SIZE → NonceTracked s k changed →
      NonceTracked (run ops s) (k + ops.length) (changed ∨ ChangedBy s ops) := by
  induction ops with
  | nil =>
      intro s k changed _ _ h
      refine ⟨h.1, ?_⟩
      rcases h.2 with hnil | ⟨d, hd, hc, hg, hch⟩
      · exact Or.inl hnil
      · refine Or.inr ⟨d, hd, hc, hg, ?_⟩
        intro hcc
        rcases hcc with hcc | hcc
        · exact hch hcc
        · exact absurd hcc (by simp [ChangedBy])
  | cons op ops ih =>
      intro s k changed hno hk h
      simp only [List.length_cons] at hk
      have h1 := step_nonceTracked op s k changed (hno op (List.mem_cons_self _ _))
        (by omega) h
      have h2 := ih (step op s) (k + 1) _ (fun o ho => hno o (List.mem_cons_of_mem _ ho))
        (by omega) h1
      have hlen : k + (op :: ops).length = k + 1 + ops.length := by
        simp only [List.length_cons]
        omega
      rw [hlen]
      refine ⟨h2.1, ?_⟩
      rcases h2.2 with hnil | ⟨d, hd, hc, hg, hch⟩
      · exact Or.inl hnil
      · refine Or.inr ⟨d, hd, hc, hg, ?_⟩
        intro hcc
        apply hch
        rcases hcc with hcc | hcc
        · exact Or.inl (Or.inl hcc)
        · rcases hcc with hcc | hcc
          · exact Or.inl (Or.inr hcc)
          · exact Or.inr hcc

theorem getNonce_of_nonceTracked (s : Interest) (k : Nat) (hk : k + 1 < UINT64_SIZE)
    (h : NonceTracked s k True) : s.getNonce.1 = [] := by
  rcases h.2 with hnil | ⟨d, hd, hc, hg, hch⟩
  · exact getNonce_of_nonce_nil s hnil
  · apply getNonce_of_ne
    intro heq
    by_cases hdirty : Dirty s
    · rw [getChangeCount_of_dirty s hdirty, hc, uint64_add_succ] at heq
      exact uint64_add_ne _ (d + 1) (by omega) (by omega) heq.symm
    · have hclean := (not_dirty_iff_clean s).mp hdirty
      rw [getChangeCount_of_clean s hclean] at heq
      simp only at heq
      rw [hc] at heq
      rcases hch trivial with h0 | h0
      · exact uint64_add_ne _ d h0 (by omega) heq.symm
      · exact hdirty h0

theorem setNonce_changeCount_lt (n : Blob) (s : Interest) :
    (setNonce n s).changeCount_ < UINT64_SIZE := by
  classical
  have h : (setNonce n s).changeCount_ =
      (Interest.getChangeCount { s with nonce_ := n
                                        changeCount_ := (s.changeCount_ + 1) % UINT64_SIZE }).1 := by
    simp only [setNonce]
    rw [getChangeCount_fst]
  rw [h, getChangeCount_value]
  split
  · exact uint64_succ_lt _
  · exact uint64_succ_lt _

theorem setNonce_nonceTracked (n : Blob) (s : Interest) :
    NonceTracked (setNonce n s) 0 False := by
  refine ⟨(setNonce_clean n s).tracked 0, Or.inr ⟨0, le_refl _, ?_, ?_, fun h => h.elim⟩⟩
  · rw [setNonce_recorded, Nat.add_zero, Nat.mod_eq_of_lt (setNonce_changeCount_lt n s)]
  · rw [setNonce_recorded]
    exact setNonce_changeCount_lt n s

end Interest

/-- C1. After `setNonce(n)`, run any sequence of operations that holds no further `setNonce`
and is short enough for the 64-bit counters not to wrap around. If the sequence makes at
least one change (a mutator such as `setName` or `setScope`, for `setMustBeFresh` a call that
changes the flag, or a mutation of a child object reached through `getName()`,
`getKeyLocator()`, `getExclude()` or `getPublisherPublicKeyDigest()`), the next `getNonce()`
returns the empty `Blob`. -/
theorem Interest.getNonce_empty_after_change (s : Interest) (n : Blob) (ops : List Interest.Op)
    (hno : ∀ op ∈ ops, Interest.NotSetNonce op)
    (hchange : Interest.ChangedBy (Interest.setNonce n s) ops)
    (hlen : ops.length + 1 < UINT64_SIZE) :
    (Interest.getNonce (Interest.run ops (Interest.setNonce n s))).1 = [] := by
  have h := Interest.run_nonceTracked ops (Interest.setNonce n s) 0 False hno (by omega)
    (Interest.setNonce_nonceTracked n s)
  have h' : Interest.NonceTracked (Interest.run ops (Interest.setNonce n s)) (0 + ops.length)
      True := by
    refine ⟨h.1, ?_⟩
    rcases h.2 with hnil | ⟨d, hd, hc, hg, hch⟩
    · exact Or.inl hnil
    · exact Or.inr ⟨d, hd, hc, hg, fun _ => hch (Or.inr hchange)⟩
  exact Interest.getNonce_of_nonceTracked _ _ (by omega) h'

/-- Witness for C1: on a new Interest with nonce `[1, 2, 3, 4]`, which `getNonce()` returns
at first, a component is appended to the name through `getName()` and the change count is
read; the next `getNonce()` is empty. -/
theorem Interest.getNonce_empty_after_change_witness :
    (∀ op ∈ [Interest.Op.getNonce, .child (.name [[97]]), .getChangeCount],
        Interest.NotSetNonce op) ∧
      Interest.ChangedBy (Interest.setNonce [1, 2, 3, 4] Interest.new)
        [.getNonce, .child (.name [[97]]), .getChangeCount] ∧
      (Interest.getNonce (Interest.setNonce [1, 2, 3, 4] Interest.new)).1 = [1, 2, 3, 4] ∧
      (Interest.getNonce (Interest.run [.getNonce, .child (.name [[97]]), .getChangeCount]
        (Interest.setNonce [1, 2, 3, 4] Interest.new))).1 = [] :=
  ⟨by decide, by decide, by decide,
    Interest.getNonce_empty_after_change Interest.new [1, 2, 3, 4]
      [.getNonce, .child (.name [[97]]), .getChangeCount] (by decide) (by decide) (by decide)⟩

/-! ## The decoding wrappers -/

/-- C5. `Tlv0_1WireFormat::decodeInterest` and `Tlv0_1WireFormat::decodeData`, for every C
decoder, input and target object: when the decoder reports an error (a non-zero code) the
wrapper throws `runtime_error` with the error string and the target object is the one passed
in, unmodified; when the decoder reports no error the wrapper returns normally and the
target is the result of `set` on the decoded struct. So a normal return occurs only when the
decoder reported no error. -/
theorem Tlv0_1WireFormat.decode_throws_and_keeps_target {σ τ : Type} (initialized : σ)
    (decoder : σ → Nat → Nat → List Nat → TlvDecodeOutput σ)
    (ndn_getErrorString : Nat → String) (set : τ → σ → τ) (target : τ) (input : List Nat)
    (b e : Nat) :
    ((Tlv0_1WireFormat.decodeInterest initialized decoder ndn_getErrorString set target
          input b e).thrown =
        (if (decoder initialized b e input).error = 0 then none
          else some (ndn_getErrorString (decoder initialized b e input).error)) ∧
      (Tlv0_1WireFormat.decodeInterest initialized decoder ndn_getErrorString set target
          input b e).target =
        (if (decoder initialized b e input).error = 0
          then set target (decoder initialized b e input).struct else target)) ∧
    ((Tlv0_1WireFormat.decodeData initialized decoder ndn_getErrorString set target
          input b e).thrown =
        (if (decoder initialized b e input).error = 0 then none
          else some (ndn_getErrorString (decoder initialized b e input).error)) ∧
      (Tlv0_1WireFormat.decodeData initialized decoder ndn_getErrorString set target
          input b e).target =
        (if (decoder initialized b e input).error = 0
          then set target (decoder initialized b e input).struct else target)) := by
  unfold Tlv0_1WireFormat.decodeInterest Tlv0_1WireFormat.decodeData
  by_cases h : (decoder initialized b e input).error = 0 <;> simp [h]

/-! ## Variable-length numbers -/

theorem bigEndianBytes_length (width n : Nat) : (bigEndianBytes width n).length = width := by
  induction width with
  | zero => rfl
  | succ k ih => simp [bigEndianBytes, ih]

theorem bigEndianValue_bigEndianBytes (width n : Nat) :
    bigEndianValue (bigEndianBytes width n) = n % 256 ^ width := by
  induction width with
  | zero => simp [bigEndianBytes, bigEndianValue, Nat.mod_one]
  | succ k ih =>
      simp only [bigEndianBytes, bigEndianValue, bigEndianBytes_length, ih]
      rw [pow_succ, Nat.mod_mul]
      ring

theorem bigEndianBytes_lt (width n : Nat) : ∀ b ∈ bigEndianBytes width n, b < 256 := by
  induction width with
  | zero => simp [bigEndianBytes]
  | succ k ih =>
      intro b hb
      simp only [bigEndianBytes, List.mem_cons] at hb
      rcases hb with hb | hb
      · rw [hb]
        exact Nat.mod_lt _ (by norm_num)
      · exact ih b hb

theorem bigEndianValue_lt (bs : List Nat) (h : ∀ b ∈ bs, b < 256) :
    bigEndianValue bs < 256 ^ bs.length := by
  induction bs with
  | nil => simp [bigEndianValue]
  | cons b bs ih =>
      have hb : b < 256 := h b (List.mem_cons_self _ _)
      have ih' := ih (fun x hx => h x (List.mem_cons_of_mem _ hx))
      simp only [bigEndianValue, List.length_cons, pow_succ]
      nlinarith

theorem TlvDecoder.readVarNumber_writeVarNumber (n : Nat) (hn : n < 2 ^ 64) (rest : List Nat) :
    TlvDecoder.readVarNumber (TlvEncoder.writeVarNumber n ++ rest) = some (n, rest) := by
  have wide : ∀ (marker width : Nat), 253 ≤ marker →
      (if marker = 253 then 2 else if marker = 254 then 4 else 8) = width →
      n < 256 ^ width →
      TlvDecoder.readVarNumber (marker :: bigEndianBytes width n ++ rest) = some (n, rest) := by
    intro marker width hm hw hlt
    have hlen := bigEndianBytes_length width n
    simp only [TlvDecoder.readVarNumber, List.cons_append, hw]
    rw [if_neg (by omega), if_pos (by simp [hlen])]
    rw [List.take_left' hlen, List.drop_left' hlen, bigEndianValue_bigEndianBytes,
      Nat.mod_eq_of_lt hlt]
  unfold TlvEncoder.writeVarNumber
  split
  · rename_i h
    simp [TlvDecoder.readVarNumber, h]
  · split
    · exact wide 253 2 (by omega) (by simp) (by omega)
    · split
      · exact wide 254 4 (by omega) (by simp) (by omega)
      · exact wide 255 8 (by omega) (by simp) (by norm_num at hn ⊢; omega)

theorem TlvEncoder.writeVarNumber_length_pos (n : Nat) :
    0 < (TlvEncoder.writeVarNumber n).length := by
  unfold TlvEncoder.writeVarNumber
  split_ifs <;> simp

theorem TlvEncoder.writeVarNumber_length_le (n : Nat) :
    (TlvEncoder.writeVarNumber n).length ≤ 9 := by
  unfold TlvEncoder.writeVarNumber
  split_ifs <;> simp [bigEndianBytes_length]

theorem TlvEncoder.writeVarNumber_lt (n : Nat) (hn : n < 2 ^ 64) :
    ∀ b ∈ TlvEncoder.writeVarNumber n, b < 256 := by
  intro b hb
  unfold TlvEncoder.writeVarNumber at hb
  split_ifs at hb with h1 h2 h3
  · simp only [List.mem_singleton] at hb
    omega
  all_goals
    simp only [List.mem_cons] at hb
    rcases hb with hb | hb
    · omega
    · exact bigEndianBytes_lt _ _ b hb

theorem TlvEncoder.writeVarNumber_length_of_lt (n width : Nat)
    (hw : width = 2 ∨ width = 4 ∨ width = 8) (hn : n < 256 ^ width) :
    (TlvEncoder.writeVarNumber n).length ≤ width + 1 := by
  unfold TlvEncoder.writeVarNumber
  rcases hw with hw | hw | hw <;> subst hw <;> norm_num at hn <;>
    split_ifs <;> simp [bigEndianBytes_length]

theorem TlvDecoder.readVarNumber_shortest (bs rest : List Nat) (n : Nat)
    (hbytes : ∀ b ∈ bs, b < 256) (h : TlvDecoder.readVarNumber bs = some (n, rest)) :
    (TlvEncoder.writeVarNumber n).length ≤ bs.length - rest.length := by
  cases bs with
  | nil => simp [TlvDecoder.readVarNumber] at h
  | cons first tl =>
      by_cases hlt : first < 253
      · have hr : TlvDecoder.readVarNumber (first :: tl) = some (first, tl) := by
          simp [TlvDecoder.readVarNumber, hlt]
        rw [hr] at h
        simp only [Option.some.injEq, Prod.mk.injEq] at h
        obtain ⟨h1, h2⟩ := h
        subst h1 h2
        simp [TlvEncoder.writeVarNumber, hlt]
      · obtain ⟨width, hwdef, hwcases⟩ : ∃ width : Nat,
            (if first = 253 then 2 else if first = 254 then 4 else 8) = width ∧
            (width = 2 ∨ width = 4 ∨ width = 8) := by
          refine ⟨_, rfl, ?_⟩
          split_ifs <;> simp
        have hr : TlvDecoder.readVarNumber (first :: tl) =
            if width ≤ tl.length then
              some (bigEndianValue (tl.take width), tl.drop width) else none := by
          simp only [TlvDecoder.readVarNumber, if_neg hlt, hwdef]
        rw [hr] at h
        by_cases hwidth : width ≤ tl.length
        · rw [if_pos hwidth] at h
          simp only [Option.some.injEq, Prod.mk.injEq] at h
          obtain ⟨h1, h2⟩ := h
          have htake : ∀ b ∈ tl.take width, b < 256 := fun b hb =>
            hbytes b (List.mem_cons_of_mem _ (List.mem_of_mem_take hb))
          have hval := bigEndianValue_lt _ htake
          rw [h1, List.length_take, Nat.min_eq_left hwidth] at hval
          have hlen := TlvEncoder.writeVarNumber_length_of_lt n width hwcases hval
          have hrest : rest.length = tl.length - width := by
            rw [← h2, List.length_drop]
          simp only [List.length_cons]
          omega
        · rw [if_neg hwidth] at h
          exact absurd h (by simp)

/-- C10. For every `n` below `2 ^ 64`, `writeVarNumber(n)` emits the form the value calls for
(1 byte when `n < 253`, 0xFD and 2 bytes when `n < 65536`, 0xFE and 4 bytes when `n < 2^32`,
0xFF and 8 bytes otherwise, most significant byte first), every byte emitted is below 256,
`readVarNumber` applied to those bytes followed by anything returns `n` and leaves exactly
what followed, and no byte string that `readVarNumber` reads as `n` is shorter. -/
theorem TlvEncoder.writeVarNumber_canonical (n : Nat) (hn : n < 2 ^ 64) :
    TlvEncoder.writeVarNumber n =
        (if n < 253 then [n]
          else if n < 65536 then [253, n / 256 % 256, n % 256]
          else if n < 4294967296 then
            [254, n / 16777216 % 256, n / 65536 % 256, n / 256 % 256, n % 256]
          else
            [255, n / 72057594037927936 % 256, n / 281474976710656 % 256,
              n / 1099511627776 % 256, n / 4294967296 % 256, n / 16777216 % 256,
              n / 65536 % 256, n / 256 % 256, n % 256]) ∧
      (∀ b ∈ TlvEncoder.writeVarNumber n, b < 256) ∧
      (∀ rest : List Nat,
        TlvDecoder.readVarNumber (TlvEncoder.writeVarNumber n ++ rest) = some (n, rest)) ∧
      (∀ bs rest : List Nat, (∀ b ∈ bs, b < 256) →
        TlvDecoder.readVarNumber bs = some (n, rest) →
        (TlvEncoder.writeVarNumber n).length ≤ bs.length - rest.length) := by
  refine ⟨?_, TlvEncoder.writeVarNumber_lt n hn, TlvDecoder.readVarNumber_writeVarNumber n hn,
    fun bs rest hb h => TlvDecoder.readVarNumber_shortest bs rest n hb h⟩
  unfold TlvEncoder.writeVarNumber
  split_ifs <;> simp [bigEndianBytes]

/-- Witness for C10: the length 863 of the LpPacket in `CONGESTION_MARK_PACKET` is written
`fd 03 5f` and read back. -/
theorem TlvEncoder.writeVarNumber_canonical_witness :
    (863 : Nat) < 2 ^ 64 ∧ TlvEncoder.writeVarNumber 863 = [0xfd, 0x03, 0x5f] ∧
      TlvDecoder.readVarNumber (TlvEncoder.writeVarNumber 863 ++ [0xfd, 0x03, 0x40, 0x01, 0x01]) =
        some (863, [0xfd, 0x03, 0x40, 0x01, 0x01]) :=
  ⟨by norm_num, by decide,
    (TlvEncoder.writeVarNumber_canonical 863 (by norm_num)).2.2.1 [0xfd, 0x03, 0x40, 0x01, 0x01]⟩

/-! ## Round trip of the TLV primitives -/

theorem TlvDecoder.readTypeAndLength_write (type length : Nat) (rest : List Nat)
    (ht : type < 2 ^ 64) (hl : length < 2 ^ 64) (hle : length ≤ rest.length) :
    TlvDecoder.readTypeAndLength type (TlvEncoder.writeTypeAndLength type length ++ rest) =
      some (length, rest) := by
  simp only [TlvDecoder.readTypeAndLength, TlvEncoder.writeTypeAndLength, List.append_assoc,
    TlvDecoder.readVarNumber_writeVarNumber type ht,
    TlvDecoder.readVarNumber_writeVarNumber length hl, if_true, if_pos hle]

theorem TlvDecoder.readBlobTlv_write (type : Nat) (bytes rest : List Nat)
    (ht : type < 2 ^ 64) (hl : bytes.length < 2 ^ 64) :
    TlvDecoder.readBlobTlv type (TlvEncoder.writeBlobTlv type bytes ++ rest) =
      some (bytes, rest) := by
  simp only [TlvDecoder.readBlobTlv, TlvEncoder.writeBlobTlv, List.append_assoc]
  rw [TlvDecoder.readTypeAndLength_write type bytes.length (bytes ++ rest) ht hl (by simp)]
  simp

theorem TlvDecoder.readNestedTlvStart_write (type : Nat) (inner rest : List Nat)
    (ht : type < 2 ^ 64) (hl : inner.length < 2 ^ 64) :
    TlvDecoder.readNestedTlvStart type (TlvEncoder.writeNestedTlv type inner ++ rest) =
      some (inner, rest) :=
  TlvDecoder.readBlobTlv_write type inner rest ht hl

theorem TlvDecoder.peekType_nil (type : Nat) : TlvDecoder.peekType type [] = false := rfl

theorem TlvDecoder.peekType_writeVarNumber (expected type : Nat) (rest : List Nat)
    (ht : type < 2 ^ 64) :
    TlvDecoder.peekType expected (TlvEncoder.writeVarNumber type ++ rest) =
      (type == expected) := by
  simp only [TlvDecoder.peekType, TlvDecoder.readVarNumber_writeVarNumber type ht]

theorem TlvDecoder.peekType_writeBlobTlv (expected type : Nat) (bytes rest : List Nat)
    (ht : type < 2 ^ 64) :
    TlvDecoder.peekType expected (TlvEncoder.writeBlobTlv type bytes ++ rest) =
      (type == expected) := by
  simp only [TlvEncoder.writeBlobTlv, TlvEncoder.writeTypeAndLength, List.append_assoc,
    TlvDecoder.peekType_writeVarNumber expected type _ ht]

theorem TlvDecoder.peekType_writeNonNegativeIntegerTlv (expected type value : Nat)
    (rest : List Nat) (ht : type < 2 ^ 64) :
    TlvDecoder.peekType expected
        (TlvEncoder.writeNonNegativeIntegerTlv type value ++ rest) = (type == expected) :=
  TlvDecoder.peekType_writeBlobTlv expected type _ rest ht

theorem TlvDecoder.readNonNegativeIntegerTlv_write (type value : Nat) (rest : List Nat)
    (ht : type < 2 ^ 64) (hv : value < 2 ^ 64) :
    TlvDecoder.readNonNegativeIntegerTlv type
        (TlvEncoder.writeNonNegativeIntegerTlv type value ++ rest) = some (value, rest) := by
  have key : ∀ width : Nat, (width = 1 ∨ width = 2 ∨ width = 4 ∨ width = 8) →
      value < 256 ^ width →
      TlvDecoder.readNonNegativeIntegerTlv type
        (TlvEncoder.writeBlobTlv type (bigEndianBytes width value) ++ rest) =
        some (value, rest) := by
    intro width hw hlt
    have hlen := bigEndianBytes_length width value
    simp only [TlvDecoder.readNonNegativeIntegerTlv]
    rw [TlvDecoder.readBlobTlv_write type _ rest ht (by rw [hlen]; omega)]
    simp only [hlen, if_pos hw, bigEndianValue_bigEndianBytes, Nat.mod_eq_of_lt hlt]
  unfold TlvEncoder.writeNonNegativeIntegerTlv
  split_ifs with h1 h2 h3
  · exact key 1 (by simp) (by omega)
  · exact key 2 (by simp) (by omega)
  · exact key 4 (by simp) (by omega)
  · exact key 8 (by simp) (by norm_num at hv ⊢; omega)

theorem TlvEncoder.writeBlobTlv_length_ge (type : Nat) (bytes : List Nat) :
    bytes.length + 2 ≤ (TlvEncoder.writeBlobTlv type bytes).length := by
  have h1 := TlvEncoder.writeVarNumber_length_pos type
  have h2 := TlvEncoder.writeVarNumber_length_pos bytes.length
  simp only [TlvEncoder.writeBlobTlv, TlvEncoder.writeTypeAndLength, List.length_append]
  omega

theorem TlvEncoder.writeNestedTlv_length_ge (type : Nat) (inner : List Nat) :
    inner.length + 2 ≤ (TlvEncoder.writeNestedTlv type inner).length :=
  TlvEncoder.writeBlobTlv_length_ge type inner

theorem TlvEncoder.writeBlobTlv_ne_nil (type : Nat) (bytes : List Nat) :
    TlvEncoder.writeBlobTlv type bytes ≠ [] := by
  intro h
  have := TlvEncoder.writeBlobTlv_length_ge type bytes
  rw [h] at this
  simp at this

/-! ## Round trip of names -/

theorem decodeTlvNameComponents_succ (capacity : Nat) (input : List Nat) (h : input ≠ []) :
    decodeTlvNameComponents (capacity + 1) input =
      (match TlvDecoder.readBlobTlv ndn_Tlv_NameComponent input with
        | none => none
        | some (component, afterComponent) =>
          match decodeTlvNameComponents capacity afterComponent with
          | none => none
          | some (components, lastLength) =>
            some (component :: components,
              if afterComponent.isEmpty then input.length else lastLength)) := by
  cases input with
  | nil => exact absurd rfl h
  | cons b rest => rfl

theorem encodeTlvNameComponents_eq_nil (name : Name) :
    encodeTlvNameComponents name = [] ↔ name = [] := by
  cases name with
  | nil => simp [encodeTlvNameComponents]
  | cons c cs =>
      simp [encodeTlvNameComponents, TlvEncoder.writeBlobTlv_ne_nil]

theorem lastNameComponentTlvLength_cons (c : NameComponent) (cs : Name) :
    lastNameComponentTlvLength (c :: cs) =
      if cs = [] then (TlvEncoder.writeBlobTlv ndn_Tlv_NameComponent c).length
      else lastNameComponentTlvLength cs := by
  cases cs with
  | nil => simp [lastNameComponentTlvLength]
  | cons d ds => simp [lastNameComponentTlvLength, List.getLast?_cons_cons]

theorem decodeTlvNameComponents_encode (name : Name) :
    ∀ capacity : Nat, name.length ≤ capacity →
      (encodeTlvNameComponents name).length < 2 ^ 64 →
      decodeTlvNameComponents capacity (encodeTlvNameComponents name) =
        some (name, lastNameComponentTlvLength name) := by
  induction name with
  | nil =>
      intro capacity _ _
      cases capacity <;> rfl
  | cons c cs ih =>
      intro capacity hcap hlen
      cases capacity with
      | zero => simp at hcap
      | succ capacity =>
          simp only [List.length_cons, Nat.add_le_add_iff_right] at hcap
          have hc := TlvEncoder.writeBlobTlv_length_ge ndn_Tlv_NameComponent c
          simp only [encodeTlvNameComponents, List.length_append] at hlen
          rw [decodeTlvNameComponents_succ _ _ (by
            simp [encodeTlvNameComponents, TlvEncoder.writeBlobTlv_ne_nil])]
          simp only [encodeTlvNameComponents]
          rw [TlvDecoder.readBlobTlv_write ndn_Tlv_NameComponent c _
            (by norm_num [ndn_Tlv_NameComponent]) (by omega)]
          simp only [ih capacity hcap (by omega), lastNameComponentTlvLength_cons,
            List.isEmpty_iff, encodeTlvNameComponents_eq_nil]
          by_cases hcs : cs = []
          · simp [hcs, encodeTlvNameComponents]
          · simp [hcs]

theorem ndn_decodeTlvName_encode (name : Name) (capacity : Nat) (rest : List Nat)
    (hcap : name.length ≤ capacity) (hlen : (ndn_encodeTlvName name).length < 2 ^ 64) :
    ndn_decodeTlvName capacity (ndn_encodeTlvName name ++ rest) =
      some ((name, lastNameComponentTlvLength name), rest) := by
  have hge := TlvEncoder.writeNestedTlv_length_ge ndn_Tlv_Name (encodeTlvNameComponents name)
  unfold ndn_encodeTlvName at hlen
  simp only [ndn_decodeTlvName, ndn_encodeTlvName]
  rw [TlvDecoder.readNestedTlvStart_write ndn_Tlv_Name _ rest
    (by norm_num [ndn_Tlv_Name]) (by omega)]
  simp only [decodeTlvNameComponents_encode name capacity hcap (by omega)]

/-! ## Round trip of MetaInfo and SignatureInfo -/

theorem TlvDecoder.readBlobTlv_write_nil (type : Nat) (bytes : List Nat)
    (ht : type < 2 ^ 64) (hl : bytes.length < 2 ^ 64) :
    TlvDecoder.readBlobTlv type (TlvEncoder.writeBlobTlv type bytes) = some (bytes, []) := by
  have := TlvDecoder.readBlobTlv_write type bytes [] ht hl
  rwa [List.append_nil] at this

theorem TlvDecoder.readNestedTlvStart_write_nil (type : Nat) (inner : List Nat)
    (ht : type < 2 ^ 64) (hl : inner.length < 2 ^ 64) :
    TlvDecoder.readNestedTlvStart type (TlvEncoder.writeNestedTlv type inner) =
      some (inner, []) :=
  TlvDecoder.readBlobTlv_write_nil type inner ht hl

theorem TlvDecoder.peekType_writeBlobTlv_nil (expected type : Nat) (bytes : List Nat)
    (ht : type < 2 ^ 64) :
    TlvDecoder.peekType expected (TlvEncoder.writeBlobTlv type bytes) = (type == expected) := by
  have := TlvDecoder.peekType_writeBlobTlv expected type bytes [] ht
  rwa [List.append_nil] at this

theorem TlvDecoder.peekType_writeNestedTlv_nil (expected type : Nat) (inner : List Nat)
    (ht : type < 2 ^ 64) :
    TlvDecoder.peekType expected (TlvEncoder.writeNestedTlv type inner) = (type == expected) :=
  TlvDecoder.peekType_writeBlobTlv_nil expected type inner ht

theorem TlvDecoder.peekType_writeNonNegativeIntegerTlv_nil (expected type value : Nat)
    (ht : type < 2 ^ 64) :
    TlvDecoder.peekType expected (TlvEncoder.writeNonNegativeIntegerTlv type value) =
      (type == expected) :=
  TlvDecoder.peekType_writeBlobTlv_nil expected type _ ht

theorem TlvDecoder.readNonNegativeIntegerTlv_write_nil (type value : Nat)
    (ht : type < 2 ^ 64) (hv : value < 2 ^ 64) :
    TlvDecoder.readNonNegativeIntegerTlv type
        (TlvEncoder.writeNonNegativeIntegerTlv type value) = some (value, []) := by
  have := TlvDecoder.readNonNegativeIntegerTlv_write type value [] ht hv
  rwa [List.append_nil] at this

theorem TlvDecoder.finishNestedTlv_nil : TlvDecoder.finishNestedTlv [] = some () := rfl

theorem decodeTlvMetaInfo_encode (metaInfo : MetaInfo) (rest : List Nat)
    (htype : metaInfo.type < 2 ^ 64)
    (hfresh : ∀ f, metaInfo.freshnessPeriod = some f → f < 2 ^ 64)
    (hlen : (encodeTlvMetaInfo metaInfo).length < 2 ^ 64) :
    decodeTlvMetaInfo (encodeTlvMetaInfo metaInfo ++ rest) = some (metaInfo, rest) := by
  have hge := TlvEncoder.writeNestedTlv_length_ge ndn_Tlv_MetaInfo
    (encodeTlvMetaInfoValue metaInfo)
  unfold encodeTlvMetaInfo at hlen
  simp only [decodeTlvMetaInfo, encodeTlvMetaInfo]
  rw [TlvDecoder.readNestedTlvStart_write ndn_Tlv_MetaInfo _ rest
    (by norm_num [ndn_Tlv_MetaInfo]) (by omega)]
  have hvalue : (encodeTlvMetaInfoValue metaInfo).length < 2 ^ 64 := by omega
  obtain ⟨type, freshnessPeriod, finalBlockId⟩ := metaInfo
  simp only at htype hfresh hvalue ⊢
  have hfinal : finalBlockId.length < 2 ^ 64 ∧
      (TlvEncoder.writeBlobTlv ndn_Tlv_NameComponent finalBlockId).length < 2 ^ 64 := by
    by_cases hf : finalBlockId = []
    · subst hf
      have h1 := TlvEncoder.writeVarNumber_length_le ndn_Tlv_NameComponent
      have h2 := TlvEncoder.writeVarNumber_length_le ([] : List Nat).length
      simp only [TlvEncoder.writeBlobTlv, TlvEncoder.writeTypeAndLength, List.length_append,
        List.length_nil] at h2 ⊢
      constructor <;> omega
    · have h1 := TlvEncoder.writeBlobTlv_length_ge ndn_Tlv_NameComponent finalBlockId
      have h2 := TlvEncoder.writeNestedTlv_length_ge ndn_Tlv_FinalBlockId
        (TlvEncoder.writeBlobTlv ndn_Tlv_NameComponent finalBlockId)
      simp only [encodeTlvMetaInfoValue, List.isEmpty_iff, hf, if_false,
        List.length_append] at hvalue
      constructor <;> omega
  have c24 : ndn_Tlv_ContentType < 2 ^ 64 := by norm_num [ndn_Tlv_ContentType]
  have c25 : ndn_Tlv_FreshnessPeriod < 2 ^ 64 := by norm_num [ndn_Tlv_FreshnessPeriod]
  have c26 : ndn_Tlv_FinalBlockId < 2 ^ 64 := by norm_num [ndn_Tlv_FinalBlockId]
  have c8 : ndn_Tlv_NameComponent < 2 ^ 64 := by norm_num [ndn_Tlv_NameComponent]
  have e1 : (ndn_Tlv_FreshnessPeriod == ndn_Tlv_ContentType) = false := by decide
  have e2 : (ndn_Tlv_FinalBlockId == ndn_Tlv_ContentType) = false := by decide
  have e3 : (ndn_Tlv_FinalBlockId == ndn_Tlv_FreshnessPeriod) = false := by decide
  have e4 : (ndn_Tlv_ContentType == ndn_Tlv_ContentType) = true := by decide
  have e5 : (ndn_Tlv_FreshnessPeriod == ndn_Tlv_FreshnessPeriod) = true := by decide
  have e6 : (ndn_Tlv_FinalBlockId == ndn_Tlv_FinalBlockId) = true := by decide
  rcases freshnessPeriod with _ | f
  · by_cases ht : type = 0 <;> by_cases hf : finalBlockId = [] <;>
      simp [encodeTlvMetaInfoValue, TlvDecoder.readOptionalNonNegativeIntegerTlv, ht, hf,
        TlvDecoder.peekType_nil, TlvDecoder.finishNestedTlv_nil,
        TlvDecoder.peekType_writeNonNegativeIntegerTlv _ _ _ _ c24,
        TlvDecoder.peekType_writeNonNegativeIntegerTlv_nil _ _ _ c24,
        TlvDecoder.peekType_writeNestedTlv_nil _ _ _ c26,
        TlvDecoder.readNonNegativeIntegerTlv_write _ _ _ c24 htype,
        TlvDecoder.readNonNegativeIntegerTlv_write_nil _ _ c24 htype,
        TlvDecoder.readNestedTlvStart_write_nil _ _ c26 hfinal.2,
        TlvDecoder.readBlobTlv_write_nil _ _ c8 hfinal.1,
        e1, e2, e3, e4, e5, e6]
  · have hf64 : f < 2 ^ 64 := hfresh f rfl
    by_cases ht : type = 0 <;> by_cases hf : finalBlockId = [] <;>
      simp [encodeTlvMetaInfoValue, TlvDecoder.readOptionalNonNegativeIntegerTlv, ht, hf,
        TlvDecoder.peekType_nil, TlvDecoder.finishNestedTlv_nil,
        TlvDecoder.peekType_writeNonNegativeIntegerTlv _ _ _ _ c24,
        TlvDecoder.peekType_writeNonNegativeIntegerTlv _ _ _ _ c25,
        TlvDecoder.peekType_writeNonNegativeIntegerTlv_nil _ _ _ c24,
        TlvDecoder.peekType_writeNonNegativeIntegerTlv_nil _ _ _ c25,
        TlvDecoder.peekType_writeNestedTlv_nil _ _ _ c26,
        TlvDecoder.readNonNegativeIntegerTlv_write _ _ _ c24 htype,
        TlvDecoder.readNonNegativeIntegerTlv_write_nil _ _ c24 htype,
        TlvDecoder.readNonNegativeIntegerTlv_write _ _ _ c25 hf64,
        TlvDecoder.readNonNegativeIntegerTlv_write_nil _ _ c25 hf64,
        TlvDecoder.readNestedTlvStart_write_nil _ _ c26 hfinal.2,
        TlvDecoder.readBlobTlv_write_nil _ _ c8 hfinal.1,
        e1, e2, e3, e4, e5, e6]

theorem ndn_decodeTlvName_encode_nil (name : Name) (capacity : Nat)
    (hcap : name.length ≤ capacity) (hlen : (ndn_encodeTlvName name).length < 2 ^ 64) :
    ndn_decodeTlvName capacity (ndn_encodeTlvName name) =
      some ((name, lastNameComponentTlvLength name), []) := by
  have := ndn_decodeTlvName_encode name capacity [] hcap hlen
  rwa [List.append_nil] at this

/-- The key name of a key locator fits in an array of `capacity` components. -/
theorem decodeTlvKeyLocatorValue_encode (keyLocator : SignatureKeyLocator) (capacity : Nat)
    (hcap : ∀ name, keyLocator = .keyName name → name.length ≤ capacity)
    (hlen : (encodeTlvKeyLocatorValue keyLocator).length < 2 ^ 64) :
    decodeTlvKeyLocatorValue capacity (encodeTlvKeyLocatorValue keyLocator) =
      some keyLocator := by
  have c7 : ndn_Tlv_Name < 2 ^ 64 := by norm_num [ndn_Tlv_Name]
  have c29 : ndn_Tlv_KeyLocatorDigest < 2 ^ 64 := by norm_num [ndn_Tlv_KeyLocatorDigest]
  have e1 : (ndn_Tlv_Name == ndn_Tlv_Name) = true := by decide
  have e2 : (ndn_Tlv_KeyLocatorDigest == ndn_Tlv_Name) = false := by decide
  have e3 : (ndn_Tlv_KeyLocatorDigest == ndn_Tlv_KeyLocatorDigest) = true := by decide
  cases keyLocator with
  | none =>
      simp [decodeTlvKeyLocatorValue, encodeTlvKeyLocatorValue, TlvDecoder.peekType_nil,
        TlvDecoder.finishNestedTlv_nil]
  | keyName name =>
      simp only [encodeTlvKeyLocatorValue] at hlen ⊢
      have hp : TlvDecoder.peekType ndn_Tlv_Name (ndn_encodeTlvName name) = true := by
        unfold ndn_encodeTlvName
        rw [TlvDecoder.peekType_writeNestedTlv_nil _ _ _ c7, e1]
      simp only [decodeTlvKeyLocatorValue, hp, if_true,
        ndn_decodeTlvName_encode_nil name capacity (hcap name rfl) hlen,
        TlvDecoder.finishNestedTlv_nil]
  | keyLocatorDigest digest =>
      simp only [encodeTlvKeyLocatorValue] at hlen ⊢
      have hge := TlvEncoder.writeBlobTlv_length_ge ndn_Tlv_KeyLocatorDigest digest
      simp [decodeTlvKeyLocatorValue, TlvDecoder.peekType_writeBlobTlv_nil _ _ _ c29, e2, e3,
        TlvDecoder.readBlobTlv_write_nil _ _ c29 (show digest.length < 2 ^ 64 by omega),
        TlvDecoder.finishNestedTlv_nil]

theorem ndn_decodeTlvSignatureInfo_encode (signature : Signature) (capacity : Nat)
    (rest : List Nat) (htype : signature.type < 2 ^ 64)
    (hcap : ∀ name, signature.keyLocator = .keyName name → name.length ≤ capacity)
    (hlen : (ndn_encodeTlvSignatureInfo signature).length < 2 ^ 64) :
    ndn_decodeTlvSignatureInfo capacity (ndn_encodeTlvSignatureInfo signature ++ rest) =
      some ((signature.type, signature.keyLocator), rest) := by
  have c22 : ndn_Tlv_SignatureInfo < 2 ^ 64 := by norm_num [ndn_Tlv_SignatureInfo]
  have c27 : ndn_Tlv_SignatureType < 2 ^ 64 := by norm_num [ndn_Tlv_SignatureType]
  have c28 : ndn_Tlv_KeyLocator < 2 ^ 64 := by norm_num [ndn_Tlv_KeyLocator]
  have e1 : (ndn_Tlv_KeyLocator == ndn_Tlv_KeyLocator) = true := by decide
  obtain ⟨type, keyLocator, bytes⟩ := signature
  simp only at htype hcap
  unfold ndn_encodeTlvSignatureInfo at hlen ⊢
  simp only at hlen ⊢
  have hge := TlvEncoder.writeNestedTlv_length_ge ndn_Tlv_SignatureInfo
    (TlvEncoder.writeNonNegativeIntegerTlv ndn_Tlv_SignatureType type ++
      encodeTlvKeyLocator keyLocator)
  simp only [ndn_decodeTlvSignatureInfo]
  rw [TlvDecoder.readNestedTlvStart_write ndn_Tlv_SignatureInfo _ rest c22 (by omega)]
  have hkl : keyLocator = .none ∨
      (encodeTlvKeyLocator keyLocator =
        TlvEncoder.writeNestedTlv ndn_Tlv_KeyLocator (encodeTlvKeyLocatorValue keyLocator)) := by
    cases keyLocator with
    | none => exact Or.inl rfl
    | keyName name => exact Or.inr rfl
    | keyLocatorDigest digest => exact Or.inr rfl
  rcases hkl with hnone | hmatch
  · subst hnone
    simp [encodeTlvKeyLocator, TlvDecoder.readNonNegativeIntegerTlv_write_nil _ _ c27 htype,
      TlvDecoder.peekType_nil, TlvDecoder.finishNestedTlv_nil]
  · rw [hmatch] at hlen hge ⊢
    have h2 := TlvEncoder.writeNestedTlv_length_ge ndn_Tlv_KeyLocator
      (encodeTlvKeyLocatorValue keyLocator)
    simp only [List.length_append] at hlen hge
    have hvalue : (encodeTlvKeyLocatorValue keyLocator).length < 2 ^ 64 := by omega
    simp [TlvDecoder.readNonNegativeIntegerTlv_write _ _ _ c27 htype,
      TlvDecoder.peekType_writeNestedTlv_nil _ _ _ c28, e1,
      TlvDecoder.readNestedTlvStart_write_nil _ _ c28 hvalue,
      decodeTlvKeyLocatorValue_encode keyLocator capacity hcap hvalue,
      TlvDecoder.finishNestedTlv_nil]

/-! ## Round trip of Data packets -/

theorem ndn_encodeTlvData_bytes (data : Data) :
    (ndn_encodeTlvData data).bytes =
      TlvEncoder.writeNestedTlv ndn_Tlv_Data
        (ndn_encodeTlvName data.name ++ (encodeTlvMetaInfo data.metaInfo ++
          (TlvEncoder.writeBlobTlv ndn_Tlv_Content data.content ++
            (ndn_encodeTlvSignatureInfo data.signature ++
              TlvEncoder.writeBlobTlv ndn_Tlv_SignatureValue data.signature.signature)))) := by
  simp only [ndn_encodeTlvData, encodeTlvDataSignedPortion, TlvEncoder.writeNestedTlv,
    List.append_assoc]

theorem ndn_decodeTlvData_encode (data : Data) (maxNameComponents maxKeyNameComponents : Nat)
    (trailing : List Nat) (hv : data.Valid maxNameComponents maxKeyNameComponents) :
    ndn_decodeTlvData maxNameComponents maxKeyNameComponents
        ((ndn_encodeTlvData data).bytes ++ trailing) =
      some { value := data
             signedPortionBeginOffset := (ndn_encodeTlvData data).signedPortionBeginOffset
             signedPortionEndOffset := (ndn_encodeTlvData data).signedPortionEndOffset } := by
  obtain ⟨hname, hkeySize, htype, hfreshD, hsig, hlen⟩ := hv
  have hkey : ∀ name, data.signature.keyLocator = .keyName name →
      name.length ≤ maxKeyNameComponents := by
    intro name h
    rw [h] at hkeySize
    exact hkeySize
  have hfresh : ∀ f, data.metaInfo.freshnessPeriod = some f → f < 2 ^ 64 := by
    intro f h
    rw [h] at hfreshD
    exact hfreshD
  have c6 : ndn_Tlv_Data < 2 ^ 64 := by norm_num [ndn_Tlv_Data]
  have c21 : ndn_Tlv_Content < 2 ^ 64 := by norm_num [ndn_Tlv_Content]
  have c23 : ndn_Tlv_SignatureValue < 2 ^ 64 := by norm_num [ndn_Tlv_SignatureValue]
  have hbytes := ndn_encodeTlvData_bytes data
  rw [hbytes] at hlen
  have g0 := TlvEncoder.writeNestedTlv_length_ge ndn_Tlv_Data
    (ndn_encodeTlvName data.name ++ (encodeTlvMetaInfo data.metaInfo ++
      (TlvEncoder.writeBlobTlv ndn_Tlv_Content data.content ++
        (ndn_encodeTlvSignatureInfo data.signature ++
          TlvEncoder.writeBlobTlv ndn_Tlv_SignatureValue data.signature.signature))))
  have g1 := TlvEncoder.writeBlobTlv_length_ge ndn_Tlv_Content data.content
  have g2 := TlvEncoder.writeBlobTlv_length_ge ndn_Tlv_SignatureValue data.signature.signature
  simp only [List.length_append] at g0
  have hdecode : ndn_decodeTlvData maxNameComponents maxKeyNameComponents
      ((ndn_encodeTlvData data).bytes ++ trailing) =
      some { value := data
             signedPortionBeginOffset :=
               ((ndn_encodeTlvData data).bytes ++ trailing).length -
                 ((ndn_encodeTlvName data.name ++ (encodeTlvMetaInfo data.metaInfo ++
                    (TlvEncoder.writeBlobTlv ndn_Tlv_Content data.content ++
                      (ndn_encodeTlvSignatureInfo data.signature ++
                        TlvEncoder.writeBlobTlv ndn_Tlv_SignatureValue
                          data.signature.signature)))).length + trailing.length)
             signedPortionEndOffset :=
               ((ndn_encodeTlvData data).bytes ++ trailing).length -
                 ((TlvEncoder.writeBlobTlv ndn_Tlv_SignatureValue
                    data.signature.signature).length + trailing.length) } := by
    simp only [ndn_decodeTlvData]
    rw [hbytes, TlvDecoder.readNestedTlvStart_write ndn_Tlv_Data _ trailing c6
      (by simp only [List.length_append]; omega)]
    simp only []
    rw [ndn_decodeTlvName_encode data.name maxNameComponents _ hname (by omega)]
    simp only []
    rw [decodeTlvMetaInfo_encode data.metaInfo _ htype hfresh (by omega)]
    simp only []
    rw [TlvDecoder.readBlobTlv_write ndn_Tlv_Content data.content _ c21 (by omega)]
    simp only []
    rw [ndn_decodeTlvSignatureInfo_encode data.signature maxKeyNameComponents _ hsig hkey
      (by omega)]
    simp only []
    rw [TlvDecoder.readBlobTlv_write_nil ndn_Tlv_SignatureValue data.signature.signature c23
      (by omega)]
    simp only [TlvDecoder.finishNestedTlv_nil]
  rw [hdecode]
  simp only [ndn_encodeTlvData, encodeTlvDataSignedPortion, List.length_append,
    Option.some.injEq, TlvDecoding.mk.injEq, true_and]
  constructor <;> omega

theorem ndn_decodeTlvInterest_encode {φ : Type} (codec : InterestFieldsCodec φ)
    (interest : TlvInterest φ) (maxNameComponents : Nat)
    (hname : interest.name.length ≤ maxNameComponents)
    (hcodec : codec.decode (codec.encode interest.fields) = some interest.fields)
    (hlen : (ndn_encodeTlvInterest codec interest).bytes.length < 2 ^ 64) :
    ndn_decodeTlvInterest codec maxNameComponents (ndn_encodeTlvInterest codec interest).bytes =
      some { value := interest
             signedPortionBeginOffset :=
               (ndn_encodeTlvInterest codec interest).signedPortionBeginOffset
             signedPortionEndOffset :=
               (ndn_encodeTlvInterest codec interest).signedPortionEndOffset } := by
  have c5 : ndn_Tlv_Interest < 2 ^ 64 := by norm_num [ndn_Tlv_Interest]
  have hbytes : (ndn_encodeTlvInterest codec interest).bytes =
      TlvEncoder.writeNestedTlv ndn_Tlv_Interest
        (ndn_encodeTlvName interest.name ++ codec.encode interest.fields) := rfl
  rw [hbytes] at hlen
  have g0 := TlvEncoder.writeNestedTlv_length_ge ndn_Tlv_Interest
    (ndn_encodeTlvName interest.name ++ codec.encode interest.fields)
  simp only [List.length_append] at g0
  have hdecode := TlvDecoder.readNestedTlvStart_write_nil ndn_Tlv_Interest
    (ndn_encodeTlvName interest.name ++ codec.encode interest.fields) c5
    (by simp only [List.length_append]; omega)
  simp only [ndn_decodeTlvInterest]
  rw [hbytes, hdecode]
  simp only []
  rw [ndn_decodeTlvName_encode interest.name maxNameComponents _ hname (by omega)]
  simp only [hcodec]
  simp only [ndn_encodeTlvInterest, TlvEncoder.writeNestedTlv, List.length_append,
    List.length_nil, Option.some.injEq, TlvDecoding.mk.injEq, true_and]
  constructor <;> omega

theorem codedDataValue_valid : codedDataValue.Valid 100 100 := by
  decide

/-- C6. For every valid Data object, decoding the bytes produced by encoding it (with any
bytes after them) succeeds and yields a Data equal to it field by field: name, content,
freshness period, final block id, signature bytes and key locator. -/
theorem ndn_decodeTlvData_roundtrip (data : Data)
    (maxNameComponents maxKeyNameComponents : Nat) (trailing : List Nat)
    (hv : data.Valid maxNameComponents maxKeyNameComponents) :
    ∃ decoded : TlvDecoding Data,
      ndn_decodeTlvData maxNameComponents maxKeyNameComponents
          ((ndn_encodeTlvData data).bytes ++ trailing) = some decoded ∧
        decoded.value.name = data.name ∧
        decoded.value.content = data.content ∧
        decoded.value.metaInfo.freshnessPeriod = data.metaInfo.freshnessPeriod ∧
        decoded.value.metaInfo.finalBlockId = data.metaInfo.finalBlockId ∧
        decoded.value.signature.signature = data.signature.signature ∧
        decoded.value.signature.keyLocator = data.signature.keyLocator :=
  ⟨_, ndn_decodeTlvData_encode data maxNameComponents maxKeyNameComponents trailing hv,
    rfl, rfl, rfl, rfl, rfl, rfl⟩

/-- Witness for C6, the test `EncodeDecode`: `codedData` decodes to the values of the test's
dump, these encode to the 208 bytes of the Data block of `codedData`, and decoding the
encoding (here followed by the test packet's last byte) gives the same values again. -/
theorem ndn_decodeTlvData_roundtrip_witness :
    codedDataValue.Valid 100 100 ∧
      ndn_decodeTlvData 100 100 codedData =
        some { value := codedDataValue, signedPortionBeginOffset := 2,
               signedPortionEndOffset := 78 } ∧
      (ndn_encodeTlvData codedDataValue).bytes = codedData.take 208 ∧
      ∃ decoded : TlvDecoding Data,
        ndn_decodeTlvData 100 100 ((ndn_encodeTlvData codedDataValue).bytes ++ [1]) =
            some decoded ∧
          decoded.value.name = codedDataValue.name ∧
          decoded.value.content = codedDataValue.content ∧
          decoded.value.metaInfo.freshnessPeriod = some 5000 ∧
          decoded.value.metaInfo.finalBlockId = [0x00, 0x09] ∧
          decoded.value.signature.signature = codedDataValue.signature.signature ∧
          decoded.value.signature.keyLocator = codedDataValue.signature.keyLocator :=
  ⟨codedDataValue_valid, by decide, by decide,
    ndn_decodeTlvData_roundtrip codedDataValue 100 100 [1] codedDataValue_valid⟩

/-- C7. For every Data packet encoding shorter than `2 ^ 64` bytes: the bytes before
`signedPortionBeginOffset` are the outer Data type and length header, and reading that header
leaves the cursor at `signedPortionBeginOffset`; the Name block starts there; the bytes from
`signedPortionBeginOffset` to `signedPortionEndOffset` are the Name, MetaInfo, Content and
the whole SignatureInfo block; the bytes from `signedPortionEndOffset` to the end are the
SignatureValue block and nothing else, and a SignatureValue read there returns the signature
and ends the packet. For `codedData` the decoder and the encoder give begin 2 and end 78. -/
theorem ndn_encodeTlvData_signedPortion_offsets (data : Data)
    (hlen : (ndn_encodeTlvData data).bytes.length < 2 ^ 64) :
    (ndn_encodeTlvData data).bytes.take (ndn_encodeTlvData data).signedPortionBeginOffset =
        TlvEncoder.writeTypeAndLength ndn_Tlv_Data
          ((ndn_encodeTlvData data).bytes.length -
            (ndn_encodeTlvData data).signedPortionBeginOffset) ∧
      TlvDecoder.readTypeAndLength ndn_Tlv_Data (ndn_encodeTlvData data).bytes =
        some ((ndn_encodeTlvData data).bytes.length -
            (ndn_encodeTlvData data).signedPortionBeginOffset,
          (ndn_encodeTlvData data).bytes.drop
            (ndn_encodeTlvData data).signedPortionBeginOffset) ∧
      ((ndn_encodeTlvData data).bytes.drop
          (ndn_encodeTlvData data).signedPortionBeginOffset).take
          (ndn_encodeTlvName data.name).length = ndn_encodeTlvName data.name ∧
      ((ndn_encodeTlvData data).bytes.take
          (ndn_encodeTlvData data).signedPortionEndOffset).drop
          (ndn_encodeTlvData data).signedPortionBeginOffset =
        ndn_encodeTlvName data.name ++ encodeTlvMetaInfo data.metaInfo ++
          TlvEncoder.writeBlobTlv ndn_Tlv_Content data.content ++
          ndn_encodeTlvSignatureInfo data.signature ∧
      (ndn_encodeTlvData data).bytes.drop (ndn_encodeTlvData data).signedPortionEndOffset =
        TlvEncoder.writeBlobTlv ndn_Tlv_SignatureValue data.signature.signature ∧
      TlvDecoder.readBlobTlv ndn_Tlv_SignatureValue
          ((ndn_encodeTlvData data).bytes.drop
            (ndn_encodeTlvData data).signedPortionEndOffset) =
        some (data.signature.signature, []) ∧
      (ndn_decodeTlvData 100 100 codedData).map
          (fun decoded => (decoded.signedPortionBeginOffset, decoded.signedPortionEndOffset)) =
        some (2, 78) ∧
      (ndn_encodeTlvData codedDataValue).signedPortionBeginOffset = 2 ∧
      (ndn_encodeTlvData codedDataValue).signedPortionEndOffset = 78 := by
  have c6 : ndn_Tlv_Data < 2 ^ 64 := by norm_num [ndn_Tlv_Data]
  have c23 : ndn_Tlv_SignatureValue < 2 ^ 64 := by norm_num [ndn_Tlv_SignatureValue]
  obtain ⟨header, portion, block, hheader, hbytes, hbegin, hend, hblock, hportion⟩ :
      ∃ header portion block : List Nat,
        header = TlvEncoder.writeTypeAndLength ndn_Tlv_Data (portion ++ block).length ∧
        (ndn_encodeTlvData data).bytes = header ++ (portion ++ block) ∧
        (ndn_encodeTlvData data).signedPortionBeginOffset = header.length ∧
        (ndn_encodeTlvData data).signedPortionEndOffset = header.length + portion.length ∧
        block = TlvEncoder.writeBlobTlv ndn_Tlv_SignatureValue data.signature.signature ∧
        portion = ndn_encodeTlvName data.name ++ encodeTlvMetaInfo data.metaInfo ++
          TlvEncoder.writeBlobTlv ndn_Tlv_Content data.content ++
          ndn_encodeTlvSignatureInfo data.signature :=
    ⟨_, _, _, rfl, rfl, rfl, rfl, rfl, rfl⟩
  have hsig := TlvEncoder.writeBlobTlv_length_ge ndn_Tlv_SignatureValue
    data.signature.signature
  rw [hbytes, hbegin, hend]
  rw [hbytes] at hlen
  simp only [List.length_append] at hlen
  have hsub : (header ++ (portion ++ block)).length - header.length =
      (portion ++ block).length := by
    simp
  refine ⟨?_, ?_, ?_, ?_, ?_, ?_, by decide, by decide, by decide⟩
  · rw [hsub, List.take_left' rfl, hheader]
  · rw [hsub, List.drop_left' rfl, hheader]
    exact TlvDecoder.readTypeAndLength_write ndn_Tlv_Data _ _ c6
      (by simp only [List.length_append]; omega) (le_refl _)
  · rw [List.drop_left' rfl, hportion]
    simp only [List.append_assoc]
    exact List.take_left' rfl
  · rw [← List.append_assoc, List.take_left' (by simp), List.drop_left' rfl, hportion]
  · rw [← List.append_assoc, List.drop_left' (by simp), hblock]
  · rw [← List.append_assoc, List.drop_left' (by simp), hblock]
    exact TlvDecoder.readBlobTlv_write_nil _ _ c23 (by rw [hblock] at hlen; omega)

/-- Witness for C7: the Data of `codedData`, whose encoding has 208 bytes. -/
theorem ndn_encodeTlvData_signedPortion_offsets_witness :
    (ndn_encodeTlvData codedDataValue).bytes.length < 2 ^ 64 ∧
      (ndn_encodeTlvData codedDataValue).bytes.drop
          (ndn_encodeTlvData codedDataValue).signedPortionEndOffset =
        TlvEncoder.writeBlobTlv ndn_Tlv_SignatureValue codedDataValue.signature.signature :=
  ⟨by decide, (ndn_encodeTlvData_signedPortion_offsets codedDataValue (by decide)).2.2.2.2.1⟩

/-- C8. For every valid Data object the pair of signed-portion offsets that `ndn_encodeTlvData`
writes equals the pair `ndn_decodeTlvData` writes when it decodes the bytes the encoder
returned; likewise for `ndn_encodeTlvInterest` and `ndn_decodeTlvInterest`, for every Interest
whose name fits the component array, whose encoding is shorter than `2 ^ 64` bytes and whose
other fields the field codec reads back. -/
theorem signedPortion_offsets_encode_eq_decode (data : Data)
    (maxNameComponents maxKeyNameComponents : Nat)
    (hv : data.Valid maxNameComponents maxKeyNameComponents)
    {φ : Type} (codec : InterestFieldsCodec φ) (interest : TlvInterest φ)
    (hname : interest.name.length ≤ maxNameComponents)
    (hcodec : codec.decode (codec.encode interest.fields) = some interest.fields)
    (hlen : (ndn_encodeTlvInterest codec interest).bytes.length < 2 ^ 64) :
    (∃ decoded : TlvDecoding Data,
      ndn_decodeTlvData maxNameComponents maxKeyNameComponents
          (ndn_encodeTlvData data).bytes = some decoded ∧
        decoded.signedPortionBeginOffset =
          (ndn_encodeTlvData data).signedPortionBeginOffset ∧
        decoded.signedPortionEndOffset = (ndn_encodeTlvData data).signedPortionEndOffset) ∧
    (∃ decoded : TlvDecoding (TlvInterest φ),
      ndn_decodeTlvInterest codec maxNameComponents
          (ndn_encodeTlvInterest codec interest).bytes = some decoded ∧
        decoded.signedPortionBeginOffset =
          (ndn_encodeTlvInterest codec interest).signedPortionBeginOffset ∧
        decoded.signedPortionEndOffset =
          (ndn_encodeTlvInterest codec interest).signedPortionEndOffset) := by
  constructor
  · have h := ndn_decodeTlvData_encode data maxNameComponents maxKeyNameComponents [] hv
    rw [List.append_nil] at h
    exact ⟨_, h, rfl, rfl⟩
  · exact ⟨_, ndn_decodeTlvInterest_encode codec interest maxNameComponents hname hcodec hlen,
      rfl, rfl⟩

/-- Witness for C8: the Data of `codedData`, and the Interest `/ndn/abc` with nonce
`01 02 03 04`, whose encoding has signed portion offsets 2 and 9. -/
theorem signedPortion_offsets_encode_eq_decode_witness :
    codedDataValue.Valid 100 100 ∧
      ([[0x6E, 0x64, 0x6E], [0x61, 0x62, 0x63]] : Name).length ≤ 100 ∧
      nonceOnlyCodec.decode (nonceOnlyCodec.encode [1, 2, 3, 4]) = some [1, 2, 3, 4] ∧
      (ndn_encodeTlvInterest nonceOnlyCodec
        { name := [[0x6E, 0x64, 0x6E], [0x61, 0x62, 0x63]], fields := [1, 2, 3, 4] }).bytes.length
        < 2 ^ 64 ∧
      ndn_decodeTlvInterest nonceOnlyCodec 100
          (ndn_encodeTlvInterest nonceOnlyCodec
            { name := [[0x6E, 0x64, 0x6E], [0x61, 0x62, 0x63]],
              fields := [1, 2, 3, 4] }).bytes =
        some { value := { name := [[0x6E, 0x64, 0x6E], [0x61, 0x62, 0x63]],
                          fields := [1, 2, 3, 4] }
               signedPortionBeginOffset := 2
               signedPortionEndOffset := 9 } ∧
      ∃ decoded : TlvDecoding Data,
        ndn_decodeTlvData 100 100 (ndn_encodeTlvData codedDataValue).bytes = some decoded ∧
          decoded.signedPortionBeginOffset = 2 ∧ decoded.signedPortionEndOffset = 78 :=
  ⟨codedDataValue_valid, by decide, by decide, by decide, by decide,
    (signedPortion_offsets_encode_eq_decode codedDataValue 100 100 codedDataValue_valid
      nonceOnlyCodec { name := [[0x6E, 0x64, 0x6E], [0x61, 0x62, 0x63]], fields := [1, 2, 3, 4] }
      (by decide) (by decide) (by decide)).1.imp
      fun _ h => ⟨h.1, by rw [h.2.1]; decide, by rw [h.2.2]; decide⟩⟩

/-- C9, counterexample. The Data of `codedData` encoded with the empty placeholder signature
and with its 128 signature bytes: in both encodings the SignatureValue block starts at offset
78, yet the byte at offset 1, the length field of the outer Data header, is 78 in the first
and 206 in the second, so the bytes before the SignatureValue block are not identical. -/
theorem ndn_encodeTlvData_header_differs :
    (ndn_encodeTlvData (codedDataValue.withSignatureBytes [])).signedPortionEndOffset = 78 ∧
      (ndn_encodeTlvData codedDataValue).signedPortionEndOffset = 78 ∧
      (ndn_encodeTlvData (codedDataValue.withSignatureBytes [])).bytes[1]? = some 78 ∧
      (ndn_encodeTlvData codedDataValue).bytes[1]? = some 206 ∧
      ¬ ((ndn_encodeTlvData (codedDataValue.withSignatureBytes [])).bytes.take
            (ndn_encodeTlvData (codedDataValue.withSignatureBytes [])).signedPortionEndOffset =
          (ndn_encodeTlvData codedDataValue).bytes.take
            (ndn_encodeTlvData codedDataValue).signedPortionEndOffset) := by
  decide

/-- C9, amended. For every Data object and all signature bytes, the encoding made with the
empty placeholder signature and the encoding made with the signature bytes inserted have the
same signed portion: the bytes from `signedPortionBeginOffset` to `signedPortionEndOffset`
(Name, MetaInfo, Content, SignatureInfo) are identical and equally many, and both encodings
start with the same type byte. (The length field of the outer header counts the
SignatureValue block and is not covered.) -/
theorem ndn_encodeTlvData_signedPortion_unchanged (data : Data) (signatureBytes : Blob) :
    ((ndn_encodeTlvData (data.withSignatureBytes [])).bytes.take
          (ndn_encodeTlvData (data.withSignatureBytes [])).signedPortionEndOffset).drop
          (ndn_encodeTlvData (data.withSignatureBytes [])).signedPortionBeginOffset =
        ((ndn_encodeTlvData (data.withSignatureBytes signatureBytes)).bytes.take
          (ndn_encodeTlvData (data.withSignatureBytes signatureBytes)).signedPortionEndOffset).drop
          (ndn_encodeTlvData (data.withSignatureBytes signatureBytes)).signedPortionBeginOffset ∧
      (ndn_encodeTlvData (data.withSignatureBytes [])).signedPortionEndOffset -
          (ndn_encodeTlvData (data.withSignatureBytes [])).signedPortionBeginOffset =
        (ndn_encodeTlvData (data.withSignatureBytes signatureBytes)).signedPortionEndOffset -
          (ndn_encodeTlvData (data.withSignatureBytes signatureBytes)).signedPortionBeginOffset ∧
      (ndn_encodeTlvData (data.withSignatureBytes [])).bytes.head? =
        (ndn_encodeTlvData (data.withSignatureBytes signatureBytes)).bytes.head? := by
  have hportion : ∀ bytes : Blob,
      encodeTlvDataSignedPortion (data.withSignatureBytes bytes) =
        encodeTlvDataSignedPortion data := by
    intro bytes
    rfl
  have hslice : ∀ d : Data,
      ((ndn_encodeTlvData d).bytes.take (ndn_encodeTlvData d).signedPortionEndOffset).drop
          (ndn_encodeTlvData d).signedPortionBeginOffset = encodeTlvDataSignedPortion d := by
    intro d
    simp only [ndn_encodeTlvData]
    rw [← List.append_assoc, List.take_left' (by simp), List.drop_left' rfl]
  have hsize : ∀ d : Data,
      (ndn_encodeTlvData d).signedPortionEndOffset -
          (ndn_encodeTlvData d).signedPortionBeginOffset =
        (encodeTlvDataSignedPortion d).length := by
    intro d
    simp [ndn_encodeTlvData]
  have hhead : ∀ d : Data, (ndn_encodeTlvData d).bytes.head? = some ndn_Tlv_Data := by
    intro d
    simp [ndn_encodeTlvData, TlvEncoder.writeTypeAndLength, TlvEncoder.writeVarNumber,
      ndn_Tlv_Data]
  refine ⟨?_, ?_, ?_⟩
  · rw [hslice, hslice, hportion, hportion]
  · rw [hsize, hsize, hportion, hportion]
  · rw [hhead, hhead]

/-- Example of the wrapper with the modelled decoder: on the first 100 bytes of `codedData`
the decoder reports an error, `decodeData` throws and the target keeps the value it had; on all
of `codedData` it returns normally and the target holds the decoded values. -/
theorem Tlv0_1WireFormat.decodeData_codedData :
    (Tlv0_1WireFormat.decodeData ndn_Data_initialized ndn_decodeTlvData_call
        (fun _ => "TLV decoding error") (fun _ decoded => decoded)
        ndn_Data_initialized (codedData.take 100) 0 0).thrown = some "TLV decoding error" ∧
      (Tlv0_1WireFormat.decodeData ndn_Data_initialized ndn_decodeTlvData_call
        (fun _ => "TLV decoding error") (fun _ decoded => decoded)
        ndn_Data_initialized (codedData.take 100) 0 0).target = ndn_Data_initialized ∧
      (Tlv0_1WireFormat.decodeData ndn_Data_initialized ndn_decodeTlvData_call
        (fun _ => "TLV decoding error") (fun _ decoded => decoded)
        ndn_Data_initialized codedData 0 0).thrown = none ∧
      (Tlv0_1WireFormat.decodeData ndn_Data_initialized ndn_decodeTlvData_call
        (fun _ => "TLV decoding error") (fun _ decoded => decoded)
        ndn_Data_initialized codedData 0 0).target = codedDataValue := by
  have e1 : (ndn_decodeTlvData_call ndn_Data_initialized 0 0 (codedData.take 100)).error = 1 := by
    decide
  have e2 : (ndn_decodeTlvData_call ndn_Data_initialized 0 0 codedData).error = 0 := by
    decide
  have e3 : (ndn_decodeTlvData_call ndn_Data_initialized 0 0 codedData).struct =
      codedDataValue := by
    decide
  simp [Tlv0_1WireFormat.decodeData, e1, e2, e3]

/-! ## The nonce after `setNonce`, the must-be-fresh flag and the constructors -/

namespace Interest

theorem step_read_fixed (s : Interest) (hc : Clean s)
    (hg : s.getNonceChangeCount_ = s.changeCount_) (op : Op) (h : IsRead op) :
    step op s = s := by
  cases op with
  | setter m => exact h.elim
  | child m => exact h.elim
  | getChangeCount =>
    show s.getChangeCount.2 = s
    rw [getChangeCount_of_clean s hc]
  | getNonce =>
    show s.getNonce.2 = s
    have e : s.getNonceChangeCount_ = s.getChangeCount.1 := by
      rw [getChangeCount_of_clean s hc]
      exact hg
    rw [getNonce_eq_of_eq s e, getChangeCount_of_clean s hc]

theorem run_reads_fixed (reads : List Op) (s : Interest) (hc : Clean s)
    (hg : s.getNonceChangeCount_ = s.changeCount_) (h : ∀ op ∈ reads, IsRead op) :
    run reads s = s := by
  induction reads with
  | nil => rfl
  | cons op ops ih =>
    show run ops (step op s) = s
    rw [step_read_fixed s hc hg op (h op (List.mem_cons_self _ _))]
    exact ih (fun o ho => h o (List.mem_cons_of_mem _ ho))

theorem setNonce_nonce (n : Blob) (s : Interest) : (setNonce n s).nonce_ = n := by
  unfold setNonce
  dsimp only
  rw [getChangeCount_nonce]

/-- C18: `getNonce()` called after `setNonce(n)` returns `n`, whatever the state before the
`setNonce` call was, in particular after mutations of the children that nobody has observed
yet, and it keeps returning `n` after any number of `getNonce()` and `getChangeCount()`
calls in between. -/
theorem getNonce_after_setNonce (s : Interest) (mutations : List ChildMutation) (n : Blob)
    (reads : List Op) (h : ∀ op ∈ reads, IsRead op) :
    (getNonce (run reads (setNonce n (run (mutations.map Op.child) s)))).1 = n := by
  have hc := setNonce_clean n (run (mutations.map Op.child) s)
  have hg := setNonce_recorded n (run (mutations.map Op.child) s)
  rw [run_reads_fixed reads _ hc hg h, ← getNonce_nonce]
  have e : (setNonce n (run (mutations.map Op.child) s)).getNonceChangeCount_ =
      (setNonce n (run (mutations.map Op.child) s)).getChangeCount.1 := by
    rw [getChangeCount_of_clean _ hc]
    exact hg
  rw [getNonce_eq_of_eq _ e, getChangeCount_of_clean _ hc]
  exact setNonce_nonce n _

theorem getNonce_after_setNonce_witness :
    (∀ op ∈ [Op.getNonce, Op.getChangeCount, Op.getNonce], IsRead op) ∧
    (getNonce (run [Op.getNonce, Op.getChangeCount, Op.getNonce]
      (setNonce [1, 2, 3, 4]
        (run ([ChildMutation.name [[97]], ChildMutation.exclude [none]].map Op.child)
          new)))).1 = [1, 2, 3, 4] :=
  ⟨by decide,
    getNonce_after_setNonce new [ChildMutation.name [[97]], ChildMutation.exclude [none]]
      [1, 2, 3, 4] [Op.getNonce, Op.getChangeCount, Op.getNonce] (by decide)⟩

theorem land_lnot_stale (n : Nat) :
    Int.land (Int.ofNat n) (Int.lnot ndn_Interest_ANSWER_STALE) = Int.ofNat (Nat.ldiff n 4) :=
  rfl

theorem lor_stale (n : Nat) :
    Int.lor (Int.ofNat n) ndn_Interest_ANSWER_STALE = Int.ofNat (n ||| 4) :=
  rfl

theorem land_stale (n : Nat) :
    Int.land (Int.ofNat n) ndn_Interest_ANSWER_STALE = Int.ofNat (n &&& 4) :=
  rfl

theorem ldiff_land_stale (n : Nat) : Nat.ldiff n 4 &&& 4 = 0 := by
  apply Nat.eq_of_testBit_eq
  intro i
  rw [Nat.testBit_land, Nat.testBit_ldiff, Nat.zero_testBit]
  cases Nat.testBit n i <;> cases Nat.testBit 4 i <;> rfl

theorem lor_land_stale (n : Nat) : (n ||| 4) &&& 4 = 4 := by
  apply Nat.eq_of_testBit_eq
  intro i
  rw [Nat.testBit_land, Nat.testBit_lor]
  cases Nat.testBit n i <;> cases Nat.testBit 4 i <;> rfl

/-- C19: `getMustBeFresh()` after `setMustBeFresh(b)` returns `b` in every state; when
`answerOriginKind` was not negative it stays so, the bit of `ndn_Interest_ANSWER_STALE`
becomes the negation of `b` and every other bit keeps its value. -/
theorem getMustBeFresh_setMustBeFresh (s : Interest) (b : Bool) :
    getMustBeFresh (setMustBeFresh b s) = b ∧
    (0 ≤ s.answerOriginKind_ →
      0 ≤ (setMustBeFresh b s).answerOriginKind_ ∧
      ∀ i : Nat,
        (Int.testBit ndn_Interest_ANSWER_STALE i = true →
          Int.testBit (setMustBeFresh b s).answerOriginKind_ i = !b) ∧
        (Int.testBit ndn_Interest_ANSWER_STALE i = false →
          Int.testBit (setMustBeFresh b s).answerOriginKind_ i =
            Int.testBit s.answerOriginKind_ i)) := by
  by_cases hneg : s.answerOriginKind_ < 0
  · refine ⟨?_, fun h => absurd h (by omega)⟩
    cases b with
    | true =>
      have e : setMustBeFresh true s = setAnswerOriginKind 0 s := by
        unfold setMustBeFresh
        simp [hneg]
      rw [e]
      rfl
    | false =>
      have e : setMustBeFresh false s = s := by
        unfold setMustBeFresh
        simp [hneg]
      rw [e]
      unfold getMustBeFresh
      have : ¬ s.answerOriginKind_ ≥ 0 := by omega
      simp [this]
  · obtain ⟨n, hn⟩ := Int.eq_ofNat_of_zero_le (not_lt.mp hneg)
    have hn2 : s.answerOriginKind_ = Int.ofNat n := hn
    cases b with
    | true =>
      have e : (setMustBeFresh true s).answerOriginKind_ = Int.ofNat (Nat.ldiff n 4) := by
        unfold setMustBeFresh
        simp only [hneg, if_false, if_true]
        rw [hn2]
        exact land_lnot_stale n
      refine ⟨?_, fun _ => ⟨?_, fun i => ⟨?_, ?_⟩⟩⟩
      · unfold getMustBeFresh
        rw [e, land_stale, ldiff_land_stale]
        rfl
      · rw [e]
        exact Int.ofNat_nonneg _
      · intro hi
        rw [e]
        have hi2 : Nat.testBit 4 i = true := hi
        show Nat.testBit (Nat.ldiff n 4) i = false
        rw [Nat.testBit_ldiff, hi2]
        simp
      · intro hi
        rw [e, hn2]
        have hi2 : Nat.testBit 4 i = false := hi
        show Nat.testBit (Nat.ldiff n 4) i = Nat.testBit n i
        rw [Nat.testBit_ldiff, hi2]
        simp
    | false =>
      have e : (setMustBeFresh false s).answerOriginKind_ = Int.ofNat (n ||| 4) := by
        unfold setMustBeFresh
        simp only [hneg, if_false]
        rw [hn2]
        exact lor_stale n
      refine ⟨?_, fun _ => ⟨?_, fun i => ⟨?_, ?_⟩⟩⟩
      · unfold getMustBeFresh
        rw [e, land_stale, lor_land_stale]
        have : Int.ofNat (n ||| 4) ≥ 0 := Int.ofNat_nonneg _
        simp [this]
      · rw [e]
        exact Int.ofNat_nonneg _
      · intro hi
        rw [e]
        have hi2 : Nat.testBit 4 i = true := hi
        show Nat.testBit (n ||| 4) i = true
        rw [Nat.testBit_lor, hi2]
        simp
      · intro hi
        rw [e, hn2]
        have hi2 : Nat.testBit 4 i = false := hi
        show Nat.testBit (n ||| 4) i = Nat.testBit n i
        rw [Nat.testBit_lor, hi2]
        simp

theorem getMustBeFresh_setMustBeFresh_witness :
    (0 : Int) ≤ (setAnswerOriginKind 7 new).answerOriginKind_ ∧
    getMustBeFresh (setMustBeFresh true (setAnswerOriginKind 7 new)) = true ∧
    Int.testBit (setMustBeFresh true (setAnswerOriginKind 7 new)).answerOriginKind_ 2 = false ∧
    Int.testBit (setMustBeFresh true (setAnswerOriginKind 7 new)).answerOriginKind_ 1 =
      Int.testBit (setAnswerOriginKind 7 new).answerOriginKind_ 1 :=
  ⟨by decide,
    (getMustBeFresh_setMustBeFresh (setAnswerOriginKind 7 new) true).1,
    (((getMustBeFresh_setMustBeFresh (setAnswerOriginKind 7 new) true).2 (by decide)).2 2).1
      (by decide),
    (((getMustBeFresh_setMustBeFresh (setAnswerOriginKind 7 new) true).2 (by decide)).2 1).2
      (by decide)⟩

/-- C20: the three constructors `Interest()`, `Interest(name)` and
`Interest(name, interestLifetimeMilliseconds)` give an Interest with the given name (the
empty name for `Interest()`), `-1` for `minSuffixComponents`, `maxSuffixComponents`,
`childSelector`, `answerOriginKind` and `scope`, the lifetime `-1` or the given one, an
empty `getNonce()` and a false `getMustBeFresh()`. -/
theorem constructors_defaults (name : Counted Name) (interestLifetimeMilliseconds : Int) :
    ConstructedWith new [] (-1) ∧
    ConstructedWith (ofName name) name.value (-1) ∧
    ConstructedWith (ofNameLifetime name interestLifetimeMilliseconds) name.value
      interestLifetimeMilliseconds := by
  have key : ∀ (nm : Counted Name) (l : Int),
      ConstructedWith (ofNameLifetime nm l) nm.value l := by
    intro nm l
    exact ⟨rfl, rfl, rfl, rfl, rfl, rfl, rfl, getNonce_of_nonce_nil _ rfl, rfl⟩
  exact ⟨key _ _, key _ _, key _ _⟩

end Interest

/-! ## Public keys and the verification of a signature -/

theorem PolicyManager.verifySha256WithRsaSignature_of_none {RSA : Type} (crypto : Crypto RSA)
    (signature : Signature) (signedBlob : SignedBlob) (publicKeyDer : Blob)
    (h : crypto.d2i_RSA_PUBKEY publicKeyDer = none) :
    (PolicyManager.verifySha256WithRsaSignature crypto signature signedBlob
        publicKeyDer).result =
      .error (.UnrecognizedKeyFormatException
        "Error decoding public key in d2i_RSAPublicKey") := by
  unfold PolicyManager.verifySha256WithRsaSignature
  simp only [h]

theorem PolicyManager.verifySha256WithRsaSignature_of_some {RSA : Type} (crypto : Crypto RSA)
    (signature : Signature) (signedBlob : SignedBlob) (publicKeyDer : Blob) (rsaPublicKey : RSA)
    (h : crypto.d2i_RSA_PUBKEY publicKeyDer = some rsaPublicKey) :
    (PolicyManager.verifySha256WithRsaSignature crypto signature signedBlob
        publicKeyDer).result =
      .ok (crypto.RSA_verify (crypto.ndn_digestSha256 signedBlob.signedPortion).val
        signature.signature rsaPublicKey == 1) := by
  unfold PolicyManager.verifySha256WithRsaSignature
  simp only [h]

theorem PolicyManager.verifySha256WithRsaSignature_unchanged {RSA : Type}
    (crypto : Crypto RSA) (signature : Signature) (signedBlob : SignedBlob)
    (publicKeyDer : Blob) :
    (PolicyManager.verifySha256WithRsaSignature crypto signature signedBlob
        publicKeyDer).signature = signature ∧
      (PolicyManager.verifySha256WithRsaSignature crypto signature signedBlob
        publicKeyDer).signedBlob = signedBlob := by
  unfold PolicyManager.verifySha256WithRsaSignature
  cases crypto.d2i_RSA_PUBKEY publicKeyDer <;> exact ⟨rfl, rfl⟩

/-- C17: `PublicKey::getDigest(a)` returns the digest that `ndn_digestSha256` computes of the
stored key DER, 32 bytes, when `a` is `DIGEST_ALGORITHM_SHA256`, and throws
`UnrecognizedDigestAlgorithmException` for every other `a`; `PublicKey::fromDer` throws
`UnrecognizedKeyFormatException` exactly when `d2i_RSA_PUBKEY` does not decode the DER, and
otherwise returns a key whose `getKeyDer()` is the input. -/
theorem PublicKey.getDigest_fromDer_spec {RSA : Type} (crypto : Crypto RSA)
    (DIGEST_ALGORITHM_SHA256 : Int) (key : PublicKey) (digestAlgorithm : Int)
    (adjacentMemory : Nat → Int) (keyDer : Blob) :
    (digestAlgorithm = DIGEST_ALGORITHM_SHA256 →
      key.getDigest crypto DIGEST_ALGORITHM_SHA256 digestAlgorithm =
          .ok (crypto.ndn_digestSha256 key.getKeyDer).val ∧
        (crypto.ndn_digestSha256 key.getKeyDer).val.length = 32) ∧
    (digestAlgorithm ≠ DIGEST_ALGORITHM_SHA256 →
      key.getDigest crypto DIGEST_ALGORITHM_SHA256 digestAlgorithm =
        .error (.UnrecognizedDigestAlgorithmException "Wrong format!")) ∧
    (crypto.d2i_RSA_PUBKEY keyDer = none ↔
      PublicKey.fromDer crypto adjacentMemory keyDer =
        .error (.UnrecognizedKeyFormatException "Error decoding public key DER")) ∧
    (crypto.d2i_RSA_PUBKEY keyDer ≠ none ↔
      ∃ decoded : PublicKey,
        PublicKey.fromDer crypto adjacentMemory keyDer = .ok decoded ∧
          decoded.getKeyDer = keyDer) := by
  refine ⟨fun h => ⟨?_, (crypto.ndn_digestSha256 key.getKeyDer).property⟩, fun h => ?_, ?_, ?_⟩
  · unfold PublicKey.getDigest PublicKey.getKeyDer
    rw [if_pos h]
  · unfold PublicKey.getDigest
    rw [if_neg h]
  · unfold PublicKey.fromDer
    cases crypto.d2i_RSA_PUBKEY keyDer <;> simp
  · unfold PublicKey.fromDer
    cases crypto.d2i_RSA_PUBKEY keyDer <;> simp [PublicKey.getKeyDer]

/-- Witness for C17: with the stand-in primitives, the RSA key of the test decodes and keeps
its DER, its digest has 32 bytes, and the EC key of the test does not decode. -/
theorem PublicKey.getDigest_fromDer_spec_witness :
    exampleCrypto.d2i_RSA_PUBKEY DEFAULT_RSA_PUBLIC_KEY_DER ≠ none ∧
    exampleCrypto.d2i_RSA_PUBKEY DEFAULT_EC_PUBLIC_KEY_DER = none ∧
    (∃ decoded : PublicKey,
      PublicKey.fromDer exampleCrypto (fun _ => 0) DEFAULT_RSA_PUBLIC_KEY_DER = .ok decoded ∧
        decoded.getKeyDer = DEFAULT_RSA_PUBLIC_KEY_DER) ∧
    PublicKey.fromDer exampleCrypto (fun _ => 0) DEFAULT_EC_PUBLIC_KEY_DER =
      .error (.UnrecognizedKeyFormatException "Error decoding public key DER") ∧
    ((PublicKey.mk ⟨RSA_OID⟩ DEFAULT_RSA_PUBLIC_KEY_DER).getDigest exampleCrypto 1 1 =
        .ok (exampleCrypto.ndn_digestSha256 DEFAULT_RSA_PUBLIC_KEY_DER).val ∧
      (exampleCrypto.ndn_digestSha256 DEFAULT_RSA_PUBLIC_KEY_DER).val.length = 32) ∧
    (PublicKey.mk ⟨RSA_OID⟩ DEFAULT_RSA_PUBLIC_KEY_DER).getDigest exampleCrypto 1 0 =
      .error (.UnrecognizedDigestAlgorithmException "Wrong format!") :=
  ⟨by decide, by decide,
    (PublicKey.getDigest_fromDer_spec exampleCrypto 1 ⟨⟨RSA_OID⟩, DEFAULT_RSA_PUBLIC_KEY_DER⟩ 1
      (fun _ => 0) DEFAULT_RSA_PUBLIC_KEY_DER).2.2.2.mp (by decide),
    (PublicKey.getDigest_fromDer_spec exampleCrypto 1 ⟨⟨RSA_OID⟩, DEFAULT_RSA_PUBLIC_KEY_DER⟩ 1
      (fun _ => 0) DEFAULT_EC_PUBLIC_KEY_DER).2.2.1.mp (by decide),
    (PublicKey.getDigest_fromDer_spec exampleCrypto 1 ⟨⟨RSA_OID⟩, DEFAULT_RSA_PUBLIC_KEY_DER⟩ 1
      (fun _ => 0) DEFAULT_RSA_PUBLIC_KEY_DER).1 rfl,
    (PublicKey.getDigest_fromDer_spec exampleCrypto 1 ⟨⟨RSA_OID⟩, DEFAULT_RSA_PUBLIC_KEY_DER⟩ 0
      (fun _ => 0) DEFAULT_RSA_PUBLIC_KEY_DER).2.1 (by decide)⟩

theorem ndn_encodeTlvData_signedPortion (data : Data) :
    (ndn_encodeTlvData data).signedPortion = encodeTlvDataSignedPortion data := by
  simp [TlvEncoding.signedPortion, ndn_encodeTlvData]

theorem KeyChain.sign_fields (keyStore : KeyStore) (certificateName : Name)
    (data : DataPacket) :
    (KeyChain.sign keyStore certificateName data).fields =
      (KeyChain.signaturePlaceholder certificateName data.fields).withSignatureBytes
        (keyStore.sign
          (ndn_encodeTlvData
            (KeyChain.signaturePlaceholder certificateName data.fields)).signedPortion
          certificateName) :=
  rfl

theorem KeyChain.sign_wireEncode (keyStore : KeyStore) (certificateName : Name)
    (data : DataPacket) :
    (KeyChain.sign keyStore certificateName data).wireEncode.1 =
      ndn_encodeTlvData (KeyChain.sign keyStore certificateName data).fields :=
  rfl

theorem Data.withSignatureBytes_signedPortion (data : Data) (bytes : Blob) :
    encodeTlvDataSignedPortion (data.withSignatureBytes bytes) =
      encodeTlvDataSignedPortion data :=
  rfl

theorem KeyChain.sign_signedPortion (keyStore : KeyStore) (certificateName : Name)
    (data : DataPacket) :
    (KeyChain.sign keyStore certificateName data).fields.signature.signature =
      keyStore.sign (KeyChain.sign keyStore certificateName data).wireEncode.1.signedPortion
        certificateName := by
  rw [KeyChain.sign_wireEncode, ndn_encodeTlvData_signedPortion, KeyChain.sign_fields,
    Data.withSignatureBytes_signedPortion, ← ndn_encodeTlvData_signedPortion]
  rfl

theorem KeyChain.sign_type (keyStore : KeyStore) (certificateName : Name)
    (data : DataPacket) :
    (KeyChain.sign keyStore certificateName data).fields.signature.type =
      ndn_Tlv_SignatureType_SignatureSha256WithRsa := by
  rw [KeyChain.sign_fields]
  rfl

theorem KeyChain.sign_keyLocator (keyStore : KeyStore) (certificateName : Name)
    (data : DataPacket) :
    (KeyChain.sign keyStore certificateName data).fields.signature.keyLocator =
      .keyName certificateName.dropLast := by
  rw [KeyChain.sign_fields]
  rfl

/-- C12: when the key store resolves the key locator of the certificate to a public key DER
that `d2i_RSA_PUBKEY` decodes, and `RSA_verify` returns 1 for the digest of any bytes and the
key store's signature of those bytes (the private key of the certificate and the public key
match), then `verifyData` on a Data signed by `KeyChain::sign` with that certificate calls
`onVerified` exactly once and `onVerifyFailed` never, and `verifySha256WithRsaSignature`
returns true for every signature that is the key store's signature of the signed portion of
the signed blob. -/
theorem KeyChain.verifyData_sign {RSA : Type} (crypto : Crypto RSA) (keyStore : KeyStore)
    (certificateName : Name) (publicKeyDer : Blob) (rsaPublicKey : RSA) (data : DataPacket)
    (hkey : keyStore.getPublicKey certificateName.dropLast = some publicKeyDer)
    (hder : crypto.d2i_RSA_PUBKEY publicKeyDer = some rsaPublicKey)
    (hmatch : ∀ bytes : List Nat,
      crypto.RSA_verify (crypto.ndn_digestSha256 bytes).val
        (keyStore.sign bytes certificateName) rsaPublicKey = 1) :
    KeyChain.verifyData crypto keyStore (KeyChain.sign keyStore certificateName data) =
        { onVerifiedCallCount := 1, onVerifyFailedCallCount := 0, thrown := none } ∧
      ∀ (signature : Signature) (signedBlob : SignedBlob),
        signature.signature = keyStore.sign signedBlob.signedPortion certificateName →
        (PolicyManager.verifySha256WithRsaSignature crypto signature signedBlob
          publicKeyDer).result = .ok true := by
  have hprim : ∀ (signature : Signature) (signedBlob : SignedBlob),
      signature.signature = keyStore.sign signedBlob.signedPortion certificateName →
      (PolicyManager.verifySha256WithRsaSignature crypto signature signedBlob
        publicKeyDer).result = .ok true := by
    intro signature signedBlob hs
    rw [PolicyManager.verifySha256WithRsaSignature_of_some crypto _ _ _ _ hder, hs, hmatch]
    rfl
  refine ⟨?_, hprim⟩
  have hverify := hprim (KeyChain.sign keyStore certificateName data).fields.signature
    (KeyChain.sign keyStore certificateName data).wireEncode.1
    (KeyChain.sign_signedPortion keyStore certificateName data)
  unfold KeyChain.verifyData
  simp only [KeyChain.sign_type, if_true, KeyChain.sign_keyLocator, hkey, hverify]

/-- Witness for C12: the test's Data signed under the certificate
`/testname/KEY/DSK-123/ID-CERT/0`, with the stand-in primitives and key store. -/
theorem KeyChain.verifyData_sign_witness :
    exampleKeyStore.getPublicKey defaultCertName.dropLast = some DEFAULT_RSA_PUBLIC_KEY_DER ∧
    exampleCrypto.d2i_RSA_PUBKEY DEFAULT_RSA_PUBLIC_KEY_DER =
      some DEFAULT_RSA_PUBLIC_KEY_DER ∧
    (∀ bytes : List Nat,
      exampleCrypto.RSA_verify (exampleCrypto.ndn_digestSha256 bytes).val
        (exampleKeyStore.sign bytes defaultCertName) DEFAULT_RSA_PUBLIC_KEY_DER = 1) ∧
    KeyChain.verifyData exampleCrypto exampleKeyStore
        (KeyChain.sign exampleKeyStore defaultCertName freshData) =
      { onVerifiedCallCount := 1, onVerifyFailedCallCount := 0, thrown := none } :=
  ⟨by decide, by decide, fun bytes => by simp [exampleCrypto, exampleKeyStore],
    (KeyChain.verifyData_sign exampleCrypto exampleKeyStore defaultCertName
      DEFAULT_RSA_PUBLIC_KEY_DER DEFAULT_RSA_PUBLIC_KEY_DER freshData (by decide) (by decide)
      (fun bytes => by simp [exampleCrypto, exampleKeyStore])).1⟩

/-- C13, counterexample. The signature and the wire encoding of the test's Data signed with
the RSA key, verified against the EC public key of the test, a public key other than the
signer's: `d2i_RSA_PUBKEY` does not decode it as an RSA key, and the call throws
`UnrecognizedKeyFormatException` instead of returning false; no primitives under which the
EC key does not decode make the call return false. -/
theorem PolicyManager.verifySha256WithRsaSignature_throws_for_other_key :
    DEFAULT_EC_PUBLIC_KEY_DER ≠ DEFAULT_RSA_PUBLIC_KEY_DER ∧
    exampleCrypto.d2i_RSA_PUBKEY DEFAULT_EC_PUBLIC_KEY_DER = none ∧
    (PolicyManager.verifySha256WithRsaSignature exampleCrypto
        (KeyChain.sign exampleKeyStore defaultCertName freshData).fields.signature
        (KeyChain.sign exampleKeyStore defaultCertName freshData).wireEncode.1
        DEFAULT_EC_PUBLIC_KEY_DER).result =
      .error (.UnrecognizedKeyFormatException
        "Error decoding public key in d2i_RSAPublicKey") ∧
    ¬ ∃ crypto : Crypto (List Nat),
      crypto.d2i_RSA_PUBKEY DEFAULT_EC_PUBLIC_KEY_DER = none ∧
        (PolicyManager.verifySha256WithRsaSignature crypto
          (KeyChain.sign exampleKeyStore defaultCertName freshData).fields.signature
          (KeyChain.sign exampleKeyStore defaultCertName freshData).wireEncode.1
          DEFAULT_EC_PUBLIC_KEY_DER).result = .ok false := by
  refine ⟨by decide, by decide, ?_, ?_⟩
  · exact PolicyManager.verifySha256WithRsaSignature_of_none _ _ _ _ (by decide)
  · rintro ⟨crypto, hnone, hres⟩
    rw [PolicyManager.verifySha256WithRsaSignature_of_none _ _ _ _ hnone] at hres
    cases hres

/-- C13, amended. For every signature, signed blob and public key DER: when `d2i_RSA_PUBKEY`
does not decode the DER, `verifySha256WithRsaSignature` throws
`UnrecognizedKeyFormatException`; when it decodes the DER, no error is raised and the result
is true exactly when `RSA_verify` returns 1, so that every other return value of
`RSA_verify`, 0 or negative, gives false. -/
theorem PolicyManager.verifySha256WithRsaSignature_result {RSA : Type} (crypto : Crypto RSA)
    (signature : Signature) (signedBlob : SignedBlob) (publicKeyDer : Blob) :
    (crypto.d2i_RSA_PUBKEY publicKeyDer = none ↔
      (PolicyManager.verifySha256WithRsaSignature crypto signature signedBlob
          publicKeyDer).result =
        .error (.UnrecognizedKeyFormatException
          "Error decoding public key in d2i_RSAPublicKey")) ∧
    ((∃ rsaPublicKey : RSA, crypto.d2i_RSA_PUBKEY publicKeyDer = some rsaPublicKey ∧
        crypto.RSA_verify (crypto.ndn_digestSha256 signedBlob.signedPortion).val
          signature.signature rsaPublicKey = 1) ↔
      (PolicyManager.verifySha256WithRsaSignature crypto signature signedBlob
        publicKeyDer).result = .ok true) ∧
    ((∃ rsaPublicKey : RSA, crypto.d2i_RSA_PUBKEY publicKeyDer = some rsaPublicKey ∧
        crypto.RSA_verify (crypto.ndn_digestSha256 signedBlob.signedPortion).val
          signature.signature rsaPublicKey ≠ 1) ↔
      (PolicyManager.verifySha256WithRsaSignature crypto signature signedBlob
        publicKeyDer).result = .ok false) := by
  cases h : crypto.d2i_RSA_PUBKEY publicKeyDer with
  | none =>
    rw [PolicyManager.verifySha256WithRsaSignature_of_none _ _ _ _ h]
    simp
  | some rsaPublicKey =>
    rw [PolicyManager.verifySha256WithRsaSignature_of_some _ _ _ _ _ h]
    simp

/-- Witness for C13, amended: with the stand-in primitives, the signature of the test's Data
verified against the RSA key of the test with its first byte after the algorithm changed: the
key decodes, `RSA_verify` does not return 1, and the call returns false. -/
theorem PolicyManager.verifySha256WithRsaSignature_result_witness :
    (∃ rsaPublicKey : List Nat,
      exampleCrypto.d2i_RSA_PUBKEY (DEFAULT_RSA_PUBLIC_KEY_DER.set 19 4) = some rsaPublicKey ∧
        exampleCrypto.RSA_verify
          (exampleCrypto.ndn_digestSha256
            (KeyChain.sign exampleKeyStore defaultCertName
              freshData).wireEncode.1.signedPortion).val
          (KeyChain.sign exampleKeyStore defaultCertName freshData).fields.signature.signature
          rsaPublicKey ≠ 1) ∧
    (PolicyManager.verifySha256WithRsaSignature exampleCrypto
      (KeyChain.sign exampleKeyStore defaultCertName freshData).fields.signature
      (KeyChain.sign exampleKeyStore defaultCertName freshData).wireEncode.1
      (DEFAULT_RSA_PUBLIC_KEY_DER.set 19 4)).result = .ok false :=
  ⟨⟨DEFAULT_RSA_PUBLIC_KEY_DER.set 19 4, by decide, by decide⟩,
    (PolicyManager.verifySha256WithRsaSignature_result exampleCrypto
      (KeyChain.sign exampleKeyStore defaultCertName freshData).fields.signature
      (KeyChain.sign exampleKeyStore defaultCertName freshData).wireEncode.1
      (DEFAULT_RSA_PUBLIC_KEY_DER.set 19 4)).2.2.mp
      ⟨DEFAULT_RSA_PUBLIC_KEY_DER.set 19 4, by decide, by decide⟩⟩

/-- C14: two calls of `verifySha256WithRsaSignature` with the same public key DER, with
signatures that have the same signature bytes and with signed blobs that have the same signed
portion return or throw the same, whatever the other bytes of the blobs, their offsets and
the other fields of the signatures are; and after a call the signature and the signed blob
are what they were. -/
theorem PolicyManager.verifySha256WithRsaSignature_pure {RSA : Type} (crypto : Crypto RSA)
    (signature1 signature2 : Signature) (signedBlob1 signedBlob2 : SignedBlob)
    (publicKeyDer : Blob)
    (hsignature : signature1.signature = signature2.signature)
    (hportion : signedBlob1.signedPortion = signedBlob2.signedPortion) :
    (PolicyManager.verifySha256WithRsaSignature crypto signature1 signedBlob1
        publicKeyDer).result =
      (PolicyManager.verifySha256WithRsaSignature crypto signature2 signedBlob2
        publicKeyDer).result ∧
    (PolicyManager.verifySha256WithRsaSignature crypto signature1 signedBlob1
        publicKeyDer).signature = signature1 ∧
    (PolicyManager.verifySha256WithRsaSignature crypto signature1 signedBlob1
        publicKeyDer).signedBlob = signedBlob1 := by
  refine ⟨?_, PolicyManager.verifySha256WithRsaSignature_unchanged crypto _ _ _⟩
  cases h : crypto.d2i_RSA_PUBKEY publicKeyDer with
  | none =>
    rw [PolicyManager.verifySha256WithRsaSignature_of_none _ _ _ _ h,
      PolicyManager.verifySha256WithRsaSignature_of_none _ _ _ _ h]
  | some rsaPublicKey =>
    rw [PolicyManager.verifySha256WithRsaSignature_of_some _ _ _ _ _ h,
      PolicyManager.verifySha256WithRsaSignature_of_some _ _ _ _ _ h, hsignature, hportion]

/-- Witness for C14: the encoding of `codedData` and a buffer that agrees with it only on the
signed portion, bytes 2 to 78, with the signature bytes of `codedData` in signatures of
different type and key locator. -/
theorem PolicyManager.verifySha256WithRsaSignature_pure_witness :
    codedDataValue.signature.signature =
      ({ type := 3, keyLocator := .none,
         signature := codedDataValue.signature.signature } : Signature).signature ∧
    (ndn_encodeTlvData codedDataValue).signedPortion =
      ({ bytes := 0 :: (codedData.take 78).drop 2 ++ [9, 9, 9]
         signedPortionBeginOffset := 1
         signedPortionEndOffset := 77 } : SignedBlob).signedPortion ∧
    (ndn_encodeTlvData codedDataValue).bytes ≠ 0 :: (codedData.take 78).drop 2 ++ [9, 9, 9] ∧
    (PolicyManager.verifySha256WithRsaSignature exampleCrypto codedDataValue.signature
        (ndn_encodeTlvData codedDataValue) DEFAULT_RSA_PUBLIC_KEY_DER).result =
      (PolicyManager.verifySha256WithRsaSignature exampleCrypto
        { type := 3, keyLocator := .none, signature := codedDataValue.signature.signature }
        { bytes := 0 :: (codedData.take 78).drop 2 ++ [9, 9, 9]
          signedPortionBeginOffset := 1
          signedPortionEndOffset := 77 } DEFAULT_RSA_PUBLIC_KEY_DER).result :=
  ⟨rfl, by decide, by decide,
    (PolicyManager.verifySha256WithRsaSignature_pure exampleCrypto codedDataValue.signature
      { type := 3, keyLocator := .none, signature := codedDataValue.signature.signature }
      (ndn_encodeTlvData codedDataValue)
      { bytes := 0 :: (codedData.take 78).drop 2 ++ [9, 9, 9]
        signedPortionBeginOffset := 1
        signedPortionEndOffset := 77 } DEFAULT_RSA_PUBLIC_KEY_DER rfl (by decide)).1⟩

/-! ## Truncated packets -/

theorem TlvDecoder.readVarNumber_split (input : List Nat) (n : Nat) (rest : List Nat)
    (h : TlvDecoder.readVarNumber input = some (n, rest)) :
    ∃ head : List Nat, input = head ++ rest ∧
      (∀ tail : List Nat, TlvDecoder.readVarNumber (head ++ tail) = some (n, tail)) ∧
      ∀ k : Nat, k < head.length → TlvDecoder.readVarNumber (head.take k) = none := by
  cases input with
  | nil => simp [TlvDecoder.readVarNumber] at h
  | cons firstOctet rest0 =>
    by_cases hf : firstOctet < 253
    · simp only [TlvDecoder.readVarNumber, if_pos hf, Option.some.injEq, Prod.mk.injEq] at h
      obtain ⟨h1, h2⟩ := h
      subst h1 h2
      refine ⟨[firstOctet], rfl, fun tail => ?_, fun k hk => ?_⟩
      · simp [TlvDecoder.readVarNumber, hf]
      · have hk0 : k = 0 := by simpa using hk
        subst hk0
        rfl
    · obtain ⟨width, hw⟩ : ∃ width : Nat,
          (if firstOctet = 253 then 2 else if firstOctet = 254 then 4 else 8) = width :=
        ⟨_, rfl⟩
      simp only [TlvDecoder.readVarNumber, if_neg hf, hw] at h
      by_cases hle : width ≤ rest0.length
      · rw [if_pos hle] at h
        simp only [Option.some.injEq, Prod.mk.injEq] at h
        obtain ⟨h1, h2⟩ := h
        have hlen : (rest0.take width).length = width := by
          rw [List.length_take]
          omega
        refine ⟨firstOctet :: rest0.take width, ?_, fun tail => ?_, fun k hk => ?_⟩
        · rw [← h2, List.cons_append, List.take_append_drop]
        · simp only [List.cons_append, TlvDecoder.readVarNumber, if_neg hf, hw]
          rw [if_pos (by rw [List.length_append, hlen]; omega), List.take_left' hlen,
            List.drop_left' hlen, h1]
        · cases k with
          | zero => rfl
          | succ j =>
            have hj : j < width := by
              simp only [List.length_cons, hlen] at hk
              omega
            simp only [List.take_succ_cons, TlvDecoder.readVarNumber, if_neg hf, hw]
            rw [if_neg]
            rw [List.length_take, List.length_take]
            omega
      · rw [if_neg hle] at h
        cases h

theorem TlvDecoder.readVarNumber_take (input : List Nat) (n : Nat) (rest : List Nat)
    (h : TlvDecoder.readVarNumber input = some (n, rest)) (k : Nat) :
    TlvDecoder.readVarNumber (input.take k) = none ∨
      TlvDecoder.readVarNumber (input.take k) =
          some (n, rest.take (k - (input.length - rest.length))) ∧
        input.length - rest.length ≤ k := by
  obtain ⟨head, hsplit, hread, hshort⟩ := TlvDecoder.readVarNumber_split input n rest h
  subst hsplit
  have hcons : (head ++ rest).length - rest.length = head.length := by
    rw [List.length_append]
    omega
  rw [hcons]
  by_cases hk : k < head.length
  · left
    rw [List.take_append_of_le_length (by omega)]
    exact hshort k hk
  · right
    refine ⟨?_, by omega⟩
    rw [List.take_append_eq_append_take, List.take_of_length_le (by omega)]
    exact hread _

theorem TlvDecoder.readVarNumber_length (input : List Nat) (n : Nat) (rest : List Nat)
    (h : TlvDecoder.readVarNumber input = some (n, rest)) :
    rest.length < input.length := by
  obtain ⟨head, hsplit, hread, hshort⟩ := TlvDecoder.readVarNumber_split input n rest h
  subst hsplit
  have hpos : 0 < head.length := by
    cases head with
    | nil =>
      have := hread []
      simp [TlvDecoder.readVarNumber] at this
    | cons a l => simp
  rw [List.length_append]
  omega

theorem TlvDecoder.readTypeAndLength_take (expectedType : Nat) (input : List Nat)
    (length : Nat) (afterLength : List Nat)
    (h : TlvDecoder.readTypeAndLength expectedType input = some (length, afterLength))
    (hspan : afterLength.length = length) (k : Nat) (hk : k < input.length) :
    TlvDecoder.readTypeAndLength expectedType (input.take k) = none := by
  unfold TlvDecoder.readTypeAndLength at h ⊢
  cases h1 : TlvDecoder.readVarNumber input with
  | none => simp [h1] at h
  | some r1 =>
    obtain ⟨type, afterType⟩ := r1
    simp only [h1] at h
    by_cases ht : type = expectedType
    · rw [if_pos ht] at h
      cases h2 : TlvDecoder.readVarNumber afterType with
      | none => simp [h2] at h
      | some r2 =>
        obtain ⟨length2, afterLength2⟩ := r2
        simp only [h2] at h
        by_cases hl : length2 ≤ afterLength2.length
        · rw [if_pos hl] at h
          simp only [Option.some.injEq, Prod.mk.injEq] at h
          obtain ⟨e1, e2⟩ := h
          subst e1 e2
          have hlen1 := TlvDecoder.readVarNumber_length _ _ _ h1
          have hlen2 := TlvDecoder.readVarNumber_length _ _ _ h2
          rcases TlvDecoder.readVarNumber_take input type afterType h1 k with hn | ⟨hs, hge⟩
          · simp [hn]
          · simp only [hs, if_pos ht]
            rcases TlvDecoder.readVarNumber_take afterType length2 afterLength2 h2
              (k - (input.length - afterType.length)) with hn2 | ⟨hs2, hge2⟩
            · simp [hn2]
            · simp only [hs2]
              rw [if_neg]
              rw [List.length_take]
              omega
        · rw [if_neg hl] at h
          cases h
    · rw [if_neg ht] at h
      cases h

theorem TlvDecoder.readNestedTlvStart_writeNestedTlv_take (type : Nat) (inner : List Nat)
    (ht : type < 2 ^ 64) (hl : (TlvEncoder.writeNestedTlv type inner).length < 2 ^ 64)
    (k : Nat) (hk : k < (TlvEncoder.writeNestedTlv type inner).length) :
    TlvDecoder.readNestedTlvStart type ((TlvEncoder.writeNestedTlv type inner).take k) =
      none := by
  have hinner : inner.length < 2 ^ 64 := by
    have := TlvEncoder.writeNestedTlv_length_ge type inner
    omega
  have h := TlvDecoder.readTypeAndLength_write type inner.length inner ht hinner (le_refl _)
  have hnone := TlvDecoder.readTypeAndLength_take type _ _ _ h rfl k hk
  unfold TlvDecoder.readNestedTlvStart TlvDecoder.readBlobTlv
  unfold TlvEncoder.writeNestedTlv
  rw [hnone]

theorem ndn_decodeTlvData_take (data : Data) (maxNameComponents maxKeyNameComponents : Nat)
    (hlen : (ndn_encodeTlvData data).bytes.length < 2 ^ 64)
    (k : Nat) (hk : k < (ndn_encodeTlvData data).bytes.length) :
    ndn_decodeTlvData maxNameComponents maxKeyNameComponents
      ((ndn_encodeTlvData data).bytes.take k) = none := by
  rw [ndn_encodeTlvData_bytes] at hlen hk ⊢
  unfold ndn_decodeTlvData
  rw [TlvDecoder.readNestedTlvStart_writeNestedTlv_take _ _
    (by norm_num [ndn_Tlv_Data]) hlen k hk]

theorem ndn_encodeTlvInterest_bytes {φ : Type} (codec : InterestFieldsCodec φ)
    (interest : TlvInterest φ) :
    (ndn_encodeTlvInterest codec interest).bytes =
      TlvEncoder.writeNestedTlv ndn_Tlv_Interest
        (ndn_encodeTlvName interest.name ++ codec.encode interest.fields) :=
  rfl

theorem ndn_decodeTlvInterest_take {φ : Type} (codec : InterestFieldsCodec φ)
    (interest : TlvInterest φ) (maxNameComponents : Nat)
    (hlen : (ndn_encodeTlvInterest codec interest).bytes.length < 2 ^ 64)
    (k : Nat) (hk : k < (ndn_encodeTlvInterest codec interest).bytes.length) :
    ndn_decodeTlvInterest codec maxNameComponents
      ((ndn_encodeTlvInterest codec interest).bytes.take k) = none := by
  rw [ndn_encodeTlvInterest_bytes] at hlen hk ⊢
  unfold ndn_decodeTlvInterest
  rw [TlvDecoder.readNestedTlvStart_writeNestedTlv_take _ _
    (by norm_num [ndn_Tlv_Interest]) hlen k hk]

/-- C11: for every Data object and every Interest whose encoding is shorter than `2 ^ 64`
bytes, and every `k` below the length of the encoding, the first `k` bytes of the encoding
do not decode: `ndn_decodeTlvData` and `ndn_decodeTlvInterest` fail for every capacity of the
component arrays, and `Tlv0_1WireFormat::decodeData` and `Tlv0_1WireFormat::decodeInterest`
throw and leave the object they were to fill as it was. -/
theorem Tlv0_1WireFormat.decode_truncated_throws {φ τ υ : Type} (data : Data)
    (codec : InterestFieldsCodec φ) (interest : TlvInterest φ)
    (hData : (ndn_encodeTlvData data).bytes.length < 2 ^ 64)
    (hInterest : (ndn_encodeTlvInterest codec interest).bytes.length < 2 ^ 64)
    (ndn_getErrorString : Nat → String) (setData : τ → Data → τ)
    (setInterest : υ → TlvInterest φ → υ) (dataTarget : τ) (interestTarget : υ)
    (interestStruct : TlvInterest φ) (signedPortionBeginOffset signedPortionEndOffset : Nat)
    (k : Nat) :
    (k < (ndn_encodeTlvData data).bytes.length →
      (∀ maxNameComponents maxKeyNameComponents : Nat,
        ndn_decodeTlvData maxNameComponents maxKeyNameComponents
          ((ndn_encodeTlvData data).bytes.take k) = none) ∧
      (Tlv0_1WireFormat.decodeData ndn_Data_initialized ndn_decodeTlvData_call
          ndn_getErrorString setData dataTarget ((ndn_encodeTlvData data).bytes.take k)
          signedPortionBeginOffset signedPortionEndOffset).thrown =
        some (ndn_getErrorString 1) ∧
      (Tlv0_1WireFormat.decodeData ndn_Data_initialized ndn_decodeTlvData_call
          ndn_getErrorString setData dataTarget ((ndn_encodeTlvData data).bytes.take k)
          signedPortionBeginOffset signedPortionEndOffset).target = dataTarget) ∧
    (k < (ndn_encodeTlvInterest codec interest).bytes.length →
      (∀ maxNameComponents : Nat,
        ndn_decodeTlvInterest codec maxNameComponents
          ((ndn_encodeTlvInterest codec interest).bytes.take k) = none) ∧
      (Tlv0_1WireFormat.decodeInterest interestStruct (ndn_decodeTlvInterest_call codec)
          ndn_getErrorString setInterest interestTarget
          ((ndn_encodeTlvInterest codec interest).bytes.take k)
          signedPortionBeginOffset signedPortionEndOffset).thrown =
        some (ndn_getErrorString 1) ∧
      (Tlv0_1WireFormat.decodeInterest interestStruct (ndn_decodeTlvInterest_call codec)
          ndn_getErrorString setInterest interestTarget
          ((ndn_encodeTlvInterest codec interest).bytes.take k)
          signedPortionBeginOffset signedPortionEndOffset).target = interestTarget) := by
  constructor
  · intro hk
    have hnone := fun maxN maxK => ndn_decodeTlvData_take data maxN maxK hData k hk
    refine ⟨hnone, ?_, ?_⟩ <;>
      simp [Tlv0_1WireFormat.decodeData, ndn_decodeTlvData_call, hnone 100 100]
  · intro hk
    have hnone := fun maxN => ndn_decodeTlvInterest_take codec interest maxN hInterest k hk
    refine ⟨hnone, ?_, ?_⟩ <;>
      simp [Tlv0_1WireFormat.decodeInterest, ndn_decodeTlvInterest_call, hnone 100]

/-- Witness for C11: the encoding of the Data of `codedData`, 208 bytes, cut after 207 bytes,
and the encoding of the Interest `/ndn/abc` with nonce `01 02 03 04`, 20 bytes, cut after 19
bytes. -/
theorem Tlv0_1WireFormat.decode_truncated_throws_witness :
    (ndn_encodeTlvData codedDataValue).bytes.length = 208 ∧
    (ndn_encodeTlvInterest nonceOnlyCodec
      { name := [[0x6E, 0x64, 0x6E], [0x61, 0x62, 0x63]], fields := [1, 2, 3, 4] }).bytes.length
      = 20 ∧
    ndn_decodeTlvData 100 100 ((ndn_encodeTlvData codedDataValue).bytes.take 207) = none ∧
    ndn_decodeTlvInterest nonceOnlyCodec 100
      ((ndn_encodeTlvInterest nonceOnlyCodec
        { name := [[0x6E, 0x64, 0x6E], [0x61, 0x62, 0x63]],
          fields := [1, 2, 3, 4] }).bytes.take 19) = none :=
  ⟨by decide, by decide,
    ((Tlv0_1WireFormat.decode_truncated_throws codedDataValue nonceOnlyCodec
      { name := [[0x6E, 0x64, 0x6E], [0x61, 0x62, 0x63]], fields := [1, 2, 3, 4] }
      (by decide) (by decide) (fun _ => "error") (fun (_ : Data) decoded => decoded)
      (fun (_ : TlvInterest Blob) decoded => decoded) ndn_Data_initialized
      { name := [], fields := [] } { name := [], fields := [] } 0 0 207).1 (by decide)).1 100 100,
    ((Tlv0_1WireFormat.decode_truncated_throws codedDataValue nonceOnlyCodec
      { name := [[0x6E, 0x64, 0x6E], [0x61, 0x62, 0x63]], fields := [1, 2, 3, 4] }
      (by decide) (by decide) (fun _ => "error") (fun (_ : Data) decoded => decoded)
      (fun (_ : TlvInterest Blob) decoded => decoded) ndn_Data_initialized
      { name := [], fields := [] } { name := [], fields := [] } 0 0 19).2 (by decide)).1 100⟩

/-! ## The class of a decoded signature -/

/-- C15, the code at the failing input: whatever the C decoders do,
`Tlv0_1WireFormat::decodeSignatureInfoAndValue` returns a `Sha256WithRsaSignature` whenever it
returns, never a `GenericSignature` or another class; and for the test's
`experimentalSignatureInfo` with type code 100 and the SignatureValue `17 04 01 02 03 04` the
call with the modelled decoders throws. -/
theorem Tlv0_1WireFormat.decodeSignatureInfoAndValue_always_rsa (initialized : Signature)
    (ndn_decodeTlvSignatureInfo : Signature → List Nat → Nat × Signature)
    (ndn_TlvDecoder_readBlobTlv : Nat → List Nat → Nat × Blob)
    (ndn_getErrorString : Nat → String) (signatureInfo signatureValue : List Nat) :
    (∀ result : SignatureObject,
      Tlv0_1WireFormat.decodeSignatureInfoAndValue initialized ndn_decodeTlvSignatureInfo
          ndn_TlvDecoder_readBlobTlv ndn_getErrorString signatureInfo signatureValue =
        .ok result →
      result.variant = .Sha256WithRsaSignature ∧ result.variant ≠ .GenericSignature) ∧
    Tlv0_1WireFormat.decodeSignatureInfoAndValue ndn_Data_initialized.signature
        ndn_decodeTlvSignatureInfo_call ndn_TlvDecoder_readBlobTlv_call ndn_getErrorString
        experimentalSignatureInfo [0x17, 0x04, 1, 2, 3, 4] =
      .error (ndn_getErrorString 1) := by
  constructor
  · intro result h
    unfold Tlv0_1WireFormat.decodeSignatureInfoAndValue at h
    dsimp only at h
    split at h
    · cases h
    · split at h
      · cases h
      · cases h
        exact ⟨rfl, fun hv => by cases hv⟩
  · have e : ndn_decodeTlvSignatureInfo_call ndn_Data_initialized.signature
        experimentalSignatureInfo = (1, ndn_Data_initialized.signature) := by decide
    unfold Tlv0_1WireFormat.decodeSignatureInfoAndValue
    simp [e]

/-! ## The full name of a Data packet -/

theorem DataPacket.wireDecode_some (input : List Nat) (data : DataPacket)
    (h : DataPacket.wireDecode input = some data) :
    (∃ encoding : SignedBlob,
      data.defaultWireEncoding_ = some encoding ∧ encoding.bytes = input) ∧
      data.defaultFullName_ = none := by
  unfold DataPacket.wireDecode at h
  cases hd : ndn_decodeTlvData 100 100 input with
  | none => simp [hd] at h
  | some decoded =>
    simp only [hd, Option.some.injEq] at h
    subst h
    exact ⟨⟨_, rfl, rfl⟩, rfl⟩

theorem DataPacket.getFullName_of_encoded (digestSha256 : List Nat → Sha256Digest)
    (data : DataPacket) (encoding : SignedBlob)
    (he : data.defaultWireEncoding_ = some encoding) (hn : data.defaultFullName_ = none) :
    data.getFullName digestSha256 =
      (data.getName ++ [(digestSha256 encoding.bytes).val],
        { data with
          defaultFullName_ := some (data.getName ++ [(digestSha256 encoding.bytes).val]) }) := by
  unfold DataPacket.getFullName DataPacket.wireEncode DataPacket.getName
  simp [he, hn]

theorem DataPacket.getFullName_of_cached (digestSha256 : List Nat → Sha256Digest)
    (data : DataPacket) (encoding : SignedBlob) (fullName : Name)
    (he : data.defaultWireEncoding_ = some encoding)
    (hn : data.defaultFullName_ = some fullName) :
    data.getFullName digestSha256 = (fullName, data) := by
  unfold DataPacket.getFullName
  simp [he, hn]

theorem DataPacket.getFullName_of_mutated (digestSha256 : List Nat → Sha256Digest)
    (data : DataPacket) (he : data.defaultWireEncoding_ = none) :
    (data.getFullName digestSha256).1 =
      data.getName ++ [(digestSha256 (ndn_encodeTlvData data.fields).bytes).val] := by
  unfold DataPacket.getFullName DataPacket.wireEncode DataPacket.getName
  simp [he]

theorem DataPacket.mutate_encoding (data : DataPacket) (mutation : DataPacket.Mutation) :
    (data.mutate mutation).defaultWireEncoding_ = none := by
  cases mutation <;> rfl

theorem DataPacket.wireDecode_codedData :
    DataPacket.wireDecode codedData =
      some { fields := codedDataValue
             defaultWireEncoding_ := some
               { bytes := codedData
                 signedPortionBeginOffset := 2
                 signedPortionEndOffset := 78 }
             defaultFullName_ := none } := by
  have h : ndn_decodeTlvData 100 100 codedData =
      some { value := codedDataValue, signedPortionBeginOffset := 2,
             signedPortionEndOffset := 78 } := by decide
  unfold DataPacket.wireDecode
  rw [h]

theorem DataPacket.wireDecode_codedData_block :
    DataPacket.wireDecode (codedData.take 208) =
      some { fields := codedDataValue
             defaultWireEncoding_ := some
               { bytes := codedData.take 208
                 signedPortionBeginOffset := 2
                 signedPortionEndOffset := 78 }
             defaultFullName_ := none } := by
  have h : ndn_decodeTlvData 100 100 (codedData.take 208) =
      some { value := codedDataValue, signedPortionBeginOffset := 2,
             signedPortionEndOffset := 78 } := by decide
  unfold DataPacket.wireDecode
  rw [h]

theorem DataPacket.getFullName_fields (digestSha256 : List Nat → Sha256Digest)
    (data : DataPacket) : (data.getFullName digestSha256).2.fields = data.fields := by
  unfold DataPacket.getFullName DataPacket.wireEncode
  cases data.defaultWireEncoding_ <;> cases data.defaultFullName_ <;> rfl

theorem DataPacket.mutate_setContent_same (data : DataPacket) (content : Blob)
    (h : content = data.fields.content) :
    (data.mutate (.setContent content)).fields = data.fields := by
  subst h
  rfl

theorem DataPacket.wireDecode_fields (input : List Nat) (data : DataPacket)
    (h : DataPacket.wireDecode input = some data) :
    ∃ decoded : TlvDecoding Data,
      ndn_decodeTlvData 100 100 input = some decoded ∧ decoded.value = data.fields := by
  unfold DataPacket.wireDecode at h
  cases hd : ndn_decodeTlvData 100 100 input with
  | none => simp [hd] at h
  | some decoded =>
    simp only [hd, Option.some.injEq] at h
    subst h
    exact ⟨_, rfl, rfl⟩

theorem DataPacket.mutate_fields_congr (first second : DataPacket)
    (mutation : DataPacket.Mutation) (h : first.fields = second.fields) :
    (first.mutate mutation).fields = (second.mutate mutation).fields := by
  cases mutation <;> simp only [DataPacket.mutate, h]

/-- The encoding of a Data object that can be encoded and differs from the Data decoded from
an input buffer is not that input buffer: the decoder would give it back. -/
theorem DataPacket.encoding_ne_input (input : List Nat) (data : DataPacket) (changed : Data)
    (h : DataPacket.wireDecode input = some data)
    (hchange : changed ≠ data.fields) (hvalid : changed.Valid 100 100) :
    (ndn_encodeTlvData changed).bytes ≠ input := by
  intro heq
  obtain ⟨decoded, hd, hvalue⟩ := DataPacket.wireDecode_fields input data h
  have hround := ndn_decodeTlvData_encode changed 100 100 [] hvalid
  rw [List.append_nil, heq, hd, Option.some.injEq] at hround
  apply hchange
  rw [← hvalue, hround]

/-- A call of `setContent` with the content the Data already has changes no field of the
Data. For the Data decoded from the 208 bytes of the Data block of `codedData` the Data is
then encoded again to the same 208 bytes, so for every digest function the last component of
`getFullName()` is the one it was before. This is why the property of the full name after a
mutation is stated for a mutator call that changes a field. -/
theorem DataPacket.getFullName_after_same_content :
    (DataPacket.wireDecode (codedData.take 208)).map (fun data => data.fields) =
      some codedDataValue ∧
    ∀ (digestSha256 : List Nat → Sha256Digest) (data : DataPacket),
      DataPacket.wireDecode (codedData.take 208) = some data →
        (((data.getFullName digestSha256).2.mutate
            (.setContent data.fields.content)).getFullName digestSha256).1.getLast? =
          (data.getFullName digestSha256).1.getLast? := by
  have hd := DataPacket.wireDecode_codedData_block
  refine ⟨by rw [hd]; rfl, ?_⟩
  intro digestSha256 data h
  obtain ⟨⟨encoding, he, hbytes⟩, hn⟩ := DataPacket.wireDecode_some _ data h
  have hf : data.fields = codedDataValue := by
    rw [hd, Option.some.injEq] at h
    rw [← h]
  have hb : (ndn_encodeTlvData codedDataValue).bytes = codedData.take 208 := by decide
  have hm : ((data.getFullName digestSha256).2.mutate
      (.setContent data.fields.content)).fields = codedDataValue := by
    rw [DataPacket.mutate_setContent_same _ _
      (by rw [DataPacket.getFullName_fields]), DataPacket.getFullName_fields, hf]
  rw [DataPacket.getFullName_of_mutated _ _ (DataPacket.mutate_encoding _ _)]
  unfold DataPacket.getName
  rw [hm, hb, DataPacket.getFullName_of_encoded digestSha256 data encoding he hn, hbytes]
  unfold DataPacket.getName
  rw [hf]

/-- C16. For every Data decoded from an input buffer and every digest function standing for
SHA-256: `getFullName()` has exactly one more component than `getName()`, its prefix without
the last component is `getName()`, and its last component is the digest of the whole input
buffer, 32 bytes; a second call returns the cached full name. After a mutation, that is a
call of a mutator with a value that is not the one the Data has, leaving a Data `changed`
(the new value in that field, the old values in the others) that can be encoded, the Data
is `changed` and `getFullName()` is computed again: it is the name of `changed` followed by
the digest of the encoding of `changed`; that encoding is not the input buffer, so, SHA-256
not colliding on the two, the last component differs from the one before the mutation. -/
theorem DataPacket.getFullName_spec (digestSha256 : List Nat → Sha256Digest)
    (input : List Nat) (data : DataPacket) (mutation : DataPacket.Mutation) (changed : Data)
    (h : DataPacket.wireDecode input = some data)
    (hmutation : changed =
      match mutation with
      | .setName name => { data.fields with name := name }
      | .setMetaInfo metaInfo => { data.fields with metaInfo := metaInfo }
      | .setContent content => { data.fields with content := content }
      | .setSignature signature => { data.fields with signature := signature })
    (hchange : changed ≠ data.fields)
    (hvalid : changed.Valid 100 100)
    (hdigest : digestSha256 (ndn_encodeTlvData changed).bytes = digestSha256 input →
      (ndn_encodeTlvData changed).bytes = input) :
    (data.getFullName digestSha256).1.length = data.getName.length + 1 ∧
    (data.getFullName digestSha256).1.dropLast = data.getName ∧
    (data.getFullName digestSha256).1.getLast? = some (digestSha256 input).val ∧
    (digestSha256 input).val.length = 32 ∧
    ((data.getFullName digestSha256).2.getFullName digestSha256).1 =
      (data.getFullName digestSha256).1 ∧
    ((data.getFullName digestSha256).2.mutate mutation).fields = changed ∧
    (((data.getFullName digestSha256).2.mutate mutation).getFullName digestSha256).1 =
      changed.name ++ [(digestSha256 (ndn_encodeTlvData changed).bytes).val] ∧
    (ndn_encodeTlvData changed).bytes ≠ input ∧
    (((data.getFullName digestSha256).2.mutate mutation).getFullName
        digestSha256).1.getLast? ≠ (data.getFullName digestSha256).1.getLast? := by
  obtain ⟨⟨encoding, he, hbytes⟩, hn⟩ := DataPacket.wireDecode_some input data h
  have hfull := DataPacket.getFullName_of_encoded digestSha256 data encoding he hn
  rw [hbytes] at hfull
  have hfields : ((data.getFullName digestSha256).2.mutate mutation).fields = changed := by
    rw [DataPacket.mutate_fields_congr _ data mutation (DataPacket.getFullName_fields _ _),
      hmutation]
    cases mutation <;> rfl
  have hmut := DataPacket.getFullName_of_mutated digestSha256
    ((data.getFullName digestSha256).2.mutate mutation) (DataPacket.mutate_encoding _ _)
  unfold DataPacket.getName at hmut
  rw [hfields] at hmut
  have hne : (ndn_encodeTlvData changed).bytes ≠ input :=
    DataPacket.encoding_ne_input input data changed h hchange hvalid
  refine ⟨?_, ?_, ?_, (digestSha256 input).property, ?_, hfields, hmut, hne, ?_⟩
  · rw [hfull]
    simp
  · rw [hfull]
    simp
  · rw [hfull]
    simp
  · rw [hfull]
    exact congrArg Prod.fst
      (DataPacket.getFullName_of_cached digestSha256 _ encoding _ he rfl)
  · rw [hmut, hfull]
    simp only [List.getLast?_append, List.getLast?_singleton, Option.or_some, ne_eq,
      Option.some.injEq]
    intro hlast
    exact hne (hdigest (Subtype.ext hlast))

/-- Witness for C16: the scenario of the test, with the stand-in digest. The Data decoded
from the 209 bytes of `codedData` has a full name of three components that ends with the
digest of the 209 bytes; after `setContent` with the empty content the Data has the empty
content, its full name is the same two components followed by the digest of the encoding of
the Data with the empty content, and the last component is not the one before. -/
theorem DataPacket.getFullName_spec_witness :
    ∃ data : DataPacket, DataPacket.wireDecode codedData = some data ∧
      (data.getFullName exampleDigest).1.length = 3 ∧
      (data.getFullName exampleDigest).1.dropLast = [[0x6E, 0x64, 0x6E], [0x61, 0x62, 0x63]] ∧
      (data.getFullName exampleDigest).1.getLast? = some (exampleDigest codedData).val ∧
      ((data.getFullName exampleDigest).2.mutate (.setContent [])).fields =
        { codedDataValue with content := [] } ∧
      (((data.getFullName exampleDigest).2.mutate (.setContent [])).getFullName
          exampleDigest).1 =
        [[0x6E, 0x64, 0x6E], [0x61, 0x62, 0x63],
          (exampleDigest
            (ndn_encodeTlvData { codedDataValue with content := [] }).bytes).val] ∧
      (((data.getFullName exampleDigest).2.mutate (.setContent [])).getFullName
          exampleDigest).1.getLast? ≠ (data.getFullName exampleDigest).1.getLast? := by
  obtain ⟨h1, h2, h3, _, _, h6, h7, _, h9⟩ :=
    DataPacket.getFullName_spec exampleDigest codedData _ (.setContent [])
      { codedDataValue with content := [] }
      DataPacket.wireDecode_codedData rfl (by decide) (by decide)
      (fun hsame => absurd hsame (by decide))
  exact ⟨_, DataPacket.wireDecode_codedData, h1, h2, h3, h6, h7, h9⟩

/-! ## The key locator struct -/

/-- C29: after `KeyLocator::set(s)` the type and the key data are those of `s`; when the type
of `s` is `ndn_KeyLocatorType_KEYNAME` the key name and the key name type are those of `s`,
so that `get` gives `s` back; for every other type the key name is empty and the key name
type is `-1`, whatever `s` and the key locator held before. -/
theorem KeyLocator.set_spec (ndn_KeyLocatorType_KEYNAME : Int) (s : ndn_KeyLocator)
    (self : KeyLocator) :
    (KeyLocator.set ndn_KeyLocatorType_KEYNAME s self).type_ = s.type ∧
    (KeyLocator.set ndn_KeyLocatorType_KEYNAME s self).keyData_ = s.keyData ∧
    (s.type = ndn_KeyLocatorType_KEYNAME →
      (KeyLocator.set ndn_KeyLocatorType_KEYNAME s self).keyName_ = s.keyName ∧
      (KeyLocator.set ndn_KeyLocatorType_KEYNAME s self).keyNameType_ = s.keyNameType ∧
      (KeyLocator.set ndn_KeyLocatorType_KEYNAME s self).get = s) ∧
    (s.type ≠ ndn_KeyLocatorType_KEYNAME →
      (KeyLocator.set ndn_KeyLocatorType_KEYNAME s self).keyName_ = [] ∧
      (KeyLocator.set ndn_KeyLocatorType_KEYNAME s self).keyNameType_ = -1) := by
  unfold KeyLocator.set
  by_cases h : s.type = ndn_KeyLocatorType_KEYNAME
  · rw [if_pos h]
    refine ⟨rfl, rfl, fun _ => ⟨rfl, rfl, ?_⟩, fun hne => absurd h hne⟩
    cases s
    rfl
  · rw [if_neg h]
    exact ⟨rfl, rfl, fun he => absurd he h, fun _ => ⟨rfl, rfl⟩⟩

/-- Witness for C29: a struct of type 3 taken as `ndn_KeyLocatorType_KEYNAME`, and a struct of
type 1 with a key name and a key name type that are not taken over. -/
theorem KeyLocator.set_spec_witness :
    (KeyLocator.set 3 { type := 3, keyData := [1], keyName := [[97]], keyNameType := 2 }
      Interest.emptyKeyLocator).get =
        { type := 3, keyData := [1], keyName := [[97]], keyNameType := 2 } ∧
    ((KeyLocator.set 3 { type := 1, keyData := [1], keyName := [[97]], keyNameType := 2 }
        { type_ := 3, keyData_ := [], keyName_ := [[98]], keyNameType_ := 0 }).keyName_ = [] ∧
      (KeyLocator.set 3 { type := 1, keyData := [1], keyName := [[97]], keyNameType := 2 }
        { type_ := 3, keyData_ := [], keyName_ := [[98]], keyNameType_ := 0 }).keyNameType_ =
        -1) :=
  ⟨((KeyLocator.set_spec 3 { type := 3, keyData := [1], keyName := [[97]], keyNameType := 2 }
      Interest.emptyKeyLocator).2.2.1 (by decide)).2.2,
    (KeyLocator.set_spec 3 { type := 1, keyData := [1], keyName := [[97]], keyNameType := 2 }
      { type_ := 3, keyData_ := [], keyName_ := [[98]], keyNameType_ := 0 }).2.2.2
      (by decide)⟩

/-! ## Hexadecimal dump -/

theorem toHex_byte :
    ∀ x < 256, (if x < 16 then ['0'] else []) ++ Nat.toDigits 16 x =
      [lowercaseHexDigit (x / 16), lowercaseHexDigit (x % 16)] := by
  decide

theorem toHex_foldl (array : List Nat) (result : List Char) :
    array.foldl
        (fun result x => (if x < 16 then result ++ ['0'] else result) ++ Nat.toDigits 16 x)
        result =
      result ++ toHex array := by
  induction array generalizing result with
  | nil => simp [toHex]
  | cons x xs ih =>
    unfold toHex
    rw [List.foldl_cons, List.foldl_cons, ih, ih ((if x < 16 then [] ++ ['0'] else []) ++ _)]
    by_cases hx : x < 16 <;> simp [hx, toHex]

theorem toHex_cons (x : Nat) (xs : List Nat) (hx : x < 256) :
    toHex (x :: xs) =
      lowercaseHexDigit (x / 16) :: lowercaseHexDigit (x % 16) :: toHex xs := by
  have h := toHex_foldl (x :: xs) []
  rw [List.foldl_cons, toHex_foldl] at h
  have hb := toHex_byte x hx
  simp only [List.nil_append] at h
  rw [← h]
  rw [hb]
  rfl

/-- C22: for every vector `v` of bytes, `toHex(v)` has exactly `2 * |v|` characters, and for
every `i` the characters `2 * i` and `2 * i + 1` are the lowercase hexadecimal digits of the
high and of the low nibble of `v[i]`; the content `SUCCESS!` of the test gives
`5355434345535321`. -/
theorem toHex_spec (v : List Nat) (hv : ∀ x ∈ v, x < 256) :
    (toHex v).length = 2 * v.length ∧
    (∀ i : Nat,
      (toHex v)[2 * i]? = v[i]?.map (fun x => lowercaseHexDigit (x / 16)) ∧
      (toHex v)[2 * i + 1]? = v[i]?.map (fun x => lowercaseHexDigit (x % 16))) ∧
    toHex codedDataValue.content = "5355434345535321".data := by
  refine ⟨?_, ?_, by decide⟩
  · induction v with
    | nil => rfl
    | cons x xs ih =>
      rw [toHex_cons x xs (hv x (List.mem_cons_self _ _))]
      simp only [List.length_cons]
      rw [ih (fun y hy => hv y (List.mem_cons_of_mem _ hy))]
      omega
  · induction v with
    | nil =>
      intro i
      simp [toHex]
    | cons x xs ih =>
      intro i
      rw [toHex_cons x xs (hv x (List.mem_cons_self _ _))]
      cases i with
      | zero => simp
      | succ j =>
        have e1 : 2 * (j + 1) = 2 * j + 1 + 1 := by omega
        have e2 : 2 * (j + 1) + 1 = 2 * j + 1 + 1 + 1 := by omega
        rw [e2, e1]
        simp only [List.getElem?_cons_succ]
        exact ih (fun y hy => hv y (List.mem_cons_of_mem _ hy)) j

/-- Witness for C22: the content `SUCCESS!` of the test packet. -/
theorem toHex_spec_witness :
    (∀ x ∈ codedDataValue.content, x < 256) ∧
    (toHex codedDataValue.content).length = 16 ∧
    (toHex codedDataValue.content)[2 * 1]? = some '5' ∧
    (toHex codedDataValue.content)[2 * 1 + 1]? = some '5' :=
  ⟨by decide, (toHex_spec codedDataValue.content (by decide)).1,
    ((toHex_spec codedDataValue.content (by decide)).2.1 1).1,
    ((toHex_spec codedDataValue.content (by decide)).2.1 1).2⟩

/-! ## The content buffer of the echo example -/

namespace Echo

theorem take_set_self (l : List Nat) (i v : Nat) : (l.set i v).take i = l.take i := by
  induction l generalizing i with
  | nil => simp
  | cons a l ih =>
    cases i with
    | zero => simp
    | succ j => simp [ih]

theorem take_succ_set (l : List Nat) (i v : Nat) (h : i < l.length) :
    (l.set i v).take (i + 1) = l.take i ++ [v] := by
  rw [List.take_succ, take_set_self]
  simp [h]

theorem take_succ_getD (l : List Nat) (i : Nat) (h : i < l.length) :
    l.take (i + 1) = l.take i ++ [l.getD i 0] := by
  rw [List.take_succ]
  simp [h, List.getD]

theorem strcpy_message (content : List Nat) (h : content.length = sizeof_content) :
    (strcpy content message).1.length = sizeof_content ∧
    (strcpy content message).1.take 15 = message ∧
    strlen (strcpy content message).1 = 15 ∧
    (strcpy content message).2 = List.range 16 := by
  have hm : message.length = 15 := by decide
  have hs : (strcpy content message).1 = message ++ 0 :: content.drop 16 := by
    simp [strcpy, hm]
  refine ⟨?_, ?_, ?_, by simp [strcpy, hm]⟩
  · rw [hs]
    simp only [List.length_append, List.length_cons, List.length_drop, hm, h, sizeof_content]
  · rw [hs, List.take_left' hm]
  · rw [hs]
    unfold strlen
    rw [List.takeWhile_append_of_pos (by decide)]
    simp [hm]

theorem copyLoop_spec (value : List Nat) (fuel : Nat) (s : ContentState)
    (hlen : s.content.length = sizeof_content) (hto : s.iTo = 15 + s.iFrom)
    (hfrom : s.iFrom ≤ value.length) (hmax : s.iFrom ≤ 185)
    (htake : s.content.take s.iTo = message ++ value.take s.iFrom)
    (hwritten : ∀ w ∈ s.written, w < sizeof_content)
    (hfuel : sizeof_content ≤ fuel + s.iTo) :
    ∃ s' : ContentState, copyLoop value fuel s = some s' ∧
      s'.iFrom = min value.length 185 ∧ s'.iTo = 15 + s'.iFrom ∧
      s'.content.take s'.iTo = message ++ value.take s'.iFrom ∧
      ∀ w ∈ s'.written, w < sizeof_content := by
  have hstop : ¬ (s.iFrom < value.length ∧ s.iTo < sizeof_content) →
      s.iFrom = min value.length 185 := by
    intro hc
    simp only [sizeof_content] at hc
    omega
  induction fuel generalizing s with
  | zero =>
    have hc : ¬ (s.iFrom < value.length ∧ s.iTo < sizeof_content) := by
      simp only [sizeof_content] at hfuel ⊢
      omega
    refine ⟨s, ?_, hstop hc, hto, htake, hwritten⟩
    unfold copyLoop
    rw [if_neg hc]
  | succ fuel ih =>
    by_cases hc : s.iFrom < value.length ∧ s.iTo < sizeof_content
    · unfold copyLoop
      rw [if_pos hc]
      have hlt : s.iTo < s.content.length := by
        rw [hlen]
        exact hc.2
      apply ih
      · simp [hlen]
      · show s.iTo + 1 = 15 + (s.iFrom + 1)
        omega
      · exact hc.1
      · have := hc.2
        simp only [sizeof_content] at this
        show s.iFrom + 1 ≤ 185
        omega
      · show (s.content.set s.iTo (value.getD s.iFrom 0)).take (s.iTo + 1) =
          message ++ value.take (s.iFrom + 1)
        rw [take_succ_set _ _ _ hlt, htake, take_succ_getD _ _ hc.1, List.append_assoc]
      · intro w hw
        rcases List.mem_append.mp hw with h1 | h1
        · exact hwritten w h1
        · rw [List.mem_singleton.mp h1]
          exact hc.2
      · show sizeof_content ≤ fuel + (s.iTo + 1)
        omega
      · intro hc2
        simp only [sizeof_content] at hc2 hc
        show s.iFrom + 1 = min value.length 185
        have h3 : s.iTo + 1 = 15 + (s.iFrom + 1) := by omega
        change ¬ (s.iFrom + 1 < value.length ∧ s.iTo + 1 < 200) at hc2
        omega
    · refine ⟨s, ?_, hstop hc, hto, htake, hwritten⟩
      unfold copyLoop
      rw [if_neg hc]

/-- C30: for every content of the 200-byte buffer before and every value of the second name
component, of any length `n`, the part of `Echo::onReceivedElement` that builds the content
ends, every index of `content` it writes to is below 200, and the content set on the Data is
`Echo /testecho/` followed by the first `min(n, 185)` bytes of the value, `min(15 + n, 200)`
bytes in all. -/
theorem onReceivedElement_content_spec (content : List Nat) (value : List Nat)
    (hcontent : content.length = sizeof_content) :
    ∃ written : List Nat,
      onReceivedElement_content content value =
        some (message ++ value.take (min value.length 185), written) ∧
      (∀ index ∈ written, index < 200) ∧
      (message ++ value.take (min value.length 185)).length = min (15 + value.length) 200 := by
  obtain ⟨h1, h2, h3, h4⟩ := strcpy_message content hcontent
  obtain ⟨s, hs, hfrom, hto, htake, hw⟩ := copyLoop_spec value sizeof_content
    { content := (strcpy content message).1, iFrom := 0, iTo := strlen (strcpy content message).1,
      written := (strcpy content message).2 }
    h1 h3 (Nat.zero_le _) (Nat.zero_le _)
    (by
      show (strcpy content message).1.take (strlen (strcpy content message).1) = _
      rw [h3, h2]
      simp)
    (by
      intro w hw
      change w ∈ (strcpy content message).2 at hw
      rw [h4] at hw
      have := List.mem_range.mp hw
      simp only [sizeof_content]
      omega)
    (by simp [sizeof_content])
  refine ⟨s.written, ?_, hw, ?_⟩
  · unfold onReceivedElement_content
    simp only [hs]
    rw [htake, hfrom]
  · have hm : message.length = 15 := by decide
    rw [List.length_append, List.length_take, hm]
    omega

/-- Witness for C30: a buffer of 200 zero bytes and a component value of 190 bytes, of which
185 are copied. -/
theorem onReceivedElement_content_spec_witness :
    (List.replicate 200 0).length = sizeof_content ∧
    ∃ written : List Nat,
      onReceivedElement_content (List.replicate 200 0) (List.replicate 190 65) =
        some (message ++ (List.replicate 190 65).take (min (List.replicate 190 65).length 185),
          written) ∧
      (∀ index ∈ written, index < 200) ∧
      (message ++ (List.replicate 190 65).take
        (min (List.replicate 190 65).length 185)).length =
        min (15 + (List.replicate 190 65).length) 200 :=
  ⟨by decide,
    onReceivedElement_content_spec (List.replicate 200 0) (List.replicate 190 65) (by decide)⟩

end Echo

/-! ## The OID of a decoded public key and the signature of the example -/

/-- C27, the code at the failing input: for every DER that `d2i_RSA_PUBKEY` decodes, the OID
that `PublicKey::fromDer` stores has `sizeof(RSA_OID)` = 28 elements, not 7; the first 7 are
the RSA OID 1.2.840.113549.1.1.1 and the other 21 are read from the memory after the
`RSA_OID` array, so the OID is not the RSA OID whatever that memory holds; for the RSA key of the test and
memory holding zeros the OID is the RSA OID followed by 21 zeros. -/
theorem PublicKey.fromDer_reads_past_RSA_OID {RSA : Type} (crypto : Crypto RSA)
    (adjacentMemory : Nat → Int) (keyDer : Blob) (key : PublicKey) :
    RSA_OID.length = 7 ∧
    PublicKey.fromDer exampleCrypto (fun _ => 0) DEFAULT_RSA_PUBLIC_KEY_DER =
      .ok { algorithm_ := { oid_ := RSA_OID ++ List.replicate 21 0 }
            keyDer_ := DEFAULT_RSA_PUBLIC_KEY_DER } ∧
    (PublicKey.fromDer crypto adjacentMemory keyDer = .ok key →
      key.algorithm_.oid_.length = 28 ∧
      key.algorithm_.oid_.take 7 = RSA_OID ∧
      key.algorithm_.oid_ ≠ RSA_OID ∧
      ∀ i : Nat, 7 ≤ i → i < 28 → key.algorithm_.oid_[i]? = some (adjacentMemory (i - 7))) := by
  refine ⟨rfl, by decide, ?_⟩
  intro h
  unfold PublicKey.fromDer at h
  cases hd : crypto.d2i_RSA_PUBKEY keyDer with
  | none =>
    rw [hd] at h
    cases h
  | some decoded =>
    rw [hd] at h
    simp only [Except.ok.injEq] at h
    subst h
    have hlen : ((List.range sizeof_RSA_OID).map (readRSA_OID adjacentMemory)).length = 28 := by
      simp [sizeof_RSA_OID, RSA_OID, sizeof_int]
    refine ⟨hlen, ?_, ?_, ?_⟩
    · show ((List.range 28).map (readRSA_OID adjacentMemory)).take 7 = RSA_OID
      rfl
    · intro he
      have := congrArg List.length he
      rw [hlen] at this
      exact absurd this (by decide)
    · intro i h7 h28
      show ((List.range 28).map (readRSA_OID adjacentMemory))[i]? = _
      rw [List.getElem?_map, List.getElem?_range h28]
      simp only [Option.map_some']
      unfold readRSA_OID
      have hnone : RSA_OID.get? i = none := by
        rw [List.get?_eq_none]
        exact h7
      rw [hnone]
      rfl

theorem signAndSendData_signature (setKeyName : Name → Nat)
    (encodeData : Data → Nat × TlvEncoding) (signWithSha256 : List Nat → Nat × List Nat)
    (send : List Nat → Nat) (data : Data) (certificateName : Name)
    (signatureBuffer : List Nat)
    (h : (signAndSendData setKeyName encodeData signWithSha256 send data certificateName
      signatureBuffer).sent ≠ none) :
    ∃ signature : List Nat,
      signWithSha256 (encodeData
        { data with
          signature :=
            { type := ndn_SignatureType_Sha256WithRsaSignature
              keyLocator := .keyName certificateName
              signature := [] } }).2.signedPortion = (0, signature) ∧
      (signAndSendData setKeyName encodeData signWithSha256 send data certificateName
          signatureBuffer).data.signature.signature =
        (signature ++ signatureBuffer.drop signature.length).take sizeof_size_t := by
  unfold signAndSendData at h ⊢
  dsimp only at h ⊢
  split at h
  · exact absurd rfl h
  · split at h
    · exact absurd rfl h
    · split at h
      · exact absurd rfl h
      · rename_i h1 h2 h3
        rw [if_neg h1, if_neg h2, if_neg h3]
        refine ⟨_, Prod.ext ?_ rfl, ?_⟩
        · simpa using h3
        · split <;> rfl

/-- C24, the code at the failing input: whenever `signAndSendData` gets as far as sending,
the signature set on the Data before the second encode is
`BlobLite(signatureBuffer, sizeof(signatureLength))`, the first 8 bytes of the signature
buffer, so it has at most 8 bytes; for the test's Data and a signature of 256 bytes it is the
first 8 of the 256 bytes and not the signature. -/
theorem signAndSendData_signature_is_8_bytes (setKeyName : Name → Nat)
    (encodeData : Data → Nat × TlvEncoding) (signWithSha256 : List Nat → Nat × List Nat)
    (send : List Nat → Nat) (data : Data) (certificateName : Name)
    (signatureBuffer : List Nat) :
    ((signAndSendData setKeyName encodeData signWithSha256 send data certificateName
        signatureBuffer).sent ≠ none →
      (signAndSendData setKeyName encodeData signWithSha256 send data certificateName
        signatureBuffer).data.signature.signature.length ≤ 8) ∧
    (exampleSignWithSha256
      (ndn_encodeTlvData
        (KeyChain.signaturePlaceholder defaultCertName freshData.fields)).signedPortion).2.length
      = 256 ∧
    (signAndSendData (fun _ => 0) (fun d => (0, ndn_encodeTlvData d)) exampleSignWithSha256
        (fun _ => 0) freshData.fields defaultCertName.dropLast
        (List.replicate 256 0)).data.signature.signature =
      (exampleSignWithSha256
        (ndn_encodeTlvData
          (KeyChain.signaturePlaceholder defaultCertName
            freshData.fields)).signedPortion).2.take 8 ∧
    (signAndSendData (fun _ => 0) (fun d => (0, ndn_encodeTlvData d)) exampleSignWithSha256
        (fun _ => 0) freshData.fields defaultCertName.dropLast
        (List.replicate 256 0)).data.signature.signature.length = 8 := by
  refine ⟨?_, by decide, by decide, by decide⟩
  intro h
  obtain ⟨signature, _, hs⟩ := signAndSendData_signature setKeyName encodeData signWithSha256
    send data certificateName signatureBuffer h
  rw [hs, List.length_take]
  exact Nat.min_le_left _ _

/-! ## The consumer -/

theorem Name.matchName_iff (self name : Name) :
    self.matchName name = true ↔ ∃ rest : Name, name = self ++ rest := by
  induction self generalizing name with
  | nil => simp [Name.matchName]
  | cons component components ih =>
    cases name with
    | nil => simp [Name.matchName]
    | cons other others =>
      simp only [Name.matchName, Bool.and_eq_true, beq_iff_eq, ih, List.cons_append,
        List.cons.injEq]
      constructor
      · rintro ⟨h1, rest, h2⟩
        exact ⟨rest, h1.symm, h2⟩
      · rintro ⟨rest, h1, h2⟩
        exact ⟨h1.symm, rest, h2⟩

namespace Consumer

/-- C21: when the consumer name is not a prefix of the key name, that is, when the key name
is not the consumer name followed by further components, `addDecryptionKey` throws a
`runtime_error` and the database is as before; otherwise it does exactly what
`database_->addKey(keyName, keyBlob)` does, which for a database that keeps the pairs added
and does not hold the key name yet adds the pair `(keyName, keyBlob)` and nothing else. -/
theorem Impl.addDecryptionKey_spec {δ : Type}
    (addKey : δ → Name → Blob → Option CppException × δ)
    (consumerName_ : Name) (database_ : δ) (keyName : Name) (keyBlob : Blob)
    (pairs : List (Name × Blob)) :
    ((¬ ∃ rest : Name, keyName = consumerName_ ++ rest) →
      Impl.addDecryptionKey addKey consumerName_ database_ keyName keyBlob =
        (some (.stdException
          "addDecryptionKey: The consumer name must be a prefix of the key name"),
          database_)) ∧
    ((∃ rest : Name, keyName = consumerName_ ++ rest) →
      Impl.addDecryptionKey addKey consumerName_ database_ keyName keyBlob =
        addKey database_ keyName keyBlob) ∧
    ((∃ rest : Name, keyName = consumerName_ ++ rest) → pairs.lookup keyName = none →
      Impl.addDecryptionKey exampleAddKey consumerName_ pairs keyName keyBlob =
        (none, (keyName, keyBlob) :: pairs)) := by
  refine ⟨fun h => ?_, fun h => ?_, fun h hl => ?_⟩
  · have hm : consumerName_.matchName keyName = false := by
      rw [← Bool.not_eq_true, Name.matchName_iff]
      exact h
    simp [Impl.addDecryptionKey, hm]
  · have hm := (Name.matchName_iff consumerName_ keyName).mpr h
    simp [Impl.addDecryptionKey, hm]
  · have hm := (Name.matchName_iff consumerName_ keyName).mpr h
    simp [Impl.addDecryptionKey, hm, exampleAddKey, hl]

/-- Witness for C21: the consumer `/a/b`, once with the key name `/a/b/c`, which is added to
the empty database, and once with the key name `/a/c`, which is not. -/
theorem Impl.addDecryptionKey_spec_witness :
    (∃ rest : Name, ([[97], [98], [99]] : Name) = [[97], [98]] ++ rest) ∧
    (¬ ∃ rest : Name, ([[97], [99]] : Name) = [[97], [98]] ++ rest) ∧
    Impl.addDecryptionKey exampleAddKey [[97], [98]] [] [[97], [98], [99]] [1, 2] =
      (none, [([[97], [98], [99]], [1, 2])]) ∧
    Impl.addDecryptionKey exampleAddKey [[97], [98]] [] [[97], [99]] [1, 2] =
      (some (.stdException
        "addDecryptionKey: The consumer name must be a prefix of the key name"), []) :=
  ⟨⟨[[99]], rfl⟩, by simp,
    (Impl.addDecryptionKey_spec exampleAddKey [[97], [98]] [] [[97], [98], [99]] [1, 2] []).2.2
      ⟨[[99]], rfl⟩ rfl,
    (Impl.addDecryptionKey_spec exampleAddKey [[97], [98]] [] [[97], [99]] [1, 2] []).1
      (by simp)⟩

theorem tryOnError_eq (onError : ErrorCode → String → Option CppException)
    (errorCode : ErrorCode) (message : String) :
    tryOnError onError errorCode message =
      { calls := [.onError errorCode message], escaped := none } := by
  unfold tryOnError
  split <;> rfl

theorem tryOnPlainText_eq (onPlainText : Blob → Option CppException) (content : Blob) :
    tryOnPlainText onPlainText content =
      { calls := [.onPlainText content], escaped := none } := by
  unfold tryOnPlainText
  split <;> rfl

/-- C26: when the decrypt functions throw nothing but exceptions derived from
`std::exception`, then for every `EncryptedContent`, all key bits and all callbacks, whatever
the callbacks throw, `decryptEncryptedContent` lets no exception out and calls exactly one
callback, once: for the types AesCbc and RsaOaep `onPlainText` with the bytes that the
decrypt function returned, or `onError` with `InvalidEncryptedFormat` and the text of the
exception when it threw; for every other type `onError` with
`UnsupportedEncryptionScheme`. -/
theorem Impl.decryptEncryptedContent_spec (algorithms : Algorithms)
    (onPlainText : Blob → Option CppException)
    (onError : ErrorCode → String → Option CppException)
    (encryptedContent : EncryptedContent) (keyBits : Blob)
    (hAes : ∀ key payload initialVector,
      algorithms.AesAlgorithm_decrypt key payload initialVector ≠ .error .other)
    (hRsa : ∀ key payload, algorithms.RsaAlgorithm_decrypt key payload ≠ .error .other) :
    (Impl.decryptEncryptedContent algorithms onPlainText onError encryptedContent
      keyBits).escaped = none ∧
    (Impl.decryptEncryptedContent algorithms onPlainText onError encryptedContent
      keyBits).calls.length = 1 ∧
    (encryptedContent.algorithmType_ = algorithms.ndn_EncryptAlgorithmType_AesCbc →
      (∀ content : Blob,
        algorithms.AesAlgorithm_decrypt keyBits encryptedContent.payload_
          encryptedContent.initialVector_ = .ok content →
        (Impl.decryptEncryptedContent algorithms onPlainText onError encryptedContent
          keyBits).calls = [.onPlainText content]) ∧
      (∀ what : String,
        algorithms.AesAlgorithm_decrypt keyBits encryptedContent.payload_
          encryptedContent.initialVector_ = .error (.stdException what) →
        (Impl.decryptEncryptedContent algorithms onPlainText onError encryptedContent
          keyBits).calls = [.onError .InvalidEncryptedFormat what])) ∧
    (encryptedContent.algorithmType_ ≠ algorithms.ndn_EncryptAlgorithmType_AesCbc →
      encryptedContent.algorithmType_ = algorithms.ndn_EncryptAlgorithmType_RsaOaep →
      (∀ content : Blob,
        algorithms.RsaAlgorithm_decrypt keyBits encryptedContent.payload_ = .ok content →
        (Impl.decryptEncryptedContent algorithms onPlainText onError encryptedContent
          keyBits).calls = [.onPlainText content]) ∧
      (∀ what : String,
        algorithms.RsaAlgorithm_decrypt keyBits encryptedContent.payload_ =
          .error (.stdException what) →
        (Impl.decryptEncryptedContent algorithms onPlainText onError encryptedContent
          keyBits).calls = [.onError .InvalidEncryptedFormat what])) ∧
    (encryptedContent.algorithmType_ ≠ algorithms.ndn_EncryptAlgorithmType_AesCbc →
      encryptedContent.algorithmType_ ≠ algorithms.ndn_EncryptAlgorithmType_RsaOaep →
      (Impl.decryptEncryptedContent algorithms onPlainText onError encryptedContent
        keyBits).calls = [.onError .UnsupportedEncryptionScheme "UnsupportedEncryptionScheme"]) := by
  unfold Impl.decryptEncryptedContent
  dsimp only
  by_cases h1 : encryptedContent.algorithmType_ = algorithms.ndn_EncryptAlgorithmType_AesCbc
  · rw [if_pos h1]
    cases hd : algorithms.AesAlgorithm_decrypt keyBits encryptedContent.payload_
        encryptedContent.initialVector_ with
    | error e =>
      cases e with
      | stdException what =>
        simp [tryOnError_eq, h1]
      | other => exact absurd hd (hAes _ _ _)
    | ok content =>
      simp [tryOnPlainText_eq, h1]
  · rw [if_neg h1]
    by_cases h2 : encryptedContent.algorithmType_ = algorithms.ndn_EncryptAlgorithmType_RsaOaep
    · rw [if_pos h2]
      cases hd : algorithms.RsaAlgorithm_decrypt keyBits encryptedContent.payload_ with
      | error e =>
        cases e with
        | stdException what =>
          simp [tryOnError_eq, h1]
          exact h2
        | other => exact absurd hd (hRsa _ _)
      | ok content =>
        simp [tryOnPlainText_eq, h1]
        exact h2
    · rw [if_neg h2]
      simp [tryOnError_eq, h1, h2]

/-- Witness for C26: the stand-in decrypt functions, an AesCbc content whose payload starts
with the key bits, and callbacks that throw. -/
theorem Impl.decryptEncryptedContent_spec_witness :
    (∀ key payload initialVector,
      exampleAlgorithms.AesAlgorithm_decrypt key payload initialVector ≠ .error .other) ∧
    (∀ key payload, exampleAlgorithms.RsaAlgorithm_decrypt key payload ≠ .error .other) ∧
    Impl.decryptEncryptedContent exampleAlgorithms (fun _ => some .other)
        (fun _ _ => some (.stdException "error in onError"))
        { algorithmType_ := 1, keyName_ := [], initialVector_ := [], payload_ := [7, 8, 9] }
        [7] =
      { calls := [.onPlainText [8, 9]], escaped := none } ∧
    (Impl.decryptEncryptedContent exampleAlgorithms (fun _ => some .other)
        (fun _ _ => some (.stdException "error in onError"))
        { algorithmType_ := 1, keyName_ := [], initialVector_ := [], payload_ := [7, 8, 9] }
        [7]).calls.length = 1 :=
  ⟨by
      intro key payload initialVector
      simp only [exampleAlgorithms]
      split <;> simp,
    by
      intro key payload
      simp [exampleAlgorithms],
    by decide,
    (Impl.decryptEncryptedContent_spec exampleAlgorithms (fun _ => some .other)
      (fun _ _ => some (.stdException "error in onError"))
      { algorithmType_ := 1, keyName_ := [], initialVector_ := [], payload_ := [7, 8, 9] } [7]
      (by
        intro key payload initialVector
        simp only [exampleAlgorithms]
        split <;> simp)
      (by
        intro key payload
        simp [exampleAlgorithms])).2.1⟩

/-- C23, the code at the failing input: after `onCKeyPlainText` has stored the bits of the
content key `cKeyName` in `cKeyMap_`, `decryptContent` for a Data whose key locator names it
looks the name up in `dKeyMap_`; when `dKeyMap_` has no entry of that name, it expresses the
Interest for the C-KEY again and calls neither callback, so the content is not decrypted with
the stored key. The closed part is a consumer of the group `/g` with empty maps and the
content key `/c`. -/
theorem Impl.decryptContent_ignores_cKeyMap (algorithms : Algorithms)
    (wireDecode : Blob → Except CppException EncryptedContent)
    (NAME_COMPONENT_FOR : NameComponent) (expressInterest : Name → Option CppException)
    (onPlainText : Blob → Option CppException)
    (onError : ErrorCode → String → Option CppException)
    (dataContent : Blob) (content : EncryptedContent) (cKeyBits : Blob) (parent_ : Impl) :
    (wireDecode dataContent = .ok content →
      parent_.dKeyMap_.lookup content.keyName_ = none →
      expressInterest (content.keyName_ ++ [NAME_COMPONENT_FOR] ++ parent_.groupName_) = none →
      (Impl.onCKeyPlainText algorithms onPlainText onError content.keyName_ content cKeyBits
        parent_).1.cKeyMap_.lookup content.keyName_ = some cKeyBits ∧
      (Impl.decryptContent algorithms wireDecode NAME_COMPONENT_FOR expressInterest onPlainText
        onError dataContent
        (Impl.onCKeyPlainText algorithms onPlainText onError content.keyName_ content cKeyBits
          parent_).1).1.expressInterestCalls =
        parent_.expressInterestCalls ++
          [content.keyName_ ++ [NAME_COMPONENT_FOR] ++ parent_.groupName_] ∧
      (Impl.decryptContent algorithms wireDecode NAME_COMPONENT_FOR expressInterest onPlainText
        onError dataContent
        (Impl.onCKeyPlainText algorithms onPlainText onError content.keyName_ content cKeyBits
          parent_).1).2.calls = []) ∧
    Impl.decryptContent exampleAlgorithms
        (fun _ => .ok { algorithmType_ := 1, keyName_ := [[99]], initialVector_ := [],
                        payload_ := [7, 8, 9] })
        [70, 79, 82] (fun _ => none) (fun _ => none) (fun _ _ => none) [1]
        (Impl.onCKeyPlainText exampleAlgorithms (fun _ => none) (fun _ _ => none) [[99]]
          { algorithmType_ := 1, keyName_ := [[99]], initialVector_ := [],
            payload_ := [7, 8, 9] } [7]
          { groupName_ := [[103]], consumerName_ := [[97]], cKeyMap_ := [], dKeyMap_ := [],
            expressInterestCalls := [[[99], [70, 79, 82], [103]]] }).1 =
      ({ groupName_ := [[103]], consumerName_ := [[97]], cKeyMap_ := [([[99]], [7])],
         dKeyMap_ := []
         expressInterestCalls :=
           [[[99], [70, 79, 82], [103]], [[99], [70, 79, 82], [103]]] },
        { calls := [], escaped := none }) := by
  refine ⟨fun hd hl he => ⟨?_, ?_, ?_⟩, by decide⟩
  · simp [Impl.onCKeyPlainText, List.lookup]
  · unfold Impl.decryptContent
    simp only [hd, Impl.onCKeyPlainText, hl, he]
  · unfold Impl.decryptContent
    simp only [hd, Impl.onCKeyPlainText, hl, he]

/-! ### Timeouts -/

theorem Impl.timeout_of_none (expressInterest : Nat → Option CppException)
    (toUri : Name → String) (contentName : Name) (s : ConsumeState) (h : s.pending = none) :
    Impl.timeout expressInterest toUri contentName s = s := by
  unfold Impl.timeout
  rw [h]

theorem Impl.timeouts_of_none (expressInterest : Nat → Option CppException)
    (toUri : Name → String) (contentName : Name) (k : Nat) (s : ConsumeState)
    (h : s.pending = none) :
    Impl.timeouts expressInterest toUri contentName k s = s := by
  induction k with
  | zero => rfl
  | succ k ih =>
    unfold Impl.timeouts
    rw [Impl.timeout_of_none _ _ _ _ h]
    exact ih

theorem tryExpressInterest_bounded (expressInterest : Nat → Option CppException)
    (contentName : Name) (onTimeout : OnTimeout) (s : ConsumeState)
    (hnames : ∀ name ∈ s.expressInterestCalls, name = contentName)
    (herr : s.onErrorCalls = [])
    (hcount : (onTimeout = .Callbacks_onTimeout ∧ s.expressInterestCalls.length = 0) ∨
      (onTimeout = .Impl_onFinalTimeout ∧ s.expressInterestCalls.length = 1)) :
    ConsumeState.Bounded contentName
      (tryExpressInterest expressInterest contentName onTimeout s) := by
  have hn : ∀ name ∈ s.expressInterestCalls ++ [contentName], name = contentName := by
    intro name hm
    rcases List.mem_append.mp hm with h | h
    · exact hnames name h
    · exact List.mem_singleton.mp h
  unfold tryExpressInterest
  cases he : expressInterest s.expressInterestCalls.length with
  | none =>
    refine ⟨hn, ?_⟩
    rcases hcount with ⟨h1, h2⟩ | ⟨h1, h2⟩
    · exact Or.inr (Or.inl ⟨by rw [h1], by simp [h2], herr⟩)
    · exact Or.inr (Or.inr ⟨by rw [h1], by simp [h2], herr⟩)
  | some e =>
    cases e with
    | stdException what =>
      refine ⟨hn, Or.inl ⟨rfl, ?_, ?_⟩⟩
      · rcases hcount with ⟨_, h2⟩ | ⟨_, h2⟩ <;> simp [h2]
      · simp [herr]
    | other =>
      refine ⟨hn, Or.inl ⟨rfl, ?_, ?_⟩⟩
      · rcases hcount with ⟨_, h2⟩ | ⟨_, h2⟩ <;> simp [h2]
      · simp [herr]

theorem Impl.timeout_bounded (expressInterest : Nat → Option CppException)
    (toUri : Name → String) (contentName : Name) (s : ConsumeState)
    (h : ConsumeState.Bounded contentName s) :
    ConsumeState.Bounded contentName (Impl.timeout expressInterest toUri contentName s) := by
  obtain ⟨hnames, hcases⟩ := h
  rcases hcases with ⟨hp, h1, h2⟩ | ⟨hp, h1, h2⟩ | ⟨hp, h1, h2⟩
  · rw [Impl.timeout_of_none _ _ _ _ hp]
    exact ⟨hnames, Or.inl ⟨hp, h1, h2⟩⟩
  · unfold Impl.timeout
    rw [hp]
    exact tryExpressInterest_bounded expressInterest contentName .Impl_onFinalTimeout
      { s with pending := none } hnames h2 (Or.inr ⟨rfl, h1⟩)
  · unfold Impl.timeout
    rw [hp]
    exact ⟨hnames, Or.inl ⟨rfl, by rw [h1], by simp [h2]⟩⟩

theorem Impl.timeouts_bounded (expressInterest : Nat → Option CppException)
    (toUri : Name → String) (contentName : Name) (k : Nat) (s : ConsumeState)
    (h : ConsumeState.Bounded contentName s) :
    ConsumeState.Bounded contentName (Impl.timeouts expressInterest toUri contentName k s) := by
  induction k generalizing s with
  | zero => exact h
  | succ k ih =>
    unfold Impl.timeouts
    exact ih _ (Impl.timeout_bounded expressInterest toUri contentName s h)

/-- C25: when the Face accepts the Interests, `consume` expresses the Interest once; its
timeout expresses it a second time and reports no error; the timeout of the second calls
`onError` once, with `Timeout` and the URI of the Interest name, and expresses nothing; and
after that no number of further timeouts changes anything. Whatever the Face throws, after
any number of timeouts the Interest has been expressed at most twice and `onError` called at
most once. -/
theorem Impl.consume_timeouts (expressInterest : Nat → Option CppException)
    (anyExpressInterest : Nat → Option CppException)
    (toUri : Name → String) (contentName : Name) (k : Nat)
    (h : ∀ i : Nat, expressInterest i = none) :
    (Impl.consume expressInterest contentName).expressInterestCalls = [contentName] ∧
    (Impl.consume expressInterest contentName).onErrorCalls = [] ∧
    (Impl.timeouts expressInterest toUri contentName 1
      (Impl.consume expressInterest contentName)).expressInterestCalls =
        [contentName, contentName] ∧
    (Impl.timeouts expressInterest toUri contentName 1
      (Impl.consume expressInterest contentName)).onErrorCalls = [] ∧
    Impl.timeouts expressInterest toUri contentName (2 + k)
        (Impl.consume expressInterest contentName) =
      { expressInterestCalls := [contentName, contentName]
        pending := none
        onErrorCalls := [(.Timeout, toUri contentName)]
        escaped := none } ∧
    (Impl.timeouts anyExpressInterest toUri contentName k
      (Impl.consume anyExpressInterest contentName)).expressInterestCalls.length ≤ 2 ∧
    (Impl.timeouts anyExpressInterest toUri contentName k
      (Impl.consume anyExpressInterest contentName)).onErrorCalls.length ≤ 1 := by
  have h0 : Impl.consume expressInterest contentName =
      { expressInterestCalls := [contentName]
        pending := some (contentName, .Callbacks_onTimeout)
        onErrorCalls := [], escaped := none } := by
    simp [Impl.consume, tryExpressInterest, h]
  have h1 : Impl.timeout expressInterest toUri contentName
      (Impl.consume expressInterest contentName) =
      { expressInterestCalls := [contentName, contentName]
        pending := some (contentName, .Impl_onFinalTimeout)
        onErrorCalls := [], escaped := none } := by
    rw [h0]
    simp [Impl.timeout, tryExpressInterest, h]
  have h2 : Impl.timeout expressInterest toUri contentName
      (Impl.timeout expressInterest toUri contentName
        (Impl.consume expressInterest contentName)) =
      { expressInterestCalls := [contentName, contentName]
        pending := none
        onErrorCalls := [(.Timeout, toUri contentName)], escaped := none } := by
    rw [h1]
    simp [Impl.timeout]
  have hb := Impl.timeouts_bounded anyExpressInterest toUri contentName k
    (Impl.consume anyExpressInterest contentName)
    (tryExpressInterest_bounded anyExpressInterest contentName .Callbacks_onTimeout _
      (fun _ hm => by cases hm) rfl (Or.inl ⟨rfl, rfl⟩))
  refine ⟨by rw [h0], by rw [h0], ?_, ?_, ?_, ?_, ?_⟩
  · show (Impl.timeout expressInterest toUri contentName _).expressInterestCalls = _
    rw [h1]
  · show (Impl.timeout expressInterest toUri contentName _).onErrorCalls = _
    rw [h1]
  · rw [Nat.add_comm]
    show Impl.timeouts expressInterest toUri contentName k
      (Impl.timeout expressInterest toUri contentName
        (Impl.timeout expressInterest toUri contentName _)) = _
    rw [h2]
    exact Impl.timeouts_of_none _ _ _ _ _ rfl
  · rcases hb.2 with ⟨_, hc, _⟩ | ⟨_, hc, _⟩ | ⟨_, hc, _⟩ <;> omega
  · rcases hb.2 with ⟨_, _, hc⟩ | ⟨_, _, hc⟩ | ⟨_, _, hc⟩
    · exact hc
    · rw [hc]
      exact Nat.zero_le _
    · rw [hc]
      exact Nat.zero_le _

/-- Witness for C25: a Face that accepts every Interest, the content name `/a`, and five
timeouts. -/
theorem Impl.consume_timeouts_witness :
    (∀ i : Nat, (fun _ => none : Nat → Option CppException) i = none) ∧
    Impl.timeouts (fun _ => none) (fun _ => "/a") [[97]] (2 + 3)
        (Impl.consume (fun _ => none) [[97]]) =
      { expressInterestCalls := [[[97]], [[97]]]
        pending := none
        onErrorCalls := [(.Timeout, "/a")]
        escaped := none } :=
  ⟨fun _ => rfl,
    (Impl.consume_timeouts (fun _ => none) (fun _ => none) (fun _ => "/a") [[97]] 3
      (fun _ => rfl)).2.2.2.2.1⟩

end Consumer

/-! ## Object identifiers -/

theorem digitChar_isDigit : ∀ k < 10, (Nat.digitChar k).isDigit = true ∧
    (Nat.digitChar k).toNat - 48 = k ∧ Nat.digitChar k ≠ '.' := by
  decide

theorem isDigit_not_isspace (c : Char) (h : c.isDigit = true) :
    isspace c = false ∧ c ≠ '-' ∧ c ≠ '+' ∧ c ≠ '.' := by
  have hv : 48 ≤ c.toNat ∧ c.toNat ≤ 57 := by
    simp only [Char.isDigit, Bool.and_eq_true, decide_eq_true_eq] at h
    exact ⟨h.1, h.2⟩
  refine ⟨?_, ?_, ?_, ?_⟩
  · simp only [isspace, Bool.decide_or, Bool.decide_and, Bool.or_eq_false_iff,
      decide_eq_false_iff_not, Bool.and_eq_false_iff]
    omega
  · intro he
    rw [he] at hv
    revert hv
    decide
  · intro he
    rw [he] at hv
    revert hv
    decide
  · intro he
    rw [he] at hv
    revert hv
    decide

theorem toDigitsCore_spec (fuel n : Nat) (ds : List Char) (h : n < fuel) :
    ∃ digits : List Char, Nat.toDigitsCore 10 fuel n ds = digits ++ ds ∧ digits ≠ [] ∧
      (∀ c ∈ digits, c.isDigit = true) ∧
      ∀ value : Nat,
        digits.foldl (fun value c => value * 10 + (c.toNat - 48)) value =
          value * 10 ^ digits.length + n := by
  induction fuel generalizing n ds with
  | zero => omega
  | succ fuel ih =>
    have hd := digitChar_isDigit (n % 10) (Nat.mod_lt _ (by norm_num))
    unfold Nat.toDigitsCore
    by_cases h0 : n / 10 = 0
    · simp only [h0, if_true]
      refine ⟨[Nat.digitChar (n % 10)], rfl, by simp, ?_, ?_⟩
      · intro c hc
        rw [List.mem_singleton.mp hc]
        exact hd.1
      · intro value
        simp only [List.foldl_cons, List.foldl_nil, List.length_singleton, pow_one, hd.2.1]
        omega
    · simp only [h0, if_false]
      obtain ⟨digits, he, hne, hall, hval⟩ := ih (n / 10) (Nat.digitChar (n % 10) :: ds)
        (by omega)
      refine ⟨digits ++ [Nat.digitChar (n % 10)], ?_, by simp, ?_, ?_⟩
      · rw [he]
        simp
      · intro c hc
        rcases List.mem_append.mp hc with h1 | h1
        · exact hall c h1
        · rw [List.mem_singleton.mp h1]
          exact hd.1
      · intro value
        rw [List.foldl_append, hval]
        simp only [List.foldl_cons, List.foldl_nil, List.length_append, List.length_singleton,
          hd.2.1, pow_succ]
        have := Nat.div_add_mod n 10
        nlinarith [this]

theorem toDigits_spec (n : Nat) :
    Nat.toDigits 10 n ≠ [] ∧ (∀ c ∈ Nat.toDigits 10 n, c.isDigit = true) ∧
      (Nat.toDigits 10 n).foldl (fun value c => value * 10 + (c.toNat - 48)) 0 = n := by
  obtain ⟨digits, he, hne, hall, hval⟩ := toDigitsCore_spec (n + 1) n [] (Nat.lt_succ_self n)
  rw [List.append_nil] at he
  unfold Nat.toDigits
  rw [he]
  refine ⟨hne, hall, ?_⟩
  rw [hval]
  omega

theorem intToString_of_nonneg (x : Int) (h : 0 ≤ x) :
    intToString x = Nat.toDigits 10 x.toNat := by
  unfold intToString
  rw [if_neg (by omega)]

theorem takeWhile_eq_self {α : Type} (p : α → Bool) (l : List α) (h : ∀ a ∈ l, p a = true) :
    l.takeWhile p = l := by
  induction l with
  | nil => rfl
  | cons a l ih =>
    rw [List.takeWhile_cons, h a (List.mem_cons_self _ _)]
    simp only [if_true]
    rw [ih (fun b hb => h b (List.mem_cons_of_mem _ hb))]

theorem atoi_intToString (x : Int) (h : 0 ≤ x) : atoi (intToString x) = x := by
  rw [intToString_of_nonneg x h]
  obtain ⟨hne, hall, hval⟩ := toDigits_spec x.toNat
  cases hd : Nat.toDigits 10 x.toNat with
  | nil => exact absurd hd hne
  | cons c rest =>
    rw [hd] at hall hval
    obtain ⟨hs, hminus, hplus, _⟩ := isDigit_not_isspace c (hall c (List.mem_cons_self _ _))
    unfold atoi
    rw [List.dropWhile_cons, hs]
    simp only [Bool.false_eq_true, if_false, hminus, hplus]
    unfold digitsValue
    rw [takeWhile_eq_self _ _ hall, hval]
    omega

theorem intToString_no_dot (x : Int) (h : 0 ≤ x) : ∀ c ∈ intToString x, c ≠ '.' := by
  rw [intToString_of_nonneg x h]
  intro c hc
  exact (isDigit_not_isspace c ((toDigits_spec x.toNat).2.1 c hc)).2.2.2

theorem findFrom_append (c : Char) (token rest : List Char) (index : Nat)
    (h : ∀ x ∈ token, x ≠ c) :
    findFrom c (token ++ c :: rest) index = some (index + token.length) := by
  induction token generalizing index with
  | nil => simp [findFrom]
  | cons x xs ih =>
    have hx : x ≠ c := h x (List.mem_cons_self _ _)
    simp only [List.cons_append, findFrom, if_neg hx, List.length_cons]
    exact (ih (index + 1) (fun y hy => h y (List.mem_cons_of_mem _ hy))).trans
      (by congr 1; omega)

theorem findFrom_bounds (c : Char) (l : List Char) (index found : Nat)
    (h : findFrom c l index = some found) : index ≤ found ∧ found < index + l.length := by
  induction l generalizing index with
  | nil => simp [findFrom] at h
  | cons x xs ih =>
    simp only [findFrom] at h
    by_cases hx : x = c
    · rw [if_pos hx] at h
      simp only [Option.some.injEq] at h
      simp only [List.length_cons]
      omega
    · rw [if_neg hx] at h
      have := ih (index + 1) h
      simp only [List.length_cons]
      omega

theorem OID.parseLoop_total (str : List Char) (fuel pos : Nat) (oid_ : List Int)
    (hpos : pos ≤ str.length) (hfuel : str.length + 1 < fuel + pos) :
    ∃ result : List Int, OID.parseLoop str fuel pos oid_ = some result := by
  induction fuel generalizing pos oid_ with
  | zero => omega
  | succ fuel ih =>
    unfold OID.parseLoop
    cases hf : find_first_of str '.' pos with
    | none => exact ⟨oid_, rfl⟩
    | some found =>
      have hb := findFrom_bounds '.' (str.drop pos) pos found hf
      rw [List.length_drop] at hb
      exact ih (found + 1) _ (by omega) (by omega)

/-- The string of the tokens, each followed by a dot. -/
theorem OID.parseLoop_tokens (tokens : List (List Char)) (before : List Char) (fuel : Nat)
    (oid_ : List Int) (hdot : ∀ token ∈ tokens, ∀ c ∈ token, c ≠ '.')
    (hfuel : tokens.length < fuel) :
    OID.parseLoop (before ++ (tokens.map (fun token => token ++ ['.'])).flatten) fuel
        before.length oid_ =
      some (oid_ ++ tokens.map atoi) := by
  induction tokens generalizing before fuel oid_ with
  | nil =>
    cases fuel with
    | zero => omega
    | succ fuel =>
      unfold OID.parseLoop
      have : find_first_of (before ++ ([].map (fun token => token ++ ['.'])).flatten) '.'
          before.length = none := by
        simp [find_first_of, findFrom]
      rw [this]
      simp
  | cons token tokens ih =>
    cases fuel with
    | zero => omega
    | succ fuel =>
      unfold OID.parseLoop
      have hstr : before ++ ((token :: tokens).map (fun token => token ++ ['.'])).flatten =
          (before ++ token ++ ['.']) ++ (tokens.map (fun token => token ++ ['.'])).flatten := by
        simp
      have hfind : find_first_of
          (before ++ ((token :: tokens).map (fun token => token ++ ['.'])).flatten) '.'
          before.length = some (before.length + token.length) := by
        unfold find_first_of
        simp only [List.map_cons, List.flatten_cons, List.append_assoc, List.drop_left,
          List.singleton_append]
        exact findFrom_append '.' token _ _ (hdot token (List.mem_cons_self _ _))
      have hsub : substr (before ++ ((token :: tokens).map (fun token => token ++ ['.'])).flatten)
          before.length (before.length + token.length - before.length) = token := by
        unfold substr
        simp only [List.map_cons, List.flatten_cons, List.append_assoc, List.drop_left,
          Nat.add_sub_cancel_left]
        exact List.take_left' rfl
      rw [hfind]
      simp only [hsub]
      rw [hstr]
      have hlen : before.length + token.length + 1 = (before ++ token ++ ['.']).length := by
        simp only [List.length_append, List.length_singleton]
      rw [hlen, ih (before ++ token ++ ['.']) fuel _
        (fun t ht => hdot t (List.mem_cons_of_mem _ ht))
        (by simp only [List.length_cons] at hfuel; omega)]
      simp

theorem intercalate_append_dot (tokens : List (List Char)) (h : tokens ≠ []) :
    ['.'].intercalate tokens ++ ['.'] = (tokens.map (fun token => token ++ ['.'])).flatten := by
  induction tokens with
  | nil => exact absurd rfl h
  | cons token rest ih =>
    cases rest with
    | nil => simp [List.intercalate]
    | cons second rest =>
      have := ih (by simp)
      simp only [List.intercalate, List.intersperse, List.flatten_cons, List.map_cons,
        List.append_assoc] at this ⊢
      rw [this]

theorem OID.toStringLoop_eq (values : List Int) (convert : List Char) :
    OID.toStringLoop values false convert =
      convert ++ (values.map (fun value => '.' :: intToString value)).flatten := by
  induction values generalizing convert with
  | nil => simp [OID.toStringLoop]
  | cons value rest ih =>
    unfold OID.toStringLoop
    rw [ih]
    simp

theorem OID.toString_eq (values : List Int) :
    (OID.mk values).toString = dottedDecimal values := by
  cases values with
  | nil => rfl
  | cons value rest =>
    unfold OID.toString OID.toStringLoop dottedDecimal
    simp only [if_true, List.nil_append]
    rw [OID.toStringLoop_eq]
    induction rest generalizing value with
    | nil => simp [List.intercalate]
    | cons second rest ih =>
      have := ih second
      simp only [List.intercalate, List.map_cons, List.intersperse, List.flatten_cons,
        List.append_assoc] at this ⊢
      rw [← this]
      simp

theorem OID.equalLoop_iff (xs ys : List Int) : OID.equalLoop xs ys = true ↔ xs = ys := by
  induction xs generalizing ys with
  | nil =>
    cases ys with
    | nil => simp [OID.equalLoop]
    | cons y ys => simp [OID.equalLoop]
  | cons x xs ih =>
    cases ys with
    | nil => simp [OID.equalLoop]
    | cons y ys =>
      by_cases h : x = y
      · simp [OID.equalLoop, h, ih]
      · simp [OID.equalLoop, h]

theorem OID.ofString_dottedDecimal (xs : List Int) (hne : xs ≠ [])
    (hint : ∀ x ∈ xs, 0 ≤ x) : OID.ofString (dottedDecimal xs) = some ⟨xs⟩ := by
  unfold OID.ofString dottedDecimal
  rw [intercalate_append_dot _ (by simpa using hne)]
  have h := OID.parseLoop_tokens (xs.map intToString) []
    (((xs.map intToString).map (fun token => token ++ ['.'])).flatten.length + 2) []
    (by
      intro token ht
      obtain ⟨x, hx, rfl⟩ := List.mem_map.mp ht
      exact intToString_no_dot x (hint x hx))
    (by
      have hle : ∀ tokens : List (List Char),
          tokens.length ≤ ((tokens.map (fun token => token ++ ['.'])).flatten).length := by
        intro tokens
        induction tokens with
        | nil => simp
        | cons t ts ih =>
          simp only [List.map_cons, List.flatten_cons, List.length_append, List.length_cons,
            List.length_nil]
          omega
      have := hle (xs.map intToString)
      omega)
  rw [List.nil_append, List.length_nil] at h
  rw [h]
  simp only [List.nil_append, List.map_map, Option.map_some', Option.some.injEq, OID.mk.injEq]
  rw [List.map_congr_left (g := id)]
  · simp
  · intro x hx
    exact atoi_intToString x (hint x hx)

/-- C28: for every non-empty list `xs` of non-negative `int` values, the constructor
`OID(s)` on the dotted-decimal string `s` of `xs` ends and gives the components `xs`,
`toString()` of the OID with the components `xs` is `s`, and the OID built from that string
is `equal` to it; the constructor ends on every string; and `equal` is true exactly when the
two lists of components are the same, in length and in every element. -/
theorem OID.ofString_toString_equal (xs : List Int) (s : List Char) (a b : OID)
    (hne : xs ≠ []) (hint : ∀ x ∈ xs, 0 ≤ x ∧ x < 2 ^ 31) :
    OID.ofString (dottedDecimal xs) = some ⟨xs⟩ ∧
    (OID.mk xs).toString = dottedDecimal xs ∧
    (∃ o : OID, OID.ofString (OID.mk xs).toString = some o ∧ o.equal ⟨xs⟩ = true) ∧
    (∃ o : OID, OID.ofString s = some o) ∧
    (a.equal b = true ↔ a.oid_ = b.oid_) ∧
    (a.equal b = true ↔
      a.oid_.length = b.oid_.length ∧ ∀ i : Nat, a.oid_[i]? = b.oid_[i]?) := by
  have hparse := OID.ofString_dottedDecimal xs hne (fun x hx => (hint x hx).1)
  refine ⟨hparse, OID.toString_eq xs, ⟨⟨xs⟩, ?_, ?_⟩, ?_, OID.equalLoop_iff _ _, ?_⟩
  · rw [OID.toString_eq, hparse]
  · exact (OID.equalLoop_iff _ _).mpr rfl
  · obtain ⟨result, hr⟩ := OID.parseLoop_total (s ++ ['.']) ((s ++ ['.']).length + 2) 0 []
      (Nat.zero_le _) (by omega)
    exact ⟨⟨result⟩, by unfold OID.ofString; rw [hr]; rfl⟩
  · unfold OID.equal
    rw [OID.equalLoop_iff]
    constructor
    · intro h
      rw [h]
      exact ⟨rfl, fun _ => rfl⟩
    · rintro ⟨_, h⟩
      exact List.ext_getElem? h

/-- Witness for C28: the RSA OID 1.2.840.113549.1.1.1. -/
theorem OID.ofString_toString_equal_witness :
    RSA_OID ≠ [] ∧ (∀ x ∈ RSA_OID, 0 ≤ x ∧ x < 2 ^ 31) ∧
    dottedDecimal RSA_OID = "1.2.840.113549.1.1.1".data ∧
    OID.ofString (dottedDecimal RSA_OID) = some ⟨RSA_OID⟩ ∧
    (OID.mk RSA_OID).toString = dottedDecimal RSA_OID :=
  ⟨by decide, by decide, by decide,
    (OID.ofString_toString_equal RSA_OID [] ⟨[]⟩ ⟨[]⟩ (by decide) (by decide)).1,
    (OID.ofString_toString_equal RSA_OID [] ⟨[]⟩ ⟨[]⟩ (by decide) (by decide)).2.1⟩

end NdnCpp
